import Mathlib

/-!
# js-editor: file store, persistence, history, CSV data and timers

A shallow embedding of the code of `src/js/file-manager.js`,
`src/js/file-explorer.js` and `src/js/editor.js` that the statements below
are about: the virtual file store with its selection, the storage slot, the
undo history, the CSV functions of the data editor, and the timers behind the
delayed run and save.

Modelling conventions

* File objects are JavaScript objects and are shared by reference: the object
  held in `fileExplorer.selectedFile` is normally the very object stored in a
  folder array.  The model therefore keeps every file object in a `heap`
  (a list, the address of an object is its position) and lets the folder
  arrays and the selection hold addresses.
* `fileExplorer.files` is an object whose keys are folder names; it is an
  association list in key insertion order.
* A function that can raise returns an `Outcome`: the state reached when the
  function returned, or the state reached when the exception left it.
* The document is reduced to what the code reads back from it: the folder
  button that carries the class `active`, and the `data-folder` values of the
  folder buttons.  Rendering, logging and status messages are not modelled.
* `setTimeout` callbacks are separate events: a callback runs after the
  function that scheduled it has ended, and the one the statements on the file
  store use (`createFileOpenCallback`) has a definition of its own.  The
  timers that run or save the code are a state of their own (`Timers`), apart
  from the file store; the change events of the editors are events of that
  state, and a call of `setValue` raises such an event inside the call.
* The storage slot `jsEditorCode` is kept up to `JSON.parse`: the code only
  tests the stored text for emptiness and parses it.
* The history (`History`) is a state of its own as well: the functions on it
  read and write the three code editors and nothing else of the page.
* Strings of the data code are lists of characters; a number read by
  `parseFloat` is the double nearest to the decimal it was read from.
* What the code leaves to the language, the editor library or the browser,
  and the model does not compute, is a parameter of the definitions: `lower`
  is `String.prototype.toLowerCase` where file names are compared, `raises`
  says whether a call of `setValue` raises the `change` event, and
  `runsScript` says whether the browser runs the script of the preview
  document.
-/

/-! ## JavaScript values used by the persistence code -/

/-- JavaScript values as far as `JSON.parse` produces them, with `undefined`
for a missing property.  Numbers are integers here: the code only tests a
number for being zero.  An object lists each of its keys once. -/
inductive JVal where
  | undefined
  | null
  | bool (b : Bool)
  | num (n : Int)
  | str (s : String)
  | arr (xs : List JVal)
  | obj (kvs : List (String × JVal))

namespace JVal

/-- Approximation of `ToBoolean`: the falsy values are `undefined`, `null`,
`false`, `0` and the empty string. -/
def truthy : JVal → Bool
  | undefined => false
  | null => false
  | bool b => b
  | num n => n != 0
  | str s => s != ""
  | arr _ => true
  | obj _ => true

/-- The test `v === s` against a string. -/
def isStr (v : JVal) (s : String) : Bool :=
  match v with
  | str t => decide (t = s)
  | _ => false

/-- Own-property lookup in the key list of an object literal. -/
def lookupKey (k : String) : List (String × JVal) → Option JVal
  | [] => none
  | (k', v) :: rest => if k' = k then some v else lookupKey k rest

/-- Property read `v.k` for the property names the code uses (none of them is
a built-in member of strings, numbers, booleans or arrays).  Reading a
property of `null` or `undefined` raises a TypeError: `none`. -/
def getProp (v : JVal) (k : String) : Option JVal :=
  match v with
  | undefined => none
  | null => none
  | obj kvs => some ((lookupKey k kvs).getD undefined)
  | _ => some undefined

/-- Assignment `o.k = v` on an object literal: an existing key keeps its
position, a new key goes last. -/
def setKey (k : String) (v : JVal) : List (String × JVal) → List (String × JVal)
  | [] => [(k, v)]
  | (k', v') :: rest => if k' = k then (k, v) :: rest else (k', v') :: setKey k v rest

end JVal

/-- Content of the storage slot `jsEditorCode`, up to `JSON.parse`:
`localStorage.getItem` gives `null` (`absent`), the empty string (`empty`),
a text on which `JSON.parse` raises (`unparsable`), or a text that parses to
the value `v` (`parsed v`). -/
inductive Slot where
  | absent
  | empty
  | unparsable
  | parsed (v : JVal)

/-! ## File objects and the application state -/

/-- A file object.  `size`, `uploaded` and `isImage` are the extra properties
of uploaded files; `none` and `false` stand for a property that is not there. -/
structure FileRecord where
  name : String
  type : String
  icon : String
  content : String
  size : Option Nat := none
  uploaded : Bool := false
  isImage : Bool := false
deriving DecidableEq, Repr

/-- The editors and plain fields of `JSEditor` that the file code touches:
the four CodeMirror buffers, `currentTab` and `_savedFileSystemData`.
`currentTab` is a JavaScript value because `loadSavedCode` assigns it whatever
the stored snapshot holds under `currentFolder`. -/
structure Editors where
  html : String
  css : String
  js : String
  data : String
  currentTab : JVal
  savedFileSystemData : JVal

/-- State of the running page: the `JSEditor` fields, its `FileExplorer`
(`heap`, `files`, `currentFolder`, `selectedFile`), the `FileManager` fields,
the part of the document the code reads back, and the storage slot. -/
structure App extends Editors where
  heap : List FileRecord
  files : List (String × List Nat)
  currentFolder : String
  selectedFile : Option Nat
  fmCurrentFolder : String
  fmSelectedFile : Option Nat
  activeFolder : Option String
  folderBtns : List String
  storage : Slot

/-- Completion of a call that can raise: the state when it returned, or the
state when the exception left the function. -/
inductive Outcome where
  | returned (s : App)
  | raised (s : App)

/-- The state a call ended in, however it ended. -/
def Outcome.state : Outcome → App
  | returned s => s
  | raised s => s

/-- Whether the call ended by an exception. -/
def Outcome.isRaised : Outcome → Bool
  | returned _ => false
  | raised _ => true

/-- Texts of the source that the model does not spell out: the default
contents of the built-in files, the default code of `loadDefaultCode`, and
`FileManager.getDefaultContentForType` (file type, file name). -/
structure Templates where
  visualizationHtml : String
  defaultHtmlContent : String
  defaultCssContent : String
  visualizationJs : String
  defaultJsContent : String
  defaultJsonContent : String
  defaultCsvContent : String
  defaultCodeHtml : String
  defaultCodeCss : String
  defaultCodeJs : String
  getDefaultContentForType : String → String → String

/-! ## Array and string helpers -/

/-- `Array.prototype.findIndex`: position of the first element satisfying
`p`, `none` for `-1`. -/
def findIndex {α : Type} (p : α → Bool) : List α → Option Nat
  | [] => none
  | x :: xs => if p x then some 0 else (findIndex p xs).map (· + 1)

/-- `String.prototype.toLowerCase` on the ASCII letters (other characters are
left as they are): the function of the language agrees with it on every
string of ASCII characters.  It is used for the extension of a file name,
which is compared with the ASCII keys of the type tables. -/
def toLowerCase (s : String) : String :=
  String.mk (s.data.map Char.toLower)

/-- Characters after the last `.` of a character list, or the whole list when
there is no `.`: `fileName.split(".").pop()`. -/
def lastSegment : List Char → List Char
  | [] => []
  | c :: cs => if cs.contains '.' then lastSegment cs else if c = '.' then cs else c :: cs

/-- `fileName.split(".").pop().toLowerCase()`. -/
def extensionOf (fileName : String) : String :=
  toLowerCase (String.mk (lastSegment fileName.data))

/-- `FileManager.getFileType(fileName)`: `typeMap[extension] || "text"`.
The table is an object literal, so the two all-lowercase members of
`Object.prototype` (`constructor`, `__proto__`) are found as well and are
truthy; they are not strings, and the model stores their string coercion. -/
def FileManager.getFileType (fileName : String) : String :=
  let extension := extensionOf fileName
  if extension = "html" then "html"
  else if extension = "htm" then "html"
  else if extension = "css" then "css"
  else if extension = "js" then "javascript"
  else if extension = "javascript" then "javascript"
  else if extension = "json" then "json"
  else if extension = "xml" then "xml"
  else if extension = "txt" then "text"
  else if extension = "md" then "text"
  else if extension = "png" then "image"
  else if extension = "jpg" then "image"
  else if extension = "jpeg" then "image"
  else if extension = "gif" then "image"
  else if extension = "svg" then "image"
  else if extension = "csv" then "csv"
  else if extension = "constructor" then "function Object() \x7b [native code] \x7d"
  else if extension = "__proto__" then "[object Object]"
  else "text"

/-- `FileManager.getFileIcon(fileType)` on the values `getFileType` returns:
`iconMap[fileType] || "fas fa-file"`. -/
def FileManager.getFileIcon (fileType : String) : String :=
  if fileType = "html" then "fab fa-html5"
  else if fileType = "css" then "fab fa-css3-alt"
  else if fileType = "javascript" then "fab fa-js"
  else if fileType = "json" then "fas fa-code"
  else if fileType = "csv" then "fas fa-file-csv"
  else if fileType = "xml" then "fas fa-code"
  else if fileType = "text" then "fas fa-file-alt"
  else if fileType = "image" then "fas fa-image"
  else "fas fa-file"

/-- `JSEditor.getFileType(fileName)`: the table of the editor, in its own
order; see `FileManager.getFileType` for the two inherited members. -/
def JSEditor.getFileType (fileName : String) : String :=
  let extension := extensionOf fileName
  if extension = "html" then "html"
  else if extension = "htm" then "html"
  else if extension = "css" then "css"
  else if extension = "js" then "javascript"
  else if extension = "javascript" then "javascript"
  else if extension = "json" then "json"
  else if extension = "csv" then "csv"
  else if extension = "xml" then "xml"
  else if extension = "txt" then "text"
  else if extension = "md" then "text"
  else if extension = "png" then "image"
  else if extension = "jpg" then "image"
  else if extension = "jpeg" then "image"
  else if extension = "gif" then "image"
  else if extension = "svg" then "image"
  else if extension = "constructor" then "function Object() \x7b [native code] \x7d"
  else if extension = "__proto__" then "[object Object]"
  else "text"

/-- `JSEditor.getFileIcon(fileType)` on the values `getFileType` returns. -/
def JSEditor.getFileIcon (fileType : String) : String :=
  if fileType = "html" then "fab fa-html5"
  else if fileType = "css" then "fab fa-css3-alt"
  else if fileType = "javascript" then "fab fa-js"
  else if fileType = "json" then "fas fa-code"
  else if fileType = "csv" then "fas fa-file-csv"
  else if fileType = "xml" then "fas fa-code"
  else if fileType = "text" then "fas fa-file-alt"
  else if fileType = "image" then "fas fa-image"
  else "fas fa-file"

/-! ## The file store -/

/-- Property read `files[folder]`; `none` is `undefined`. -/
def lookupFolder (folder : String) : List (String × List Nat) → Option (List Nat)
  | [] => none
  | (k, l) :: rest => if k = folder then some l else lookupFolder folder rest

/-- Assignment `files[folder] = l`: an existing key keeps its position, a new
key goes last (folder names are not array indices). -/
def setFolder (folder : String) (l : List Nat) : List (String × List Nat) → List (String × List Nat)
  | [] => [(folder, l)]
  | (k, l') :: rest => if k = folder then (k, l) :: rest else (k, l') :: setFolder folder l rest

/-- The test `f.name === name` on the object at address `r`. -/
def hasName (heap : List FileRecord) (name : String) (r : Nat) : Bool :=
  match heap[r]? with
  | some f => decide (f.name = name)
  | none => false

/-- The test `f.name.toLowerCase() === name.toLowerCase()` on the object at
address `r`.  `lower` is `String.prototype.toLowerCase`, a function of the
language that folds the letters of every script; on a string of ASCII
characters it is `toLowerCase`. -/
def hasNameIgnoringCase (lower : String → String) (heap : List FileRecord) (name : String)
    (r : Nat) : Bool :=
  match heap[r]? with
  | some f => decide (lower f.name = lower name)
  | none => false

/-- Assignment `o.content = content` on the object at address `r`. -/
def setContent (heap : List FileRecord) (r : Nat) (content : String) : List FileRecord :=
  match heap[r]? with
  | some f => heap.set r { f with content := content }
  | none => heap

/-- The file objects of a folder, by value: `files[folder]` read through the
heap (an absent folder reads as empty). -/
def folderRecords (s : App) (folder : String) : List FileRecord :=
  ((lookupFolder folder s.files).getD []).filterMap (fun r => s.heap[r]?)

/-- The object `fileExplorer.selectedFile`, by value. -/
def selectedRecord (s : App) : Option FileRecord :=
  s.selectedFile.bind (fun r => s.heap[r]?)

/-- Every address held by a folder array or by the selection is the address
of an object, and no folder key occurs twice. -/
def App.WellFormed (s : App) : Prop :=
  (∀ kl ∈ s.files, ∀ r ∈ kl.2, r < s.heap.length) ∧
  (∀ r, s.selectedFile = some r → r < s.heap.length) ∧
  (s.files.map Prod.fst).Nodup

/-! ## JSON image of the file system -/

/-- What `JSON.stringify` followed by `JSON.parse` makes of a file object. -/
def FileRecord.toJVal (f : FileRecord) : JVal :=
  JVal.obj
    ([("name", JVal.str f.name), ("type", JVal.str f.type), ("icon", JVal.str f.icon),
      ("content", JVal.str f.content)]
      ++ (match f.size with
          | some n => [("size", JVal.num n)]
          | none => [])
      ++ (if f.uploaded then [("uploaded", JVal.bool true)] else [])
      ++ (if f.isImage then [("isImage", JVal.bool true)] else []))

/-- JSON image of `fileExplorer.files`. -/
def filesToJVal (heap : List FileRecord) (files : List (String × List Nat)) : JVal :=
  JVal.obj (files.map (fun kl =>
    (kl.1, JVal.arr ((kl.2.filterMap (fun r => heap[r]?)).map FileRecord.toJVal))))

/-- JSON image of the object literal `\x7b currentFolder, selectedFile, files \x7d`
that `saveCode` and `saveFileSystemState` build from the file explorer.  No
selection is `null`, as the constructor sets it. -/
def fileSystemToJVal (s : App) : JVal :=
  JVal.obj
    [("currentFolder", JVal.str s.currentFolder),
     ("selectedFile", match selectedRecord s with
                      | some f => f.toJVal
                      | none => JVal.null),
     ("files", filesToJVal s.heap s.files)]

/-! ## FileExplorer -/

/-- `FileExplorer.showFolder(folder)`: sets `currentFolder` and rebuilds the
file list of the document. -/
def FileExplorer.showFolder (s : App) (folder : String) : App :=
  { s with currentFolder := folder }

/-- `FileExplorer.saveCurrentFileContent()`: writes the buffer that belongs to
the type of the selected file into the selected object and into the first
object of the same name in the folder that belongs to that type, both only
when the buffer is not empty. -/
def FileExplorer.saveCurrentFileContent (s : App) : App :=
  match s.selectedFile with
  | none => s
  | some sel =>
    match s.heap[sel]? with
    | none => s
    | some selectedFile =>
      let contentAndFolder : String × String :=
        if selectedFile.type = "html" then (s.html, "html")
        else if selectedFile.type = "css" then (s.css, "css")
        else if selectedFile.type = "javascript" then (s.js, "javascript")
        else if selectedFile.type = "json" ∨ selectedFile.type = "csv" then (s.data, "assets")
        else ("", "")
      let content := contentAndFolder.1
      let targetFolder := contentAndFolder.2
      if content ≠ "" ∧ targetFolder ≠ "" then
        let heap1 := setContent s.heap sel content
        match lookupFolder targetFolder s.files with
        | none => { s with heap := heap1 }
        | some folderFiles =>
          match findIndex (hasName heap1 selectedFile.name) folderFiles with
          | none => { s with heap := heap1 }
          | some fileIndex =>
            match folderFiles[fileIndex]? with
            | none => { s with heap := heap1 }
            | some r => { s with heap := setContent heap1 r content }
      else s

/-! ## JSEditor: tabs -/

/-- `this.getCurrentTab()`.  `JSEditor` has three calls of this method and no
definition of it (no other file defines it either), so the call raises a
TypeError. -/
def JSEditor.getCurrentTab (_s : App) : Except String String :=
  Except.error "TypeError: this.getCurrentTab is not a function"

/-- Shared body of `saveCurrentFile` and `saveCurrentEditorContentToFile`
after `currentTab` is known: the buffer and folder of the tab, and the write
into the selected object and the store when the file type fits the tab.
The result is `none` when the type does not fit. -/
def JSEditor.writeTabToSelected (s : App) (sel : Nat) (selectedFile : FileRecord)
    (currentTab : String) : Option App :=
  let contentAndFolder : String × String :=
    if currentTab = "html" then (s.html, "html")
    else if currentTab = "css" then (s.css, "css")
    else if currentTab = "js" then (s.js, "javascript")
    else if currentTab = "data" then (s.data, "assets")
    else ("", "")
  let content := contentAndFolder.1
  let targetFolder := contentAndFolder.2
  if selectedFile.type = targetFolder ∨ (selectedFile.type = "json" ∧ currentTab = "data")
      ∨ (selectedFile.type = "csv" ∧ currentTab = "data") then
    let heap1 := setContent s.heap sel content
    match lookupFolder targetFolder s.files with
    | none => some { s with heap := heap1 }
    | some folderFiles =>
      match findIndex (hasName heap1 selectedFile.name) folderFiles with
      | none => some { s with heap := heap1 }
      | some fileIndex =>
        match folderFiles[fileIndex]? with
        | none => some { s with heap := heap1 }
        | some r => some { s with heap := setContent heap1 r content }
  else none

/-- `JSEditor.saveCurrentEditorContentToFile()`: its first statement is the
call of `getCurrentTab`. -/
def JSEditor.saveCurrentEditorContentToFile (s : App) : Outcome :=
  match JSEditor.getCurrentTab s with
  | Except.error _ => Outcome.raised s
  | Except.ok currentTab =>
    match s.selectedFile with
    | none => Outcome.returned s
    | some sel =>
      match s.heap[sel]? with
      | none => Outcome.returned s
      | some selectedFile =>
        match JSEditor.writeTabToSelected s sel selectedFile currentTab with
        | some s1 => Outcome.returned s1
        | none => Outcome.returned s

/-- `JSEditor.switchTab(tab)`: flushes through `saveCurrentEditorContentToFile`
when the tab changes, then sets `currentTab` (the panel `tab + "-panel"` is
taken to exist in the document). -/
def JSEditor.switchTab (s : App) (tab : String) : Outcome :=
  let flushed : Outcome :=
    if s.currentTab.truthy ∧ ¬ s.currentTab.isStr tab then JSEditor.saveCurrentEditorContentToFile s
    else Outcome.returned s
  match flushed with
  | Outcome.raised s1 => Outcome.raised s1
  | Outcome.returned s1 => Outcome.returned { s1 with currentTab := JVal.str tab }

/-! ## FileExplorer: opening and selecting -/

/-- The expression `a || b` on strings. -/
def orElse (a b : String) : String :=
  if a ≠ "" then a else b

/-- `editors[targetTab].setValue(content)` for the three code editors. -/
def setEditorValue (s : App) (targetTab : String) (content : String) : App :=
  if targetTab = "html" then { s with html := content }
  else if targetTab = "css" then { s with css := content }
  else if targetTab = "js" then { s with js := content }
  else s

/-- `FileExplorer.loadDataToEditor(content, fileType, fileName)`: sets the
data editor to `content || ""` (the data editor is taken to exist; the preview
is not modelled, the timer calls are `FileExplorer.loadDataToEditorTimers`).
The test `dataEditor.hasAttribute(...)` that follows raises a TypeError: the
data editor is the object `CodeMirror.fromTextArea` returned, which has no
method `hasAttribute`. -/
def FileExplorer.loadDataToEditor (s : App) (content : String) : Outcome :=
  Outcome.raised { s with data := content }

/-- Tail of `FileExplorer.openFile` for the files shown in a code editor:
`switchTab(targetTab)`, `setValue(content)`, `this.selectedFile = file`. -/
def FileExplorer.openInEditor (s : App) (file : Nat) (targetTab content : String) : Outcome :=
  match JSEditor.switchTab s targetTab with
  | Outcome.raised s1 => Outcome.raised s1
  | Outcome.returned s1 =>
    Outcome.returned { setEditorValue s1 targetTab content with selectedFile := some file }

/-- `FileExplorer.openFile(file)`.  The selected file is flushed first when it
is another object than `file`; the fields of `file` are read after that.  An
address outside the heap denotes no object, and the state is then left as it
is. -/
def FileExplorer.openFile (s : App) (file : Nat) : Outcome :=
  let s1 :=
    if s.selectedFile.isSome ∧ s.selectedFile ≠ some file then FileExplorer.saveCurrentFileContent s
    else s
  match s1.heap[file]? with
  | none => Outcome.returned s1
  | some f =>
    if f.type = "html" then
      FileExplorer.openInEditor s1 file "html" (orElse f.content ("<!-- " ++ f.name ++ " -->\n\n"))
    else if f.type = "css" then
      FileExplorer.openInEditor s1 file "css" (orElse f.content ("/* " ++ f.name ++ " */\n\n"))
    else if f.type = "javascript" then
      FileExplorer.openInEditor s1 file "js" (orElse f.content ("// " ++ f.name ++ "\n\n"))
    else if f.type = "json" ∨ f.type = "csv" then
      match JSEditor.switchTab s1 "data" with
      | Outcome.raised s2 => Outcome.raised s2
      | Outcome.returned s2 =>
        match FileExplorer.loadDataToEditor s2 f.content with
        | Outcome.raised s3 => Outcome.raised s3
        | Outcome.returned s3 => Outcome.returned { s3 with selectedFile := some file }
    else if f.type = "text" then
      FileExplorer.openInEditor s1 file "html" ("<pre>" ++ f.content ++ "</pre>")
    else Outcome.returned s1

/-- `FileExplorer.selectFile(file, fileItem)`. -/
def FileExplorer.selectFile (s : App) (file : Nat) : App :=
  { s with selectedFile := some file }

/-- The click listener that `createFileItem` puts on the item of `file`:
`this.openFile(file); this.selectFile(file, fileItem);`. -/
def FileExplorer.fileItemClick (s : App) (file : Nat) : Outcome :=
  match FileExplorer.openFile s file with
  | Outcome.raised s1 => Outcome.raised s1
  | Outcome.returned s1 => Outcome.returned (FileExplorer.selectFile s1 file)

/-- `FileExplorer.switchFolder(folder)`: moves the class `active` to the
button of `folder` (a TypeError when the document has no such button) and
shows the folder. -/
def FileExplorer.switchFolder (s : App) (folder : String) : Outcome :=
  if folder ∈ s.folderBtns then
    Outcome.returned (FileExplorer.showFolder { s with activeFolder := some folder } folder)
  else Outcome.raised { s with activeFolder := none }

/-! ## FileManager -/

/-- `FileManager.getCurrentFolder()`: the folder of the active folder button
when there is one (remembered in `this.currentFolder`), else the remembered
folder. -/
def FileManager.getCurrentFolder (s : App) : App × String :=
  match s.activeFolder with
  | some folder => ({ s with fmCurrentFolder := folder }, folder)
  | none => (s, s.fmCurrentFolder)

/-- `FileManager.saveFileSystemState()`: puts the file system of the explorer
under the key `fileSystem` of the value parsed from the slot (or of a new
object) and stores the result.  An assignment to a property of `null` or of a
primitive raises (class bodies are strict code), which the function catches
without writing; a property set on an array is not part of its JSON text. -/
def FileManager.saveFileSystemState (s : App) : App :=
  let fileSystem := fileSystemToJVal s
  let completeData : JVal :=
    match s.storage with
    | Slot.parsed v => v
    | _ => JVal.obj []
  match completeData with
  | JVal.obj kvs => { s with storage := Slot.parsed (JVal.obj (JVal.setKey "fileSystem" fileSystem kvs)) }
  | JVal.arr xs => { s with storage := Slot.parsed (JVal.arr xs) }
  | _ => s

/-- `FileManager.createFile(fileName)`.  The body runs in a `try` whose
handler only reports; an exception raised by `switchTab` therefore ends the
function after the new object has been pushed and before the file system is
written to the slot.  The callback that opens the new file 100 ms later is
`FileManager.createFileOpenCallback`. -/
def FileManager.createFile (T : Templates) (s : App) (fileName : String) : App :=
  let fileType := FileManager.getFileType fileName
  let s1 := (FileManager.getCurrentFolder s).1
  let currentFolder := (FileManager.getCurrentFolder s).2
  let newFile : FileRecord :=
    { name := fileName, type := fileType, icon := FileManager.getFileIcon fileType,
      content := T.getDefaultContentForType fileType fileName }
  let nameExists : Bool :=
    match lookupFolder currentFolder s1.files with
    | some l => l.any (hasName s1.heap fileName)
    | none => false
  if nameExists then s1
  else
    let files1 :=
      match lookupFolder currentFolder s1.files with
      | some _ => s1.files
      | none => setFolder currentFolder [] s1.files
    let r := s1.heap.length
    let s2 : App :=
      { s1 with
        heap := s1.heap ++ [newFile],
        files := setFolder currentFolder ((lookupFolder currentFolder files1).getD [] ++ [r]) files1 }
    let s3 := FileExplorer.showFolder s2 currentFolder
    let switched : Outcome :=
      if fileType = "html" ∨ fileType = "css" ∨ fileType = "javascript" then
        JSEditor.switchTab s3 (if fileType = "javascript" then "js" else fileType)
      else if fileType = "json" ∨ fileType = "csv" then
        JSEditor.switchTab s3 "data"
      else Outcome.returned s3
    match switched with
    | Outcome.raised s4 => s4
    | Outcome.returned s4 => FileManager.saveFileSystemState s4

/-- The callback `() => fileExplorer.openFile(newFile)` that `createFile`
schedules after a `switchTab` that returned; `newFile` is the address of the
object `createFile` pushed. -/
def FileManager.createFileOpenCallback (s : App) (newFile : Nat) : Outcome :=
  FileExplorer.openFile s newFile

/-- `FileManager.confirmDeleteFile(fileName)`.  When `files[currentFolder]`
is `undefined` the call of `findIndex` raises and the handler only reports.
`this.selectedFile = null` is the field of the file manager. -/
def FileManager.confirmDeleteFile (s : App) (fileName : String) : App :=
  let s1 := (FileManager.getCurrentFolder s).1
  let currentFolder := (FileManager.getCurrentFolder s).2
  match lookupFolder currentFolder s1.files with
  | none => s1
  | some l =>
    let s2 : App :=
      match findIndex (hasName s1.heap fileName) l with
      | some index => { s1 with files := setFolder currentFolder (l.eraseIdx index) s1.files }
      | none => s1
    let s3 : App := { s2 with fmSelectedFile := none }
    let s4 := FileExplorer.showFolder s3 currentFolder
    FileManager.saveFileSystemState s4

/-! ## JSEditor: saving -/

/-- `JSEditor.saveCurrentEditorContent()`: its first statement is the call of
`getCurrentTab`; the rest only reports. -/
def JSEditor.saveCurrentEditorContent (s : App) : Outcome :=
  match JSEditor.getCurrentTab s with
  | Except.error _ => Outcome.raised s
  | Except.ok _ => Outcome.returned s

/-- `JSEditor.saveCurrentFile()`.  The call of `getCurrentTab` stands before
the `try`; the mismatch error raised inside the `try` is caught there. -/
def JSEditor.saveCurrentFile (s : App) : Outcome :=
  match s.selectedFile with
  | none => JSEditor.saveCurrentEditorContent s
  | some sel =>
    match s.heap[sel]? with
    | none => JSEditor.saveCurrentEditorContent s
    | some selectedFile =>
      match JSEditor.getCurrentTab s with
      | Except.error _ => Outcome.raised s
      | Except.ok currentTab =>
        match JSEditor.writeTabToSelected s sel selectedFile currentTab with
        | some s1 => Outcome.returned s1
        | none => Outcome.returned s

/-- JSON image of the object `codeData` that `saveCode` builds; `now` is
`new Date().toISOString()`. -/
def codeDataToJVal (s : App) (now : String) : JVal :=
  JVal.obj
    [("html", JVal.str s.html),
     ("css", JVal.str s.css),
     ("js", JVal.str s.js),
     ("d3", JVal.str ""),
     ("timestamp", JVal.str now),
     ("fileSystem", fileSystemToJVal s),
     ("currentFolder", if s.currentTab.truthy then s.currentTab else JVal.str "html")]

/-- `JSEditor.saveCode()`: `saveCurrentFile()`, then the write of `codeData`
to the slot. -/
def JSEditor.saveCode (s : App) (now : String) : Outcome :=
  match JSEditor.saveCurrentFile s with
  | Outcome.raised s1 => Outcome.raised s1
  | Outcome.returned s1 => Outcome.returned { s1 with storage := Slot.parsed (codeDataToJVal s1 now) }

/-! ## JSEditor: loading -/

/-- `JSEditor.loadDefaultCode()`. -/
def JSEditor.loadDefaultCode (T : Templates) (e : Editors) : Editors :=
  { e with html := T.defaultCodeHtml, css := T.defaultCodeCss, js := T.defaultCodeJs }

/-- Argument `v || ""` of a `setValue` call of `loadSavedCode`, as the text
the editor ends up with.  CodeMirror splits the argument with
`String.prototype.split`, so a truthy value that is not a string makes
`setValue` raise a TypeError: `none`. -/
def editorText (v : JVal) : Option String :=
  match v with
  | JVal.str t => some t
  | w => if w.truthy then none else some ""

/-- `JSEditor.loadSavedCode()` on the slot content.  Every exception inside
the `try` (a property read on `null`, a `setValue` that raises) ends in
`loadDefaultCode()`; `_savedFileSystemData` is assigned after the three
`setValue` calls. -/
def JSEditor.loadSavedCode (T : Templates) (slot : Slot) (e : Editors) : Editors :=
  match slot with
  | Slot.parsed codeData =>
    match codeData.getProp "currentFolder" with
    | none => JSEditor.loadDefaultCode T e
    | some currentFolder =>
      let e1 : Editors := if currentFolder.truthy then { e with currentTab := currentFolder } else e
      match editorText ((codeData.getProp "html").getD JVal.undefined),
            editorText ((codeData.getProp "css").getD JVal.undefined),
            editorText ((codeData.getProp "js").getD JVal.undefined) with
      | some h, some c, some j =>
        { e1 with html := h, css := c, js := j,
                  savedFileSystemData := (codeData.getProp "fileSystem").getD JVal.undefined }
      | _, _, _ => JSEditor.loadDefaultCode T e1
  | _ => JSEditor.loadDefaultCode T e

/-! ## FileExplorer: construction -/

/-- The built-in file set of `FileExplorer.initializeFiles`, by value. -/
def defaultFiles (T : Templates) : List (String × List FileRecord) :=
  [("html",
      [{ name := "clock.html", type := "html", icon := "fab fa-html5", content := T.visualizationHtml },
       { name := "index.html", type := "html", icon := "fab fa-html5", content := T.defaultHtmlContent }]),
   ("css",
      [{ name := "clock.css", type := "css", icon := "fab fa-css3-alt", content := T.defaultCssContent },
       { name := "style.css", type := "css", icon := "fab fa-css3-alt", content := T.defaultCssContent }]),
   ("javascript",
      [{ name := "clock.js", type := "javascript", icon := "fab fa-js", content := T.visualizationJs },
       { name := "script.js", type := "javascript", icon := "fab fa-js", content := T.defaultJsContent }]),
   ("assets",
      [{ name := "data.json", type := "json", icon := "fas fa-chart-line", content := T.defaultJsonContent },
       { name := "data.csv", type := "csv", icon := "fas fa-file-csv", content := T.defaultCsvContent }])]

/-- A file table as a JavaScript value. -/
def tableToJVal (table : List (String × List FileRecord)) : JVal :=
  JVal.obj (table.map (fun kl => (kl.1, JVal.arr (kl.2.map FileRecord.toJVal))))

/-- `FileExplorer.initializeFiles()`: the value that becomes `this.files`.
It is `_savedFileSystemData.files` when both are truthy, else
`fileSystem.files` of the parsed slot when both are truthy (an exception in
that attempt is caught), else the built-in file set. -/
def FileExplorer.initializeFiles (T : Templates) (e : Editors) (slot : Slot) : JVal :=
  let fromEditor : Option JVal :=
    if e.savedFileSystemData.truthy then
      match e.savedFileSystemData.getProp "files" with
      | some files => if files.truthy then some files else none
      | none => none
    else none
  match fromEditor with
  | some files => files
  | none =>
    let fromSlot : Option JVal :=
      match slot with
      | Slot.parsed parsedData =>
        match parsedData.getProp "fileSystem" with
        | some fileSystem =>
          if fileSystem.truthy then
            match fileSystem.getProp "files" with
            | some files => if files.truthy then some files else none
            | none => none
          else none
        | none => none
      | _ => none
    match fromSlot with
    | some files => files
    | none => tableToJVal (defaultFiles T)

/-- Reading of a stored file object: `name`, `type`, `icon` and `content`
must be strings; `size`, `uploaded` and `isImage` are read when present.
`none` when the value is not a file object of the model. -/
def decodeRecord (v : JVal) : Option FileRecord :=
  match v with
  | JVal.obj kvs =>
    match JVal.lookupKey "name" kvs, JVal.lookupKey "type" kvs,
          JVal.lookupKey "icon" kvs, JVal.lookupKey "content" kvs with
    | some (JVal.str name), some (JVal.str type), some (JVal.str icon), some (JVal.str content) =>
      let size : Option (Option Nat) :=
        match JVal.lookupKey "size" kvs with
        | none => some none
        | some (JVal.num n) => if 0 ≤ n then some (some n.toNat) else none
        | some _ => none
      let uploaded : Option Bool :=
        match JVal.lookupKey "uploaded" kvs with
        | none => some false
        | some (JVal.bool b) => some b
        | some _ => none
      let isImage : Option Bool :=
        match JVal.lookupKey "isImage" kvs with
        | none => some false
        | some (JVal.bool b) => some b
        | some _ => none
      match size, uploaded, isImage with
      | some sz, some up, some im =>
        some { name := name, type := type, icon := icon, content := content,
               size := sz, uploaded := up, isImage := im }
      | _, _, _ => none
    | _, _, _, _ => none
  | _ => none

/-- Reading of a stored folder array. -/
def decodeFolder (v : JVal) : Option (List FileRecord) :=
  match v with
  | JVal.arr xs => xs.mapM decodeRecord
  | _ => none

/-- Reading of a stored `files` object as a file table. -/
def decodeTable (v : JVal) : Option (List (String × List FileRecord)) :=
  match v with
  | JVal.obj kvs => kvs.mapM (fun kv => (decodeFolder kv.2).map (fun l => (kv.1, l)))
  | _ => none

/-- Puts the file objects of a table on the heap, one new object per entry,
and returns the heap with the folder arrays of addresses. -/
def allocTable : List (String × List FileRecord) → List FileRecord →
    List FileRecord × List (String × List Nat)
  | [], heap => (heap, [])
  | (k, recs) :: rest, heap =>
    let tail := allocTable rest (heap ++ recs)
    (tail.1, (k, List.range' heap.length recs.length) :: tail.2)

/-- `new FileExplorer(editor)` followed by the field initialisers of
`new FileManager(editor)`, for stored data that the model can hold
(`none` otherwise): `initializeFiles()`, then `init()`, which shows `html`,
restores `currentFolder` and `selectedFile` from `_savedFileSystemData` when
that is truthy, and marks the button of the current folder.  The restored
selection is the parsed object, not an object of a folder array.  The
element `fileList` is taken to exist. -/
def FileExplorer.construct (T : Templates) (e : Editors) (slot : Slot)
    (folderBtns : List String) : Option App :=
  match decodeTable (FileExplorer.initializeFiles T e slot) with
  | none => none
  | some table =>
    let store := allocTable table []
    let restoredFolder : Option String :=
      if e.savedFileSystemData.truthy then
        match (e.savedFileSystemData.getProp "currentFolder").getD JVal.undefined with
        | JVal.str f => some (orElse f "html")
        | w => if w.truthy then none else some "html"
      else some "html"
    let restoredSelection : Option (Option FileRecord) :=
      if e.savedFileSystemData.truthy then
        let w := (e.savedFileSystemData.getProp "selectedFile").getD JVal.undefined
        if w.truthy then (decodeRecord w).map some else some none
      else some none
    match restoredFolder, restoredSelection with
    | some folder, some selection =>
      some
        { toEditors := e,
          heap := store.1 ++ selection.toList,
          files := store.2,
          currentFolder := folder,
          selectedFile := selection.map (fun _ => store.1.length),
          fmCurrentFolder := "html",
          fmSelectedFile := none,
          activeFolder := if folder ∈ folderBtns then some folder else none,
          folderBtns := folderBtns,
          storage := slot }
    | _, _ => none

/-- `new JSEditor()` as far as the file code goes: the constructor sets
`currentTab` to `html` and leaves `_savedFileSystemData` unassigned, and
`init()` runs `loadSavedCode()`, then `new FileExplorer(this)`.  The buffers
of `e` are the texts `setupEditors` found in the document. -/
def JSEditor.init (T : Templates) (slot : Slot) (e : Editors) (folderBtns : List String) :
    Option App :=
  let e0 : Editors := { e with currentTab := JVal.str "html", savedFileSystemData := JVal.undefined }
  FileExplorer.construct T (JSEditor.loadSavedCode T slot e0) slot folderBtns

/-! ## JSEditor: upload -/

/-- The properties of an uploaded `File` that the code reads. -/
structure UploadedFile where
  name : String
  size : Nat

/-- `JSEditor.getCurrentFolder()`: the folder of the active folder button, or
`html`. -/
def JSEditor.getCurrentFolder (s : App) : String :=
  s.activeFolder.getD "html"

/-- `JSEditor.loadDefaultDataFiles()`: loads `data.json`, else `data.csv`, of
the folder `assets` into the data editor (the retry while `assets` is missing
is a timer).  The exception of `loadDataToEditor` is not caught here. -/
def JSEditor.loadDefaultDataFiles (s : App) : Outcome :=
  match lookupFolder "assets" s.files with
  | none => Outcome.returned s
  | some assetsFiles =>
    match (assetsFiles.find? (hasName s.heap "data.json")).bind (fun r => s.heap[r]?) with
    | some jsonFile => FileExplorer.loadDataToEditor s jsonFile.content
    | none =>
      match (assetsFiles.find? (hasName s.heap "data.csv")).bind (fun r => s.heap[r]?) with
      | some csvFile => FileExplorer.loadDataToEditor s csvFile.content
      | none => Outcome.returned s

/-- `JSEditor.switchFolderEditor(folder)`: moves the class `active` to the
button of `folder` (a TypeError when there is none) and sets `currentTab`;
for `assets` it loads the default data file instead of showing an editor, and
is left by the exception of that load when there is such a file. -/
def JSEditor.switchFolderEditor (s : App) (folder : String) : Outcome :=
  if folder ∈ s.folderBtns then
    let s1 : App := { s with activeFolder := some folder }
    if folder = "assets" then
      JSEditor.loadDefaultDataFiles { s1 with currentTab := JVal.str "data" }
    else
      let targetTab : String :=
        if folder = "css" then "css" else if folder = "javascript" then "js" else "html"
      Outcome.returned { s1 with currentTab := JVal.str targetTab }
  else Outcome.raised { s with activeFolder := none }

/-- `JSEditor.openFileInEditor(fileType, content, file)`. -/
def JSEditor.openFileInEditor (s : App) (fileType content : String) : Outcome :=
  if fileType = "json" ∨ fileType = "csv" then JSEditor.switchFolderEditor s "assets"
  else
    let targetTab : String :=
      if fileType = "css" then "css" else if fileType = "javascript" then "js" else "html"
    match JSEditor.switchFolderEditor s (JSEditor.getCurrentFolder s) with
    | Outcome.raised s1 => Outcome.raised s1
    | Outcome.returned s1 => Outcome.returned (setEditorValue s1 targetTab content)

/-- The object `newFile` that `addFileToFileExplorer` builds. -/
def JSEditor.newUploadedFile (file : UploadedFile) (content fileName : String) : FileRecord :=
  { name := file.name, type := JSEditor.getFileType fileName,
    icon := JSEditor.getFileIcon (JSEditor.getFileType fileName),
    content := content, size := some file.size, uploaded := true }

/-- `JSEditor.addFileToFileExplorer(file, content, fileName, folder)`.
`lower` is `String.prototype.toLowerCase`, with which the names are compared.
`shouldReplace` and `shouldOpen` are the answers to the two `confirm`
questions (each is asked only on its branch).  The new object is put on the
heap where it is stored; when the upload is declined it is never reachable. -/
def JSEditor.addFileToFileExplorer (lower : String → String) (s : App) (file : UploadedFile)
    (content fileName folder : String) (shouldReplace shouldOpen : Bool) : Outcome :=
  let fileType := JSEditor.getFileType fileName
  let newFile : FileRecord := JSEditor.newUploadedFile file content fileName
  let files1 :=
    match lookupFolder folder s.files with
    | some _ => s.files
    | none => setFolder folder [] s.files
  let folderFiles := (lookupFolder folder files1).getD []
  let r := s.heap.length
  let stored : Option App :=
    match findIndex (hasNameIgnoringCase lower s.heap file.name) folderFiles with
    | some existingFileIndex =>
      if shouldReplace then
        some { s with heap := s.heap ++ [newFile],
                      files := setFolder folder (folderFiles.set existingFileIndex r) files1 }
      else none
    | none =>
      some { s with heap := s.heap ++ [newFile],
                    files := setFolder folder (folderFiles ++ [r]) files1 }
  match stored with
  | none => Outcome.returned { s with files := files1 }
  | some s1 =>
    if (fileType = "html" ∨ fileType = "css" ∨ fileType = "javascript") ∧ shouldOpen then
      JSEditor.openFileInEditor s1 fileType content
    else Outcome.returned s1

/-! ## The editor and folder of a file type -/

/-- The folder in which `saveCurrentFileContent` looks a file of the given
type up (`targetFolder` of its `switch`); empty for the other types. -/
def folderOfType (fileType : String) : String :=
  if fileType = "html" then "html"
  else if fileType = "css" then "css"
  else if fileType = "javascript" then "javascript"
  else if fileType = "json" ∨ fileType = "csv" then "assets"
  else ""

/-- The text of the editor that `saveCurrentFileContent` reads for a file of
the given type; empty for the other types. -/
def bufferOfType (s : App) (fileType : String) : String :=
  if fileType = "html" then s.html
  else if fileType = "css" then s.css
  else if fileType = "javascript" then s.js
  else if fileType = "json" ∨ fileType = "csv" then s.data
  else ""

/-- The tab of the three code file types. -/
def tabOfType (fileType : String) : String :=
  if fileType = "javascript" then "js" else fileType

/-- The object that `saveCurrentFileContent` finds by name for the selected
file `f`: the first object named like `f` in the folder that belongs to the
type of `f`. -/
def FileExplorer.flushTarget (s : App) (f : FileRecord) : Option Nat :=
  (lookupFolder (folderOfType f.type) s.files).bind
    (fun l => (findIndex (hasName s.heap f.name) l).bind (fun i => l[i]?))

/-! ## The store by value -/

/-- Lookup of a folder in a file table. -/
def lookupTable (folder : String) : List (String × List FileRecord) → Option (List FileRecord)
  | [] => none
  | (k, l) :: rest => if k = folder then some l else lookupTable folder rest

/-- The file table of a store: every folder array read through the heap. -/
def storeTable (heap : List FileRecord) (files : List (String × List Nat)) :
    List (String × List FileRecord) :=
  files.map (fun kl => (kl.1, kl.2.filterMap (fun r => heap[r]?)))

/-! ## Frames -/

/-- Two heaps hold, address by address, the same objects up to `content`. -/
def ContentOnly (h h' : List FileRecord) : Prop :=
  ∀ x : Nat, (h'[x]?).map (fun f : FileRecord => { f with content := "" })
      = (h[x]?).map (fun f : FileRecord => { f with content := "" })

/-- The state `s'` differs from `s` at most in the contents of file objects. -/
def SameButContents (s s' : App) : Prop :=
  s'.toEditors = s.toEditors ∧ s'.files = s.files ∧ s'.currentFolder = s.currentFolder ∧
  s'.selectedFile = s.selectedFile ∧ s'.fmCurrentFolder = s.fmCurrentFolder ∧
  s'.fmSelectedFile = s.fmSelectedFile ∧ s'.activeFolder = s.activeFolder ∧
  s'.folderBtns = s.folderBtns ∧ s'.storage = s.storage ∧ ContentOnly s.heap s'.heap

/-- The state `s'` differs from `s` at most in the contents of file objects,
the editors with `currentTab`, and the selection, which is the old one or
`file`. -/
def OpenedFrom (s s' : App) (file : Nat) : Prop :=
  s'.files = s.files ∧ s'.currentFolder = s.currentFolder ∧
  s'.fmCurrentFolder = s.fmCurrentFolder ∧ s'.fmSelectedFile = s.fmSelectedFile ∧
  s'.activeFolder = s.activeFolder ∧ s'.folderBtns = s.folderBtns ∧ s'.storage = s.storage ∧
  ContentOnly s.heap s'.heap ∧ (s'.selectedFile = s.selectedFile ∨ s'.selectedFile = some file)

/-! ## Selection validity -/

/-- The files whose items the file list shows: `files[currentFolder]`. -/
def shownFiles (s : App) : List Nat :=
  (lookupFolder s.currentFolder s.files).getD []

/-- Selection validity as claimed: a selected file has the name of a file of
the current folder. -/
def SelectionInCurrentFolder (s : App) : Prop :=
  ∀ f, selectedRecord s = some f → ∃ g ∈ folderRecords s s.currentFolder, g.name = f.name

/-- Selection validity as the code keeps it: a selected file has the name of a
file of some folder of the store. -/
def SelectionInStore (s : App) : Prop :=
  ∀ f, selectedRecord s = some f → ∃ folder, ∃ g ∈ folderRecords s folder, g.name = f.name

/-- States the page reaches from a first visit (empty slot) by reloading
(`init` restores from the slot), showing or switching folders, opening or
selecting a file of the shown folder, and deleting a file whose name is not
the name of the selected file. -/
inductive Reachable (T : Templates) : App → Prop where
  | init (e : Editors) (btns : List String) (s : App) :
      JSEditor.init T Slot.absent e btns = some s → Reachable T s
  | reload (s : App) (e : Editors) (btns : List String) (s' : App) :
      Reachable T s → JSEditor.init T s.storage e btns = some s' → Reachable T s'
  | showFolder (s : App) (folder : String) :
      Reachable T s → Reachable T (FileExplorer.showFolder s folder)
  | switchFolder (s : App) (folder : String) :
      Reachable T s → Reachable T (FileExplorer.switchFolder s folder).state
  | openFile (s : App) (file : Nat) :
      Reachable T s → file ∈ shownFiles s → Reachable T (FileExplorer.openFile s file).state
  | selectFile (s : App) (file : Nat) :
      Reachable T s → file ∈ shownFiles s → Reachable T (FileExplorer.selectFile s file)
  | confirmDeleteFile (s : App) (fileName : String) :
      Reachable T s → (∀ f, selectedRecord s = some f → f.name ≠ fileName) →
      Reachable T (FileManager.confirmDeleteFile s fileName)

/-- What the reachable states keep in the storage slot: nothing, or the file
system of a state whose selection is in the store. -/
def SlotInStore (slot : Slot) : Prop :=
  slot = Slot.absent ∨
    ∃ s0 : App, SelectionInStore s0 ∧
      slot = Slot.parsed (JVal.obj [("fileSystem", fileSystemToJVal s0)])

/-! ## Reading a snapshot -/

/-- The value `fileSystem.files` of a parsed snapshot; `undefined` when a step
of the path is missing. -/
def snapshotFiles (v : JVal) : JVal :=
  (((v.getProp "fileSystem").getD JVal.undefined).getProp "files").getD JVal.undefined

/-- The editors before `loadSavedCode`, as the constructor leaves them. -/
def freshEditors (e : Editors) : Editors :=
  { e with currentTab := JVal.str "html", savedFileSystemData := JVal.undefined }

/-- The texts of the html, css and js editors. -/
def codeBuffers (e : Editors) : String × String × String :=
  (e.html, e.css, e.js)

/-- The keys of the object parsed from the slot; no keys for another slot
content. -/
def Slot.topKeys : Slot → List String
  | Slot.parsed (JVal.obj kvs) => kvs.map Prod.fst
  | _ => []

/-! ## JSEditor: history -/

/-- An entry of `history.stack`: the object `currentState` of `saveToHistory`;
`timestamp` is `Date.now()`. -/
structure HistoryEntry where
  html : String
  css : String
  js : String
  d3 : String
  timestamp : Int
deriving DecidableEq, Repr

/-- The object `this.history`. -/
structure History where
  stack : List HistoryEntry
  currentIndex : Int
  maxHistorySize : Nat
deriving DecidableEq, Repr

/-- The history the constructor of `JSEditor` sets up. -/
def History.initial : History :=
  { stack := [], currentIndex := -1, maxHistorySize := 50 }

/-- `xs.slice(0, end)`: a negative `end` counts from the end of the array. -/
def sliceTo {α : Type} (xs : List α) (stop : Int) : List α :=
  if 0 ≤ stop then xs.take stop.toNat else xs.take ((xs.length : Int) + stop).toNat

/-- The object `currentState` that `saveToHistory` builds from the editors at
the time `now`. -/
def JSEditor.currentState (e : Editors) (now : Int) : HistoryEntry :=
  { html := e.html, css := e.css, js := e.js, d3 := "", timestamp := now }

/-- `JSEditor.saveToHistory()`. -/
def JSEditor.saveToHistory (h : History) (e : Editors) (now : Int) : History :=
  let currentState := JSEditor.currentState e now
  let stack1 :=
    if h.currentIndex < (h.stack.length : Int) - 1 then sliceTo h.stack (h.currentIndex + 1)
    else h.stack
  let stack2 := stack1 ++ [currentState]
  let index2 := h.currentIndex + 1
  if stack2.length > h.maxHistorySize then
    { h with stack := stack2.tail, currentIndex := index2 - 1 }
  else { h with stack := stack2, currentIndex := index2 }

/-- What `undo` reports: the status line of a restore, the status line
`nothing to undo`, or the TypeError of reading a field of `undefined` when
`stack[currentIndex]` is no entry. -/
inductive UndoReport where
  | restored
  | nothingToUndo
  | raised
deriving DecidableEq, Repr

/-- `JSEditor.undo()`: the history, the editors and the report.  `runCode`
changes neither the history nor the editors.  The index of the read is
not negative, as it follows the test `currentIndex > 0`. -/
def JSEditor.undo (h : History) (e : Editors) : History × Editors × UndoReport :=
  if h.currentIndex > 0 then
    let h1 : History := { h with currentIndex := h.currentIndex - 1 }
    match h1.stack[h1.currentIndex.toNat]? with
    | some state =>
      (h1, { e with html := state.html, css := state.css, js := state.js }, UndoReport.restored)
    | none => (h1, e, UndoReport.raised)
  else (h, e, UndoReport.nothingToUndo)

/-- `JSEditor.canUndo()`. -/
def JSEditor.canUndo (h : History) : Bool :=
  decide (h.currentIndex > 0)

/-- `JSEditor.clearAllCode()`: `saveToHistory()`, then the three editors are
set to the empty text (`clearConsole` and `runCode` change neither the
history nor the editors). -/
def JSEditor.clearAllCode (h : History) (e : Editors) (now : Int) : History × Editors :=
  (JSEditor.saveToHistory h e now, { e with html := "", css := "", js := "" })

/-- The history after `saveToHistory` has run once for each pair of editors
and time, in order. -/
def JSEditor.saveAllToHistory (h : History) (es : List (Editors × Int)) : History :=
  es.foldl (fun acc p => JSEditor.saveToHistory acc p.1 p.2) h

/-- The cursor of a history is in range: `-1` on an empty stack, else the
index of an entry. -/
def History.Valid (h : History) : Prop :=
  (h.stack = [] ∧ h.currentIndex = -1) ∨
  (0 ≤ h.currentIndex ∧ h.currentIndex ≤ (h.stack.length : Int) - 1)

/-- Histories reached from the initial one by `saveToHistory` and `undo` in
any order. -/
inductive HistoryReachable : History → Prop where
  | initial : HistoryReachable History.initial
  | saveToHistory (h : History) (e : Editors) (now : Int) :
      HistoryReachable h → HistoryReachable (JSEditor.saveToHistory h e now)
  | undo (h : History) (e : Editors) :
      HistoryReachable h → HistoryReachable (JSEditor.undo h e).1

/-! ## File kinds -/

/-- The kinds of the specification: `html`, `css`, `javascript`, `json`,
`csv`, `image`, `text`. -/
def specKinds : List String :=
  ["html", "css", "javascript", "json", "csv", "image", "text"]

/-- The values of the two tables `typeMap`, with the default `text`. -/
def codeKinds : List String :=
  ["html", "css", "javascript", "json", "csv", "xml", "image", "text"]

/-- The keys of the two tables `typeMap`. -/
def knownExtensions : List String :=
  ["html", "htm", "css", "js", "javascript", "json", "xml", "txt", "md", "png", "jpg", "jpeg",
   "gif", "svg", "csv"]

/-! ## Strings of the data code -/

/-- The characters `String.prototype.trim` and `parseFloat` skip: the white
space and line terminator code points of the language. -/
def isWhiteSpace (c : Char) : Bool :=
  let n := c.toNat
  n = 9 || n = 10 || n = 11 || n = 12 || n = 13 || n = 32 || n = 160 || n = 5760 ||
  (8192 ≤ n && n ≤ 8202) || n = 8232 || n = 8233 || n = 8239 || n = 8287 || n = 12288 ||
  n = 65279

/-- `String.prototype.trim` on the characters of a string. -/
def jsTrim (cs : List Char) : List Char :=
  ((cs.dropWhile isWhiteSpace).reverse.dropWhile isWhiteSpace).reverse

/-- `s.split(sep)` for a separator of one character: the pieces between the
separators, one piece more than there are separators. -/
def splitOn (sep : Char) : List Char → List (List Char)
  | [] => [[]]
  | c :: cs =>
    if c = sep then [] :: splitOn sep cs
    else
      match splitOn sep cs with
      | [] => [[c]]
      | piece :: pieces => (c :: piece) :: pieces

/-- `DataPreviewer.parseCsvLine(line)`, the loop over the characters: `result`,
`current` and `inQuotes` are the three variables of the function. -/
def parseCsvLineLoop : List Char → List (List Char) → List Char → Bool → List (List Char)
  | [], result, current, _ => result ++ [jsTrim current]
  | char :: rest, result, current, inQuotes =>
    if char = '"' then parseCsvLineLoop rest result current (!inQuotes)
    else if char = ',' ∧ inQuotes = false then
      parseCsvLineLoop rest (result ++ [jsTrim current]) [] inQuotes
    else parseCsvLineLoop rest result (current ++ [char]) inQuotes

/-- `DataPreviewer.parseCsvLine(line)`. -/
def DataPreviewer.parseCsvLine (line : String) : List String :=
  (parseCsvLineLoop line.data [] [] false).map String.mk

/-- `line.split(",").map(v => v.trim())`, the cells of a line in
`JSEditor.parseCsvData`. -/
def JSEditor.splitCells (line : List Char) : List String :=
  (splitOn ',' line).map (fun v => String.mk (jsTrim v))

/-! ## Numbers read by `parseFloat` -/

/-- A number of the program other than `NaN`: a double.  A finite double is
the fraction `numerator / 2 ^ binaryPlaces` with its sign, where `numerator`
is odd or `binaryPlaces` is `0`, so that every finite double is written in
one way (`finite false 3 1` is 1.5, `finite true 0 0` is the negative zero).
The other doubles are the two infinities. -/
inductive JSNumber where
  | finite (negative : Bool) (numerator : Nat) (binaryPlaces : Nat)
  | infinity (negative : Bool)
deriving DecidableEq, Repr

/-- The loop of `binaryDigits`. -/
def binaryDigitsLoop : Nat → Nat → Nat
  | 0, _ => 0
  | fuel + 1, n => if n = 0 then 0 else binaryDigitsLoop fuel (n / 2) + 1

/-- The number of binary digits of `n`: `0` for `0`, else the `a` with
`2 ^ (a - 1) ≤ n < 2 ^ a`. -/
def binaryDigits (n : Nat) : Nat :=
  binaryDigitsLoop n n

/-- The `e` with `2 ^ e ≤ num / den < 2 ^ (e + 1)`, for positive `num` and
`den`: the quotient lies between `2 ^ (a - b - 1)` and `2 ^ (a - b + 1)`,
where `a` and `b` count the binary digits of `num` and `den`. -/
def binaryExponent (num den : Nat) : Int :=
  if binaryDigits den ≤ binaryDigits num then
    (if den * 2 ^ (binaryDigits num - binaryDigits den) ≤ num
      then ((binaryDigits num - binaryDigits den : Nat) : Int)
      else ((binaryDigits num - binaryDigits den : Nat) : Int) - 1)
  else
    (if den ≤ num * 2 ^ (binaryDigits den - binaryDigits num)
      then - ((binaryDigits den - binaryDigits num : Nat) : Int)
      else - ((binaryDigits den - binaryDigits num : Nat) : Int) - 1)

/-- The integer nearest to `n / d`, the even one of the two when `n / d` lies
half way between them. -/
def divRoundHalfEven (n d : Nat) : Nat :=
  if 2 * (n % d) < d then n / d
  else if d < 2 * (n % d) then n / d + 1
  else if (n / d) % 2 = 0 then n / d else n / d + 1

/-- The fraction `m / 2 ^ p` in lowest terms. -/
def reduceDyadic : Nat → Nat → Nat × Nat
  | m, 0 => (m, 0)
  | m, p + 1 => if m % 2 = 0 then reduceDyadic (m / 2) p else (m, p + 1)

/-- The double nearest to `num / den` (`den` positive), with the given sign:
the quotient is rounded to a multiple of `2 ^ k`, ties to the even multiple,
where `k` is `e - 52` for a quotient between `2 ^ e` and `2 ^ (e + 1)` (53
binary digits are kept) and not below `-1074` (the step of the smallest
doubles, so that a quotient below half that step gives zero); a result of
`2 ^ 1024` or more is infinite. -/
def roundToDouble (negative : Bool) (num den : Nat) : JSNumber :=
  if num = 0 then JSNumber.finite negative 0 0
  else
    match max (binaryExponent num den - 52) (-1074) with
    | Int.ofNat k =>
      if 2 ^ 1024 ≤ divRoundHalfEven num (den * 2 ^ k) * 2 ^ k then JSNumber.infinity negative
      else JSNumber.finite negative (divRoundHalfEven num (den * 2 ^ k) * 2 ^ k) 0
    | Int.negSucc k =>
      JSNumber.finite negative
        (reduceDyadic (divRoundHalfEven (num * 2 ^ (k + 1)) den) (k + 1)).1
        (reduceDyadic (divRoundHalfEven (num * 2 ^ (k + 1)) den) (k + 1)).2

/-- The double nearest to the decimal `mantissa * 10 ^ exponent`. -/
def decimalToDouble (negative : Bool) (mantissa : Nat) (exponent : Int) : JSNumber :=
  match exponent with
  | Int.ofNat e => roundToDouble negative (mantissa * 10 ^ e) 1
  | Int.negSucc e => roundToDouble negative mantissa (10 ^ (e + 1))

/-- A decimal digit. -/
def isDigit (c : Char) : Bool :=
  48 ≤ c.toNat && c.toNat ≤ 57

/-- The value of a run of decimal digits. -/
def digitsToNat (ds : List Char) : Nat :=
  ds.foldl (fun n c => 10 * n + (c.toNat - 48)) 0

/-- The value of the exponent part at the head of `rest`: `e` or `E`, an
optional sign and at least one digit; `0` when there is no such part. -/
def readExponent (rest : List Char) : Int :=
  match rest with
  | [] => 0
  | c :: r =>
    if c = 'e' ∨ c = 'E' then
      match r with
      | [] => 0
      | sign :: r2 =>
        if sign = '+' then
          (if (r2.takeWhile isDigit) = [] then 0 else (digitsToNat (r2.takeWhile isDigit) : Int))
        else if sign = '-' then
          (if (r2.takeWhile isDigit) = [] then 0 else - (digitsToNat (r2.takeWhile isDigit) : Int))
        else
          (if (r.takeWhile isDigit) = [] then 0 else (digitsToNat (r.takeWhile isDigit) : Int))
    else 0

/-- The longest unsigned decimal literal at the head of `cs`, as mantissa and
exponent: digits with an optional fraction and exponent part, or a fraction
that starts with the point.  `none` when no prefix is such a literal. -/
def readUnsignedDecimal (cs : List Char) : Option (Nat × Int) :=
  let intPart := cs.takeWhile isDigit
  match cs.dropWhile isDigit with
  | '.' :: r =>
    let fracPart := r.takeWhile isDigit
    if intPart = [] ∧ fracPart = [] then none
    else some (digitsToNat (intPart ++ fracPart),
               readExponent (r.dropWhile isDigit) - (fracPart.length : Int))
  | r => if intPart = [] then none else some (digitsToNat intPart, readExponent r)

/-- The unsigned part of `parseFloat`: `Infinity`, or a decimal literal, whose
value is the double nearest to it. -/
def readUnsigned (negative : Bool) (cs : List Char) : Option JSNumber :=
  if "Infinity".data.isPrefixOf cs then some (JSNumber.infinity negative)
  else (readUnsignedDecimal cs).map (fun me => decimalToDouble negative me.1 me.2)

/-- `parseFloat(string)`: leading white space is skipped, and the longest
prefix that is a decimal literal is read and rounded to a double; `none` is
`NaN`. -/
def parseFloat (cs : List Char) : Option JSNumber :=
  match cs.dropWhile isWhiteSpace with
  | '+' :: r => readUnsigned false r
  | '-' :: r => readUnsigned true r
  | r => readUnsigned false r

/-- The text begins with a digit. -/
def headIsDigit : List Char → Bool
  | [] => false
  | d :: _ => isDigit d

/-- The text begins with a digit, or with a point and a digit. -/
def numericHead : List Char → Bool
  | [] => false
  | c :: r => isDigit c || (c == '.' && headIsDigit r)

/-- The text begins, after white space and an optional sign, with `Infinity`,
with a digit, or with a point and a digit. -/
def startsNumeric (cs : List Char) : Bool :=
  match cs.dropWhile isWhiteSpace with
  | '+' :: r => "Infinity".data.isPrefixOf r || numericHead r
  | '-' :: r => "Infinity".data.isPrefixOf r || numericHead r
  | r => "Infinity".data.isPrefixOf r || numericHead r

/-! ## JSEditor: CSV data -/

/-- A value of a row object of `parseCsvData`. -/
inductive CsvValue where
  | str (s : String)
  | num (n : JSNumber)
deriving DecidableEq, Repr

/-- The value `isNaN(numValue) ? value : numValue` that a cell gives. -/
def JSEditor.coerceCell (value : String) : CsvValue :=
  match parseFloat value.data with
  | some numValue => CsvValue.num numValue
  | none => CsvValue.str value

/-- Assignment `row[header] = v` on a row object, whose keys are kept in the
order of their first assignment (the place `JSON.stringify` gives to keys
that are array indices is not modelled).  For the key `__proto__` the
assignment calls the setter of `Object.prototype`, which ignores a string or
a number: the row gets no key. -/
def JSEditor.setRowKey (header : String) (v : CsvValue) :
    List (String × CsvValue) → List (String × CsvValue)
  | [] => if header = "__proto__" then [] else [(header, v)]
  | (k, w) :: rest =>
    if header = "__proto__" then (k, w) :: rest
    else if k = header then (k, v) :: rest
    else (k, w) :: JSEditor.setRowKey header v rest

/-- The row object that the `forEach` over the headers builds from the cells
of a line; `rowSoFar` is the object before the remaining headers are
assigned.  The function is called for as many cells as headers. -/
def JSEditor.buildRow : List String → List String → List (String × CsvValue) →
    List (String × CsvValue)
  | header :: headers, value :: values, rowSoFar =>
    JSEditor.buildRow headers values (JSEditor.setRowKey header (JSEditor.coerceCell value) rowSoFar)
  | _, _, rowSoFar => rowSoFar

/-- The `for` loop of `parseCsvData` over the lines after the first. -/
def JSEditor.parseCsvRows (headers : List String) :
    List (List Char) → List (List (String × CsvValue))
  | [] => []
  | line :: lines =>
    if (JSEditor.splitCells line).length = headers.length then
      JSEditor.buildRow headers (JSEditor.splitCells line) [] :: JSEditor.parseCsvRows headers lines
    else JSEditor.parseCsvRows headers lines

/-- `JSEditor.parseCsvData(csvText)`: the array `data`, which the function
returns as its JSON text (`[]` for a text of fewer than two lines); in that
text an infinity is written `null`.  No statement of the `try` raises. -/
def JSEditor.parseCsvData (csvText : String) : List (List (String × CsvValue)) :=
  match splitOn '\n' (jsTrim csvText.data) with
  | [] => []
  | [_] => []
  | first :: rest => JSEditor.parseCsvRows (JSEditor.splitCells first) rest

/-! ## JSEditor: CSV text of the edit table -/

/-- `cell.replace(/"/g, '""')`. -/
def doubleQuotes : List Char → List Char
  | [] => []
  | c :: cs => if c = '"' then '"' :: '"' :: doubleQuotes cs else c :: doubleQuotes cs

/-- The text of a cell in `updateCsvPreview`: a cell with a comma or a double
quote is put between double quotes, its own double quotes doubled. -/
def JSEditor.csvCell (cell : List Char) : List Char :=
  if cell.contains ',' ∨ cell.contains '"' then '"' :: doubleQuotes cell ++ ['"'] else cell

/-- `xs.join(sep)` for a separator of one character. -/
def joinWith (sep : Char) : List (List Char) → List Char
  | [] => []
  | [x] => x
  | x :: y :: rest => x ++ sep :: joinWith sep (y :: rest)

/-- The line that `updateCsvPreview` writes for a row of cells. -/
def JSEditor.csvRow (row : List String) : String :=
  String.mk (joinWith ',' (row.map (fun cell => JSEditor.csvCell cell.data)))

/-! ## JSEditor: the data of the preview document -/

/-- A value of a row in the JSON text of the array of `parseCsvData`, read
back as an expression of the language. -/
inductive JsonValue where
  | str (s : String)
  | num (n : JSNumber)
  | null
deriving DecidableEq, Repr

/-- The value that `JSON.stringify` writes for a value of a row: a string and a
finite number stand for themselves (the negative zero is written `0`), an
infinite number is written `null`. -/
def jsonValue : CsvValue → JsonValue
  | CsvValue.str s => JsonValue.str s
  | CsvValue.num (JSNumber.finite negative numerator binaryPlaces) =>
    if numerator = 0 then JsonValue.num (JSNumber.finite false 0 0)
    else JsonValue.num (JSNumber.finite negative numerator binaryPlaces)
  | CsvValue.num (JSNumber.infinity _) => JsonValue.null

/-- The array that the text `JSON.stringify(data, null, 2)` denotes. -/
def jsonRows (data : List (List (String × CsvValue))) : List (List (String × JsonValue)) :=
  data.map (fun row => row.map (fun kv => (kv.1, jsonValue kv.2)))

/-- The text `processedData` of `runCode`: empty, the data text itself, or the
JSON text that `parseCsvData` returns, kept as the array it denotes. -/
inductive ProcessedData where
  | blank
  | source (text : String)
  | csvJson (rows : List (List (String × JsonValue)))
deriving DecidableEq, Repr

/-- `processedData` as `runCode` computes it from the text of the data
editor. -/
def JSEditor.processData (data : String) : ProcessedData :=
  if jsTrim data.data = [] then ProcessedData.blank
  else if (jsTrim data.data).head? = some '\x7b' ∨ (jsTrim data.data).head? = some '[' then
    ProcessedData.source data
  else ProcessedData.csvJson (jsonRows (JSEditor.parseCsvData data))

/-- The document `fullHtml` that `runCode` writes into the preview frame: the
text of the template with its holes filled.  The holes are the texts of the
css, html and js editors and `processedData`; the guard of the data block is
computed from `processedData`, and the D3 text is empty. -/
structure PreviewDocument where
  css : String
  html : String
  processedData : ProcessedData
  js : String
deriving DecidableEq, Repr

/-- `JSEditor.runCode()`: reads the four editors and builds the document (no
statement of its `try` raises). -/
def JSEditor.runCode (e : Editors) : PreviewDocument :=
  { css := e.css, html := e.html, processedData := JSEditor.processData e.data, js := e.js }

/-- What the data block of the preview script leaves behind.  `notRun`: the
browser does not run the inline script, `window.appData` is left as it was
and the block writes no line.  `ran`: the block ran, with the value of
`window.appData` when the code of the js editor starts (`none` for `null`)
and the number of data-parse error lines written.  `dependsOnSource`: the
script runs and the outcome hangs on evaluating the data text as source of
the language, which is not modelled. -/
inductive DataBlockOutcome where
  | notRun
  | ran (appData : Option (List (List (String × JsonValue)))) (errorLines : Nat)
  | dependsOnSource (text : String)
deriving DecidableEq, Repr

/-- The data block `window.appData = null; try \x7b if (G) \x7b window.appData = P;
... \x7d \x7d catch ...` of the script of the document, where `P` is
`processedData` and `G` is `processedData.trim().length > 0`.

The block stands in one inline script with the code of the js editor after
it, and that script stands behind the texts of the css and html editors in
the document.  `runsScript` is the browser: it says whether the browser runs
the inline script of the document as a program.  It does not when the
characters `</script` in a cell, in a header or in the js text end the script
early and leave a text that is no program, when the script with the js text
in its place is no program, or when the html text keeps the script from
being reached.  With an empty `P` the statement `window.appData = ;` is left,
and the script is never a program.

When the script runs, the JSON text of the array is an expression whose value
is the array and whose evaluation raises nothing, and `G` is `true` for it. -/
def JSEditor.dataBlock (runsScript : PreviewDocument → Bool) (doc : PreviewDocument) :
    DataBlockOutcome :=
  match doc.processedData with
  | ProcessedData.blank => DataBlockOutcome.notRun
  | ProcessedData.source text =>
    if runsScript doc then DataBlockOutcome.dependsOnSource text else DataBlockOutcome.notRun
  | ProcessedData.csvJson rows =>
    if runsScript doc then DataBlockOutcome.ran (some rows) 0 else DataBlockOutcome.notRun

/-! ## Timers -/

/-- The callbacks of the timers that run or save the code, by the place that
sets the timer: `onEditorChange` (a delayed `runCode`), `setAutoSave` (a
delayed `saveCode`), and the places that set a delayed `runCode` without
keeping its handle (`loadDataToEditor` after 100 ms, `init` after 300 ms, the
reset to the template after 500 ms). -/
inductive TimerCallback where
  | debouncedRun
  | autoSave
  | plainRun
deriving DecidableEq, Repr

/-- A pending timer: the handle `setTimeout` returned, the time at which it is
due, and its callback. -/
structure Timer where
  id : Nat
  due : Nat
  callback : TimerCallback
deriving DecidableEq, Repr

/-- The pending timers of the page that run or save the code, the next handle
`setTimeout` gives out, and the two fields of `JSEditor` that hold handles
(`none` is their initial `null`). -/
structure Timers where
  nextId : Nat
  pending : List Timer
  runDebounceTimer : Option Nat
  autoSaveTimer : Option Nat
deriving DecidableEq, Repr

/-- The timers of a page on which no code timer has been set. -/
def Timers.initial : Timers :=
  { nextId := 1, pending := [], runDebounceTimer := none, autoSaveTimer := none }

/-- `setTimeout(callback, delay)` at the time `now`: a new pending timer under
a new handle, which is returned. -/
def setTimeout (ts : Timers) (callback : TimerCallback) (delay now : Nat) : Timers × Nat :=
  ({ ts with nextId := ts.nextId + 1,
             pending := ts.pending ++ [{ id := ts.nextId, due := now + delay, callback := callback }] },
   ts.nextId)

/-- `clearTimeout(handle)`: the timer of that handle is no longer pending;
nothing happens for `null` or for the handle of a timer that is not
pending. -/
def clearTimeout (ts : Timers) (handle : Option Nat) : Timers :=
  { ts with pending := ts.pending.filter (fun t => decide (some t.id ≠ handle)) }

/-- `JSEditor.setAutoSave()` at the time `now`. -/
def JSEditor.setAutoSave (ts : Timers) (now : Nat) : Timers :=
  let ts1 := clearTimeout ts ts.autoSaveTimer
  let set := setTimeout ts1 TimerCallback.autoSave 2000 now
  { set.1 with autoSaveTimer := some set.2 }

/-- `JSEditor.onEditorChange()` at the time `now` (the two status updates
before the timer calls are not modelled). -/
def JSEditor.onEditorChange (ts : Timers) (now : Nat) : Timers :=
  let ts1 := clearTimeout ts ts.runDebounceTimer
  let set := setTimeout ts1 TimerCallback.debouncedRun 1000 now
  JSEditor.setAutoSave { set.1 with runDebounceTimer := some set.2 } now

/-- The four editors of `JSEditor.editors`. -/
inductive EditorName where
  | html
  | css
  | js
  | data
deriving DecidableEq, Repr

/-- A `change` event of an editor at the time `now`: `setupEditors` puts the
listener `() => this.onEditorChange()` on each of the four editors.  The
second listener that `loadDataToEditor` means to put on the data editor is
never added: the test in front of it calls `hasAttribute` on the editor
object, which has no such method. -/
def JSEditor.changeEvent (ts : Timers) (event : EditorName × Nat) : Timers :=
  JSEditor.onEditorChange ts event.2

/-- A call `setTimeout(() => this.runCode(), delay)` whose handle is not
kept. -/
def scheduleRun (ts : Timers) (delay now : Nat) : Timers :=
  (setTimeout ts TimerCallback.plainRun delay now).1

/-- A call `editor.setValue(text)` on the editor `editor` at the time `now`.
The editor library raises the `change` event inside the call, so the listener
of `setupEditors` runs `onEditorChange` before `setValue` returns.  `raises`
says whether the call raises the event: the library, which is not part of
the source, raises it when the call changes the text of the editor; what it
does for a text the editor holds already is left open. -/
def setValueTimers (raises : Bool) (editor : EditorName) (ts : Timers) (now : Nat) : Timers :=
  if raises then JSEditor.changeEvent ts (editor, now) else ts

/-- The timer calls of `FileExplorer.loadDataToEditor` at the time `now`: the
`setValue` on the data editor, then a `runCode` after 100 ms whose handle is
not kept (`previewData`, between the two, catches what its body raises). -/
def FileExplorer.loadDataToEditorTimers (raises : Bool) (ts : Timers) (now : Nat) : Timers :=
  scheduleRun (setValueTimers raises EditorName.data ts now) 100 now

/-- The timer calls of `JSEditor.runCode()`: none.  The function reads the four
editors and writes the preview document; it calls neither `clearTimeout` nor
`setTimeout`, and it sets the text of no editor. -/
def JSEditor.runCodeTimers (ts : Timers) : Timers :=
  ts

/-- The timer calls of `JSEditor.saveCode()`: none.  Its first statement,
`saveCurrentFile()`, calls `getCurrentTab()` before anything else happens;
the statements of `saveCode` behind it have no timer call either. -/
def JSEditor.saveCodeTimers (ts : Timers) : Timers :=
  ts

/-- The timer calls of `JSEditor.clearAllCode()` at the time `now`:
`saveToHistory()` has none, the three calls `setValue('')` on the html, css
and js editors follow, then `runCode()`.  `raises` says for each of the three
editors whether its `setValue` raises the `change` event. -/
def JSEditor.clearAllCodeTimers (raises : EditorName → Bool) (ts : Timers) (now : Nat) : Timers :=
  JSEditor.runCodeTimers
    (setValueTimers (raises EditorName.js) EditorName.js
      (setValueTimers (raises EditorName.css) EditorName.css
        (setValueTimers (raises EditorName.html) EditorName.html ts now) now) now)

/-- The editor of a tab. -/
def editorOfTab (tab : String) : EditorName :=
  if tab = "css" then EditorName.css
  else if tab = "js" then EditorName.js
  else if tab = "data" then EditorName.data
  else EditorName.html

/-- The timer calls of the tail of `FileExplorer.openFile` for the files shown
in a code editor: the `setValue` is reached when `switchTab` returned. -/
def FileExplorer.openInEditorTimers (raises : Bool) (s : App) (targetTab : String)
    (ts : Timers) (now : Nat) : Timers :=
  match JSEditor.switchTab s targetTab with
  | Outcome.raised _ => ts
  | Outcome.returned _ => setValueTimers raises (editorOfTab targetTab) ts now

/-- The timer calls of `FileExplorer.openFile(file)` at the time `now`, along
the path the call takes from the state `s`: the flush of the selected file
has none; a file shown in a code editor gets the `setValue` of that editor,
and a data file the calls of `loadDataToEditor`, when `switchTab` returned.
`raises` says whether that `setValue` raises the `change` event. -/
def FileExplorer.openFileTimers (raises : Bool) (s : App) (file : Nat)
    (ts : Timers) (now : Nat) : Timers :=
  let s1 :=
    if s.selectedFile.isSome ∧ s.selectedFile ≠ some file then FileExplorer.saveCurrentFileContent s
    else s
  match s1.heap[file]? with
  | none => ts
  | some f =>
    if f.type = "html" then FileExplorer.openInEditorTimers raises s1 "html" ts now
    else if f.type = "css" then FileExplorer.openInEditorTimers raises s1 "css" ts now
    else if f.type = "javascript" then FileExplorer.openInEditorTimers raises s1 "js" ts now
    else if f.type = "json" ∨ f.type = "csv" then
      match JSEditor.switchTab s1 "data" with
      | Outcome.raised _ => ts
      | Outcome.returned _ => FileExplorer.loadDataToEditorTimers raises ts now
    else if f.type = "text" then FileExplorer.openInEditorTimers raises s1 "html" ts now
    else ts

/-- The timer calls of `JSEditor.loadDefaultDataFiles()` at the time `now`:
those of `loadDataToEditor` when the folder `assets` has a file `data.json`
or `data.csv`. -/
def JSEditor.loadDefaultDataFilesTimers (raises : Bool) (s : App) (ts : Timers) (now : Nat) :
    Timers :=
  match lookupFolder "assets" s.files with
  | none => ts
  | some assetsFiles =>
    match (assetsFiles.find? (hasName s.heap "data.json")).bind (fun r => s.heap[r]?) with
    | some _ => FileExplorer.loadDataToEditorTimers raises ts now
    | none =>
      match (assetsFiles.find? (hasName s.heap "data.csv")).bind (fun r => s.heap[r]?) with
      | some _ => FileExplorer.loadDataToEditorTimers raises ts now
      | none => ts

/-- The timer calls of `JSEditor.switchFolderEditor(folder)` at the time `now`:
none for the folders of the code editors (the timer set there refreshes the
editor), and those of `loadDefaultDataFiles` for the folder `assets`. -/
def JSEditor.switchFolderEditorTimers (raises : Bool) (s : App) (folder : String)
    (ts : Timers) (now : Nat) : Timers :=
  if folder ∈ s.folderBtns then
    if folder = "assets" then
      JSEditor.loadDefaultDataFilesTimers raises
        { s with activeFolder := some folder, currentTab := JVal.str "data" } ts now
    else ts
  else ts

/-- The timer calls of `FileExplorer.switchFolder(folder)`, the listener of the
file explorer on the folder buttons: none.  The function moves the class
`active` and rebuilds the file list in `showFolder`. -/
def FileExplorer.switchFolderTimers (ts : Timers) : Timers :=
  ts

/-- The timer `t` fires: it is no longer pending, and its callback runs, which
is the call `this.runCode()` or the call `this.saveCode()`. -/
def fireTimer (ts : Timers) (t : Timer) : Timers :=
  let ts1 : Timers := { ts with pending := ts.pending.filter (fun u => decide (u.id ≠ t.id)) }
  match t.callback with
  | TimerCallback.autoSave => JSEditor.saveCodeTimers ts1
  | TimerCallback.debouncedRun => JSEditor.runCodeTimers ts1
  | TimerCallback.plainRun => JSEditor.runCodeTimers ts1

/-- What a timer callback does when it fires: the callback
`() => this.runCode()` writes the document that `runCode` builds, and the
callback `() => this.saveCode()` calls `saveCode`. -/
inductive CallbackEffect where
  | rendered (doc : PreviewDocument)
  | saveCalled (outcome : Outcome)

/-- The effect of a callback that fires on the page `s` at the time `now`: the
functions read the editors as they are then. -/
def TimerCallback.effect (c : TimerCallback) (s : App) (now : String) : CallbackEffect :=
  match c with
  | TimerCallback.autoSave => CallbackEffect.saveCalled (JSEditor.saveCode s now)
  | TimerCallback.debouncedRun => CallbackEffect.rendered (JSEditor.runCode s.toEditors)
  | TimerCallback.plainRun => CallbackEffect.rendered (JSEditor.runCode s.toEditors)

/-- The pending timers with the given callback. -/
def Timers.pendingOf (ts : Timers) (callback : TimerCallback) : List Timer :=
  ts.pending.filter (fun t => decide (t.callback = callback))

/-- The pending timers that will run the code. -/
def Timers.pendingRenders (ts : Timers) : List Timer :=
  ts.pending.filter (fun t =>
    decide (t.callback = TimerCallback.debouncedRun ∨ t.callback = TimerCallback.plainRun))

/-- Timer states the page reaches: change events of the editors (typing, and
every `setValue` that raises the event), calls of `setAutoSave` (the file
explorer calls it after adding a file), delayed runs whose handle is not kept
(a data file loaded into the data editor sets one), and timers that fire.
Explicit runs and saves leave the timers as they are, and the other actions
of the page are made of these steps. -/
inductive TimersReachable : Timers → Prop where
  | initial : TimersReachable Timers.initial
  | change (ts : Timers) (event : EditorName × Nat) :
      TimersReachable ts → TimersReachable (JSEditor.changeEvent ts event)
  | setAutoSave (ts : Timers) (now : Nat) :
      TimersReachable ts → TimersReachable (JSEditor.setAutoSave ts now)
  | scheduleRun (ts : Timers) (delay now : Nat) :
      TimersReachable ts → TimersReachable (scheduleRun ts delay now)
  | fire (ts : Timers) (t : Timer) :
      TimersReachable ts → t ∈ ts.pending → TimersReachable (fireTimer ts t)

/-- The pending timers with the callback `c` are at most one, and such a timer
has the handle `handle`. -/
def ClassTracked (pending : List Timer) (c : TimerCallback) (handle : Option Nat) : Prop :=
  (∀ t ∈ pending, t.callback = c → handle = some t.id) ∧
  (pending.filter (fun t => decide (t.callback = c))).length ≤ 1

/-- The handles are in order: every handle in use is below the next one, and a
pending timer has the callback of `onEditorChange` exactly when
`runDebounceTimer` holds its handle, and the callback of `setAutoSave`
exactly when `autoSaveTimer` holds its handle. -/
def Timers.WellTracked (ts : Timers) : Prop :=
  (∀ t ∈ ts.pending, t.id < ts.nextId) ∧
  (∀ i, ts.runDebounceTimer = some i → i < ts.nextId) ∧
  (∀ i, ts.autoSaveTimer = some i → i < ts.nextId) ∧
  (∀ t ∈ ts.pending, t.callback = TimerCallback.debouncedRun ↔ ts.runDebounceTimer = some t.id) ∧
  (∀ t ∈ ts.pending, t.callback = TimerCallback.autoSave ↔ ts.autoSaveTimer = some t.id)

/-! ## The persisted tab -/

/-- The identifiers of the four editor tabs, the values the code gives to
`currentTab`. -/
def tabIds : List String := ["html", "css", "js", "data"]

/-- The identifiers of the four folders. -/
def folderIds : List String := ["html", "css", "javascript", "assets"]

/-- The value that the object literal `codeData` of `saveCode` gives its
top-level field `currentFolder`: `this.currentTab || 'html'`.  (The literal
stands behind the call `saveCurrentFile()`.) -/
def snapshotCurrentFolder (s : App) (now : String) : JVal :=
  ((codeDataToJVal s now).getProp "currentFolder").getD JVal.undefined

/-- The value is the string of a tab identifier. -/
def IsTabId (v : JVal) : Prop :=
  ∃ tab ∈ tabIds, v = JVal.str tab

/-- The slot holds nothing readable, or an object without a top-level key
`currentFolder`. -/
def NoTopFolder (slot : Slot) : Prop :=
  match slot with
  | Slot.parsed v => ∃ kvs, v = JVal.obj kvs ∧ JVal.lookupKey "currentFolder" kvs = none
  | _ => True

/-- States the page reaches from a first visit (empty slot) by reloading,
clicks on folder buttons (the listener of the editor and the listener of the
file explorer), tab switches, opening and selecting files, typing into the
editors, creating, deleting and uploading files. -/
inductive EditorReachable (T : Templates) : App → Prop where
  | init (e : Editors) (btns : List String) (s : App) :
      JSEditor.init T Slot.absent e btns = some s → EditorReachable T s
  | reload (s : App) (e : Editors) (btns : List String) (s' : App) :
      EditorReachable T s → JSEditor.init T s.storage e btns = some s' → EditorReachable T s'
  | switchFolderEditor (s : App) (folder : String) :
      EditorReachable T s → EditorReachable T (JSEditor.switchFolderEditor s folder).state
  | switchFolder (s : App) (folder : String) :
      EditorReachable T s → EditorReachable T (FileExplorer.switchFolder s folder).state
  | switchTab (s : App) (tab : String) :
      EditorReachable T s → tab ∈ tabIds → EditorReachable T (JSEditor.switchTab s tab).state
  | openFile (s : App) (file : Nat) :
      EditorReachable T s → EditorReachable T (FileExplorer.openFile s file).state
  | selectFile (s : App) (file : Nat) :
      EditorReachable T s → EditorReachable T (FileExplorer.selectFile s file)
  | typing (s : App) (html css js data : String) :
      EditorReachable T s →
      EditorReachable T { s with html := html, css := css, js := js, data := data }
  | createFile (s : App) (fileName : String) :
      EditorReachable T s → EditorReachable T (FileManager.createFile T s fileName)
  | confirmDeleteFile (s : App) (fileName : String) :
      EditorReachable T s → EditorReachable T (FileManager.confirmDeleteFile s fileName)
  | addFileToFileExplorer (lower : String → String) (s : App) (file : UploadedFile)
      (content fileName folder : String) (shouldReplace shouldOpen : Bool) :
      EditorReachable T s →
      EditorReachable T
        (JSEditor.addFileToFileExplorer lower s file content fileName folder shouldReplace shouldOpen).state

/-! ## Sample data for the closed statements -/

/-- Short texts in place of the built-in templates. -/
def demoTemplates : Templates :=
  { visualizationHtml := "<p>clock</p>", defaultHtmlContent := "<p>index</p>",
    defaultCssContent := "p {}", visualizationJs := "tick()", defaultJsContent := "main()",
    defaultJsonContent := "[]", defaultCsvContent := "a,b", defaultCodeHtml := "<h1>hi</h1>",
    defaultCodeCss := "h1 {}", defaultCodeJs := "log()",
    getDefaultContentForType := fun fileType fileName => fileType ++ ":" ++ fileName }

/-- Empty editors, as `setupEditors` makes them from empty text areas. -/
def demoEditors : Editors :=
  { html := "", css := "", js := "", data := "", currentTab := JVal.str "html",
    savedFileSystemData := JVal.undefined }

/-- The four folder buttons of the page. -/
def demoButtons : List String := ["html", "css", "javascript", "assets"]

/-- The page after `new JSEditor()` on an empty storage slot: the default
code in the editors, the built-in file set, nothing selected. -/
def startApp (T : Templates) (e : Editors) (btns : List String) : App :=
  { toEditors := JSEditor.loadDefaultCode T
      { e with currentTab := JVal.str "html", savedFileSystemData := JVal.undefined },
    heap := (defaultFiles T).flatMap Prod.snd,
    files := [("html", [0, 1]), ("css", [2, 3]), ("javascript", [4, 5]), ("assets", [6, 7])],
    currentFolder := "html",
    selectedFile := none,
    fmCurrentFolder := "html",
    fmSelectedFile := none,
    activeFolder := if "html" ∈ btns then some "html" else none,
    folderBtns := btns,
    storage := Slot.absent }

/-- The sample page: `startApp` on the sample data. -/
def demoApp : App := startApp demoTemplates demoEditors demoButtons

/-- The sample page after a click on the folder button `css` (the listener of
the editor, then the listener of the file explorer). -/
def cssPageApp : App :=
  (FileExplorer.switchFolder (JSEditor.switchFolderEditor demoApp "css").state "css").state

/-- The sample page reloaded after `a.css` was created in the folder `css`:
the slot holds the file system only, so `currentTab` is `html` again while the
folder `css` is shown and active. -/
def reloadedApp : App :=
  (JSEditor.init demoTemplates (FileManager.createFile demoTemplates cssPageApp "a.css").storage
    demoEditors demoButtons).getD demoApp

/-- The reloaded page after `x.html` was created (it lands in the folder `css`),
the scheduled `openFile` has run, and the user has typed `v` into the html
editor: the selected file is the object stored in the folder `css`. -/
def aliasedApp : App :=
  { (FileManager.createFileOpenCallback
      (FileManager.createFile demoTemplates reloadedApp "x.html") 9).state with html := "v" }

/-- A snapshot whose `fileSystem.files` is a string. -/
def stringFilesSnapshot : JVal :=
  JVal.obj [("html", JVal.str "<p>x</p>"), ("fileSystem", JVal.obj [("files", JVal.str "abc")])]

/-- A snapshot whose `fileSystem.files` has the key `html` only. -/
def htmlOnlyFilesSnapshot : JVal :=
  JVal.obj [("fileSystem", JVal.obj [("files", JVal.obj [("html", JVal.arr [])])])]

/-- The sample page with the snapshot of an earlier version in the slot: a
top-level `html` text and nothing else. -/
def oldSnapshotApp : App :=
  { demoApp with storage := Slot.parsed (JVal.obj [("html", JVal.str "old")]) }

/-- Sixty editor states with the times `1` to `60`; the html text of the
`i`-th is the numeral of `i`. -/
def sixtyStates : List (Editors × Int) :=
  (List.range 60).map (fun i => ({ demoEditors with html := toString (i + 1) }, (i : Int) + 1))

/-- Three history entries `a`, `b`, `c`. -/
def threeEntries : List HistoryEntry :=
  [{ html := "a", css := "", js := "", d3 := "", timestamp := 1 },
   { html := "b", css := "", js := "", d3 := "", timestamp := 2 },
   { html := "c", css := "", js := "", d3 := "", timestamp := 3 }]

/-- Editors holding `mine`, `p \x7b\x7d`, `go()`. -/
def typedEditors : Editors :=
  { demoEditors with html := "mine", css := "p \x7b\x7d", js := "go()" }

/-- Editors whose data editor holds the text `not json \x7b`; the other three
are empty. -/
def notJsonEditors : Editors :=
  { demoEditors with data := "not json \x7b" }

/-- The CSV text of the scenario: a header and two rows. -/
def scenarioCsv : String := "name,value\nX,1\nY,2"

/-- The timers after one change event of the html editor at the time 0. -/
def changedOnceTimers : Timers :=
  JSEditor.changeEvent Timers.initial (EditorName.html, 0)

/-- The page of `aliasedApp` after a click on the folder button `html` and the
creation of a second `x.html`, which lands in the folder `html`: the selected
`x.html` is the object stored in the folder `css`, and the html editor holds
`v`. -/
def twoNamesakesApp : App :=
  FileManager.createFile demoTemplates
    (FileExplorer.switchFolder (JSEditor.switchFolderEditor aliasedApp "html").state "html").state
    "x.html"

/-! ## Lemmas on the store helpers -/

theorem init_absent (T : Templates) (e : Editors) (btns : List String) :
    JSEditor.init T Slot.absent e btns = some (startApp T e btns) := rfl

@[simp] theorem getCurrentFolder_files (s : App) :
    (FileManager.getCurrentFolder s).1.files = s.files := by
  unfold FileManager.getCurrentFolder; cases s.activeFolder <;> rfl

@[simp] theorem getCurrentFolder_heap (s : App) :
    (FileManager.getCurrentFolder s).1.heap = s.heap := by
  unfold FileManager.getCurrentFolder; cases s.activeFolder <;> rfl

@[simp] theorem getCurrentFolder_selectedFile (s : App) :
    (FileManager.getCurrentFolder s).1.selectedFile = s.selectedFile := by
  unfold FileManager.getCurrentFolder; cases s.activeFolder <;> rfl

@[simp] theorem getCurrentFolder_toEditors (s : App) :
    (FileManager.getCurrentFolder s).1.toEditors = s.toEditors := by
  unfold FileManager.getCurrentFolder; cases s.activeFolder <;> rfl

@[simp] theorem getCurrentFolder_storage (s : App) :
    (FileManager.getCurrentFolder s).1.storage = s.storage := by
  unfold FileManager.getCurrentFolder; cases s.activeFolder <;> rfl

@[simp] theorem getCurrentFolder_currentFolder (s : App) :
    (FileManager.getCurrentFolder s).1.currentFolder = s.currentFolder := by
  unfold FileManager.getCurrentFolder; cases s.activeFolder <;> rfl

@[simp] theorem saveFileSystemState_files (s : App) :
    (FileManager.saveFileSystemState s).files = s.files := by
  unfold FileManager.saveFileSystemState
  cases s.storage with
  | parsed v => cases v <;> rfl
  | _ => rfl

@[simp] theorem saveFileSystemState_heap (s : App) :
    (FileManager.saveFileSystemState s).heap = s.heap := by
  unfold FileManager.saveFileSystemState
  cases s.storage with
  | parsed v => cases v <;> rfl
  | _ => rfl

@[simp] theorem saveFileSystemState_selectedFile (s : App) :
    (FileManager.saveFileSystemState s).selectedFile = s.selectedFile := by
  unfold FileManager.saveFileSystemState
  cases s.storage with
  | parsed v => cases v <;> rfl
  | _ => rfl

@[simp] theorem saveFileSystemState_toEditors (s : App) :
    (FileManager.saveFileSystemState s).toEditors = s.toEditors := by
  unfold FileManager.saveFileSystemState
  cases s.storage with
  | parsed v => cases v <;> rfl
  | _ => rfl

@[simp] theorem saveFileSystemState_currentFolder (s : App) :
    (FileManager.saveFileSystemState s).currentFolder = s.currentFolder := by
  unfold FileManager.saveFileSystemState
  cases s.storage with
  | parsed v => cases v <;> rfl
  | _ => rfl

theorem lookupFolder_setFolder_self (folder : String) (l : List Nat)
    (files : List (String × List Nat)) :
    lookupFolder folder (setFolder folder l files) = some l := by
  induction files with
  | nil => simp [setFolder, lookupFolder]
  | cons kl rest ih =>
    obtain ⟨k, l'⟩ := kl
    by_cases h : k = folder
    · simp [setFolder, lookupFolder, h]
    · simp [setFolder, lookupFolder, h, ih]

theorem lookupFolder_setFolder_ne (folder g : String) (l : List Nat)
    (files : List (String × List Nat)) (hg : g ≠ folder) :
    lookupFolder g (setFolder folder l files) = lookupFolder g files := by
  induction files with
  | nil =>
    have : ¬ folder = g := fun h => hg h.symm
    simp [setFolder, lookupFolder, this]
  | cons kl rest ih =>
    obtain ⟨k, l'⟩ := kl
    by_cases h : k = folder
    · subst h
      have : ¬ k = g := fun h => hg h.symm
      simp [setFolder, lookupFolder, this]
    · by_cases h2 : k = g
      · subst h2
        simp [setFolder, lookupFolder, h]
      · simp [setFolder, lookupFolder, h, h2, ih]

/-- A folder array holds an object named `n` exactly when `some` of the
source finds one. -/
theorem any_hasName_iff (heap : List FileRecord) (n : String) (l : List Nat) :
    l.any (hasName heap n) = true ↔ ∃ f ∈ l.filterMap (fun r => heap[r]?), f.name = n := by
  induction l with
  | nil => simp
  | cons r rest ih =>
    simp only [List.any_cons, Bool.or_eq_true, ih, List.filterMap_cons]
    unfold hasName
    cases hr : heap[r]? with
    | none => simp
    | some f => simp

/-- Erasing at the index `findIndex` gives is erasing the first object with
the name, seen through the heap. -/
theorem filterMap_eraseIdx_findIndex (heap : List FileRecord) (n : String) (l : List Nat) :
    (match findIndex (hasName heap n) l with
      | some i => l.eraseIdx i
      | none => l).filterMap (fun r => heap[r]?)
      = (l.filterMap (fun r => heap[r]?)).eraseP (fun f => decide (f.name = n)) := by
  induction l with
  | nil => simp [findIndex]
  | cons r rest ih =>
    unfold findIndex
    by_cases hp : hasName heap n r = true
    · simp only [hp, if_true, List.eraseIdx_cons_zero]
      unfold hasName at hp
      cases hr : heap[r]? with
      | none => simp [hr] at hp
      | some f =>
        simp only [hr] at hp
        simp [List.filterMap_cons, hr, List.eraseP_cons, hp]
    · have hp' : hasName heap n r = false := by simpa using hp
      simp only [hp', Bool.false_eq_true, if_false]
      cases hfi : findIndex (hasName heap n) rest with
      | none =>
        simp only [hfi] at ih
        simp only [Option.map_none']
        unfold hasName at hp'
        cases hr : heap[r]? with
        | none => simpa [List.filterMap_cons, hr] using ih
        | some f =>
          simp only [hr] at hp'
          simp only [List.filterMap_cons, hr, List.eraseP_cons, hp']
          simpa using ih
      | some i =>
        simp only [hfi] at ih
        simp only [Option.map_some', List.eraseIdx_cons_succ]
        unfold hasName at hp'
        cases hr : heap[r]? with
        | none => simpa [List.filterMap_cons, hr] using ih
        | some f =>
          simp only [hr] at hp'
          simp only [List.filterMap_cons, hr, List.eraseP_cons, hp']
          simpa using ih

/-! ## Lemmas on delete -/

theorem confirmDeleteFile_heap (s : App) (fileName : String) :
    (FileManager.confirmDeleteFile s fileName).heap = s.heap := by
  unfold FileManager.confirmDeleteFile
  cases hl : lookupFolder (FileManager.getCurrentFolder s).2 s.files with
  | none => simp [hl]
  | some l =>
    cases hi : findIndex (hasName s.heap fileName) l <;>
      simp [hl, hi, FileExplorer.showFolder]

theorem confirmDeleteFile_selectedFile (s : App) (fileName : String) :
    (FileManager.confirmDeleteFile s fileName).selectedFile = s.selectedFile := by
  unfold FileManager.confirmDeleteFile
  cases hl : lookupFolder (FileManager.getCurrentFolder s).2 s.files with
  | none => simp [hl]
  | some l =>
    cases hi : findIndex (hasName s.heap fileName) l <;>
      simp [hl, hi, FileExplorer.showFolder]

theorem confirmDeleteFile_files (s : App) (fileName : String) :
    (FileManager.confirmDeleteFile s fileName).files =
      match lookupFolder (FileManager.getCurrentFolder s).2 s.files with
      | none => s.files
      | some l =>
        match findIndex (hasName s.heap fileName) l with
        | some i => setFolder (FileManager.getCurrentFolder s).2 (l.eraseIdx i) s.files
        | none => s.files := by
  unfold FileManager.confirmDeleteFile
  cases hl : lookupFolder (FileManager.getCurrentFolder s).2 s.files with
  | none => simp [hl]
  | some l =>
    cases hi : findIndex (hasName s.heap fileName) l <;>
      simp [hl, hi, FileExplorer.showFolder]

/-- The current folder after a delete is the old one without the first file
of the name. -/
theorem confirmDeleteFile_folderRecords (s : App) (fileName : String) :
    folderRecords (FileManager.confirmDeleteFile s fileName) (FileManager.getCurrentFolder s).2
    = (folderRecords s (FileManager.getCurrentFolder s).2).eraseP
        (fun f => decide (f.name = fileName)) := by
  have hheap := confirmDeleteFile_heap s fileName
  have hfiles := confirmDeleteFile_files s fileName
  unfold folderRecords
  rw [hheap]
  cases hl : lookupFolder (FileManager.getCurrentFolder s).2 s.files with
  | none =>
    simp only [hl] at hfiles
    rw [hfiles, hl]
    simp
  | some l =>
    have key := filterMap_eraseIdx_findIndex s.heap fileName l
    cases hi : findIndex (hasName s.heap fileName) l with
    | none =>
      simp only [hl, hi] at hfiles key
      rw [hfiles, hl]
      simpa using key
    | some i =>
      simp only [hl, hi] at hfiles key
      rw [hfiles, lookupFolder_setFolder_self]
      simpa using key

/-- A delete leaves the folders other than the current one as they were. -/
theorem confirmDeleteFile_folderRecords_other (s : App) (fileName g : String)
    (hg : g ≠ (FileManager.getCurrentFolder s).2) :
    folderRecords (FileManager.confirmDeleteFile s fileName) g = folderRecords s g := by
  have hheap := confirmDeleteFile_heap s fileName
  have hfiles := confirmDeleteFile_files s fileName
  unfold folderRecords
  rw [hheap]
  cases hl : lookupFolder (FileManager.getCurrentFolder s).2 s.files with
  | none =>
    simp only [hl] at hfiles
    rw [hfiles]
  | some l =>
    cases hi : findIndex (hasName s.heap fileName) l with
    | none =>
      simp only [hl, hi] at hfiles
      rw [hfiles]
    | some i =>
      simp only [hl, hi] at hfiles
      rw [hfiles, lookupFolder_setFolder_ne _ _ _ _ hg]

/-! ## C1 to C4: create and delete -/

/-- C1 (code bug).  Name uniqueness is not kept case-insensitively: on the page
started on an empty slot (built-in file set, folder `html` active),
`FileManager.createFile("INDEX.HTML")` is accepted, and the folder `html` then
holds `index.html` and `INDEX.HTML`, two names that are equal after
`toLowerCase`.  The check of `createFile` compares with `===`. -/
theorem createFile_admits_case_variant :
    ∃ s : App, JSEditor.init demoTemplates Slot.absent demoEditors demoButtons = some s ∧
      (folderRecords (FileManager.createFile demoTemplates s "INDEX.HTML") "html").map
          (fun f => f.name) = ["clock.html", "index.html", "INDEX.HTML"] ∧
      (folderRecords (FileManager.createFile demoTemplates s "INDEX.HTML") "html").map
          (fun f => toLowerCase f.name) = ["clock.html", "index.html", "index.html"] :=
  ⟨demoApp, rfl, by decide, by decide⟩

/-- C2.  Duplicate create is atomic: when the current folder already holds a
file object whose name is `fileName`, `FileManager.createFile(fileName)` leaves
`fileExplorer.files` and every file object as they were (so every folder reads
the same, by value), and leaves the selection, the editors and the storage
slot alone. -/
theorem createFile_existing_name_unchanged (T : Templates) (s : App) (fileName : String)
    (h : ∃ f ∈ folderRecords s (FileManager.getCurrentFolder s).2, f.name = fileName) :
    (FileManager.createFile T s fileName).files = s.files ∧
    (FileManager.createFile T s fileName).heap = s.heap ∧
    (∀ folder, folderRecords (FileManager.createFile T s fileName) folder = folderRecords s folder) ∧
    (FileManager.createFile T s fileName).selectedFile = s.selectedFile ∧
    (FileManager.createFile T s fileName).toEditors = s.toEditors ∧
    (FileManager.createFile T s fileName).storage = s.storage := by
  have hs : FileManager.createFile T s fileName = (FileManager.getCurrentFolder s).1 := by
    unfold folderRecords at h
    unfold FileManager.createFile
    cases hl : lookupFolder (FileManager.getCurrentFolder s).2 s.files with
    | none => simp [hl] at h
    | some l =>
      have hany : l.any (hasName s.heap fileName) = true := by
        rw [any_hasName_iff]
        simpa [hl] using h
      simp [hl, hany]
  rw [hs]
  refine ⟨by simp, by simp, ?_, by simp, by simp, by simp⟩
  intro folder
  simp [folderRecords]

/-- Witness for C2 on the sample page: `index.html` exists in the folder `html`. -/
theorem createFile_existing_name_unchanged_witness :
    (∃ f ∈ folderRecords demoApp (FileManager.getCurrentFolder demoApp).2, f.name = "index.html") ∧
    (FileManager.createFile demoTemplates demoApp "index.html").files = demoApp.files ∧
    (FileManager.createFile demoTemplates demoApp "index.html").heap = demoApp.heap :=
  ⟨by decide,
   (createFile_existing_name_unchanged demoTemplates demoApp "index.html" (by decide)).1,
   (createFile_existing_name_unchanged demoTemplates demoApp "index.html" (by decide)).2.1⟩

/-- C3.  Delete: `FileManager.confirmDeleteFile(fileName)` takes the first file
object named `fileName` out of the current folder and keeps all the others of
that folder in their order; the other folders and all file objects stay as
they were; when the current folder has no file of that name,
`fileExplorer.files` is unchanged. -/
theorem confirmDeleteFile_removes_first_named (s : App) (fileName : String) :
    folderRecords (FileManager.confirmDeleteFile s fileName) (FileManager.getCurrentFolder s).2
      = (folderRecords s (FileManager.getCurrentFolder s).2).eraseP
          (fun f => decide (f.name = fileName)) ∧
    (∀ f ∈ folderRecords s (FileManager.getCurrentFolder s).2, f.name = fileName →
      ∃ before x after,
        folderRecords s (FileManager.getCurrentFolder s).2 = before ++ x :: after ∧
        x.name = fileName ∧ (∀ y ∈ before, y.name ≠ fileName) ∧
        folderRecords (FileManager.confirmDeleteFile s fileName) (FileManager.getCurrentFolder s).2
          = before ++ after) ∧
    (∀ g, g ≠ (FileManager.getCurrentFolder s).2 →
      folderRecords (FileManager.confirmDeleteFile s fileName) g = folderRecords s g) ∧
    (FileManager.confirmDeleteFile s fileName).heap = s.heap ∧
    ((∀ f ∈ folderRecords s (FileManager.getCurrentFolder s).2, f.name ≠ fileName) →
      (FileManager.confirmDeleteFile s fileName).files = s.files) := by
  have hheap := confirmDeleteFile_heap s fileName
  have hfiles := confirmDeleteFile_files s fileName
  have herase := confirmDeleteFile_folderRecords s fileName
  refine ⟨herase, ?_, ?_, hheap, ?_⟩
  · intro f hf hname
    have hp : decide (f.name = fileName) = true := by simpa using hname
    obtain ⟨x, before, after, hbefore, hx, hsplit, herased⟩ :=
      List.exists_of_eraseP (p := fun g : FileRecord => decide (g.name = fileName)) hf hp
    refine ⟨before, x, after, hsplit, by simpa using hx, ?_, ?_⟩
    · intro y hy
      simpa using hbefore y hy
    · rw [herase, herased]
  · intro g hg
    exact confirmDeleteFile_folderRecords_other s fileName g hg
  · intro hnone
    cases hl : lookupFolder (FileManager.getCurrentFolder s).2 s.files with
    | none =>
      simp only [hl] at hfiles
      exact hfiles
    | some l =>
      cases hi : findIndex (hasName s.heap fileName) l with
      | none =>
        simp only [hl, hi] at hfiles
        exact hfiles
      | some i =>
        exfalso
        have hany : l.any (hasName s.heap fileName) = true := by
          clear hfiles herase hheap hnone hl
          induction l generalizing i with
          | nil => simp [findIndex] at hi
          | cons r rest ih =>
            unfold findIndex at hi
            by_cases hp : hasName s.heap fileName r = true
            · simp [hp]
            · simp only [hp, if_false] at hi
              cases hr : findIndex (hasName s.heap fileName) rest with
              | none => simp [hr] at hi
              | some j => simp [ih j hr]
        rw [any_hasName_iff] at hany
        obtain ⟨f, hf, hname⟩ := hany
        exact hnone f (by simpa [folderRecords, hl] using hf) hname

/-- Witness for C3 on the sample page: deleting `clock.html` leaves
`index.html`, and deleting a name that is not there changes nothing. -/
theorem confirmDeleteFile_removes_first_named_witness :
    (folderRecords (FileManager.confirmDeleteFile demoApp "clock.html") "html").map (fun f => f.name)
      = ["index.html"] ∧
    (FileManager.confirmDeleteFile demoApp "nothing.html").files = demoApp.files :=
  ⟨by decide,
   (confirmDeleteFile_removes_first_named demoApp "nothing.html").2.2.2.2 (by decide)⟩

/-- C4 (code bug).  Deleting the selected file does not clear the selection:
on the sample page, after a click on `index.html` (which selects it),
`FileManager.confirmDeleteFile("index.html")` takes the file out of the folder
`html`, sets `selectedFile` of the file manager to `null`, and leaves
`fileExplorer.selectedFile` pointing at the deleted object; the editors keep
their texts. -/
theorem confirmDeleteFile_keeps_explorer_selection :
    ∃ s0 s1 : App,
      JSEditor.init demoTemplates Slot.absent demoEditors demoButtons = some s0 ∧
      FileExplorer.fileItemClick s0 1 = Outcome.returned s1 ∧
      (selectedRecord s1).map (fun f => f.name) = some "index.html" ∧
      (folderRecords (FileManager.confirmDeleteFile s1 "index.html") "html").map (fun f => f.name)
        = ["clock.html"] ∧
      (selectedRecord (FileManager.confirmDeleteFile s1 "index.html")).map (fun f => f.name)
        = some "index.html" ∧
      (FileManager.confirmDeleteFile s1 "index.html").fmSelectedFile = none ∧
      (FileManager.confirmDeleteFile s1 "index.html").html = s1.html ∧
      (FileManager.confirmDeleteFile s1 "index.html").css = s1.css ∧
      (FileManager.confirmDeleteFile s1 "index.html").js = s1.js ∧
      (FileManager.confirmDeleteFile s1 "index.html").data = s1.data :=
  ⟨demoApp, (FileExplorer.fileItemClick demoApp 1).state, rfl, rfl, by decide, by decide,
   by decide, rfl, rfl, rfl, rfl, rfl⟩

/-! ## Lemmas on flushing and opening -/

theorem getElem?_setContent (heap : List FileRecord) (r x : Nat) (c : String) :
    (setContent heap r c)[x]? =
      if x = r then (heap[x]?).map (fun f => { f with content := c }) else heap[x]? := by
  unfold setContent
  cases hr : heap[r]? with
  | none =>
    by_cases hx : x = r
    · subst hx; simp [hr]
    · simp [hx]
  | some f =>
    by_cases hx : x = r
    · subst hx
      have hlt : x < heap.length := (List.getElem?_eq_some.mp hr).1
      simp [List.getElem?_set, hlt, hr]
    · have : r ≠ x := fun h => hx h.symm
      simp [List.getElem?_set_ne this, hx]

theorem hasName_setContent (heap : List FileRecord) (r : Nat) (c n : String) :
    hasName (setContent heap r c) n = hasName heap n := by
  funext x
  unfold hasName
  rw [getElem?_setContent]
  by_cases hx : x = r
  · subst hx
    cases heap[x]? <;> simp
  · simp [hx]

/-- What `saveCurrentFileContent` does, in one equation: when a file is
selected and the editor of its type is not empty, the content of the selected
object and of the first object of its name in the folder of its type become
the text of that editor; nothing else changes. -/
theorem saveCurrentFileContent_eq (s : App) :
    FileExplorer.saveCurrentFileContent s =
      match s.selectedFile with
      | none => s
      | some sel =>
        match s.heap[sel]? with
        | none => s
        | some f =>
          if bufferOfType s f.type ≠ "" ∧ folderOfType f.type ≠ "" then
            match (lookupFolder (folderOfType f.type) s.files).bind
                (fun l => (findIndex (hasName s.heap f.name) l).bind (fun i => l[i]?)) with
            | none => { s with heap := setContent s.heap sel (bufferOfType s f.type) }
            | some r =>
              { s with heap := setContent (setContent s.heap sel (bufferOfType s f.type)) r
                          (bufferOfType s f.type) }
          else s := by
  unfold FileExplorer.saveCurrentFileContent
  cases hsel : s.selectedFile with
  | none => rfl
  | some sel =>
    dsimp only
    cases hrec : s.heap[sel]? with
    | none => rfl
    | some f =>
      dsimp only
      have hpair : (if f.type = "html" then (s.html, "html")
          else if f.type = "css" then (s.css, "css")
          else if f.type = "javascript" then (s.js, "javascript")
          else if f.type = "json" ∨ f.type = "csv" then (s.data, "assets")
          else ("", "")) = (bufferOfType s f.type, folderOfType f.type) := by
        unfold bufferOfType folderOfType
        split_ifs <;> rfl
      simp only [hpair, hasName_setContent]
      by_cases hc : bufferOfType s f.type ≠ "" ∧ folderOfType f.type ≠ ""
      · rw [if_pos hc, if_pos hc]
        cases hl : lookupFolder (folderOfType f.type) s.files with
        | none => simp
        | some l =>
          cases hi : findIndex (hasName s.heap f.name) l with
          | none => simp [hi]
          | some i =>
            cases hr : l[i]? <;> simp [hi, hr]
      · rw [if_neg hc, if_neg hc]

theorem ContentOnly.refl (h : List FileRecord) : ContentOnly h h := by
  unfold ContentOnly; intro x; rfl

theorem ContentOnly.trans {h1 h2 h3 : List FileRecord} (a : ContentOnly h1 h2)
    (b : ContentOnly h2 h3) : ContentOnly h1 h3 := by
  unfold ContentOnly at *; intro x; exact (b x).trans (a x)

theorem contentOnly_setContent (h : List FileRecord) (r : Nat) (c : String) :
    ContentOnly h (setContent h r c) := by
  unfold ContentOnly
  intro x
  rw [getElem?_setContent]
  by_cases hx : x = r
  · subst hx
    cases h[x]? <;> simp
  · simp [hx]

theorem saveCurrentFileContent_frame (s : App) :
    SameButContents s (FileExplorer.saveCurrentFileContent s) := by
  rw [saveCurrentFileContent_eq]
  unfold SameButContents
  split
  · exact ⟨rfl, rfl, rfl, rfl, rfl, rfl, rfl, rfl, rfl, ContentOnly.refl _⟩
  · split
    · exact ⟨rfl, rfl, rfl, rfl, rfl, rfl, rfl, rfl, rfl, ContentOnly.refl _⟩
    · split_ifs with hc
      · split
        · exact ⟨rfl, rfl, rfl, rfl, rfl, rfl, rfl, rfl, rfl, contentOnly_setContent _ _ _⟩
        · exact ⟨rfl, rfl, rfl, rfl, rfl, rfl, rfl, rfl, rfl,
            (contentOnly_setContent _ _ _).trans (contentOnly_setContent _ _ _)⟩
      · exact ⟨rfl, rfl, rfl, rfl, rfl, rfl, rfl, rfl, rfl, ContentOnly.refl _⟩

theorem switchTab_eq (s : App) (tab : String) :
    JSEditor.switchTab s tab =
      if s.currentTab.truthy = true ∧ s.currentTab.isStr tab = false then Outcome.raised s
      else Outcome.returned { s with currentTab := JVal.str tab } := by
  unfold JSEditor.switchTab JSEditor.saveCurrentEditorContentToFile JSEditor.getCurrentTab
  by_cases h : s.currentTab.truthy = true ∧ s.currentTab.isStr tab = false
  · simp [h]
  · rw [if_neg h]
    simp only [Bool.not_eq_true] at h ⊢
    simp [h]

/-- Frame of `openFile`: it flushes (or not), then changes at most the editors,
`currentTab` and the selection, and a changed selection is `file`. -/
theorem openFile_frame (s : App) (file : Nat) :
    OpenedFrom s (FileExplorer.openFile s file).state file := by
  have hflush : SameButContents s (if s.selectedFile.isSome = true ∧ s.selectedFile ≠ some file
        then FileExplorer.saveCurrentFileContent s else s) := by
    split_ifs
    · exact saveCurrentFileContent_frame s
    · exact ⟨rfl, rfl, rfl, rfl, rfl, rfl, rfl, rfl, rfl, ContentOnly.refl _⟩
  unfold FileExplorer.openFile
  generalize (if s.selectedFile.isSome = true ∧ s.selectedFile ≠ some file
        then FileExplorer.saveCurrentFileContent s else s) = s1 at hflush ⊢
  obtain ⟨-, h2, h3, h4, h5, h6, h7, h8, h9, h10⟩ := hflush
  dsimp only
  unfold OpenedFrom
  split
  · exact ⟨h2, h3, h5, h6, h7, h8, h9, h10, Or.inl h4⟩
  · unfold FileExplorer.openInEditor FileExplorer.loadDataToEditor setEditorValue
    simp only [switchTab_eq]
    split_ifs <;>
      first
      | exact ⟨h2, h3, h5, h6, h7, h8, h9, h10, Or.inl h4⟩
      | exact ⟨h2, h3, h5, h6, h7, h8, h9, h10, Or.inr rfl⟩

/-! ## Lemmas on selection validity -/

theorem name_of_contentOnly {h h' : List FileRecord} (hco : ContentOnly h h') (x : Nat) :
    (h'[x]?).map (fun f => f.name) = (h[x]?).map (fun f => f.name) := by
  have := congrArg (Option.map (fun f : FileRecord => f.name)) (hco x)
  simpa [Option.map_map, Function.comp] using this

theorem folderNames_of_contentOnly {s s' : App} (hfiles : s'.files = s.files)
    (hco : ContentOnly s.heap s'.heap) (folder : String) :
    (folderRecords s' folder).map (fun f => f.name) = (folderRecords s folder).map (fun f => f.name) := by
  unfold folderRecords
  rw [hfiles, List.map_filterMap, List.map_filterMap]
  congr 1
  funext x
  exact name_of_contentOnly hco x

/-- Selection validity in terms of names. -/
theorem selectionInStore_iff (s : App) :
    SelectionInStore s ↔
      ∀ n, (selectedRecord s).map (fun f => f.name) = some n →
        ∃ folder, n ∈ (folderRecords s folder).map (fun f => f.name) := by
  unfold SelectionInStore
  constructor
  · intro h n hn
    cases hsel : selectedRecord s with
    | none => simp [hsel] at hn
    | some f =>
      simp only [hsel, Option.map_some', Option.some.injEq] at hn
      obtain ⟨folder, g, hg, hname⟩ := h f hsel
      exact ⟨folder, List.mem_map.mpr ⟨g, hg, by rw [hname, hn]⟩⟩
  · intro h f hf
    obtain ⟨folder, hmem⟩ := h f.name (by simp [hf])
    obtain ⟨g, hg, hname⟩ := List.mem_map.mp hmem
    exact ⟨folder, g, hg, hname⟩

theorem selectionInStore_showFolder (s : App) (folder : String) (h : SelectionInStore s) :
    SelectionInStore (FileExplorer.showFolder s folder) := h

theorem selectionInStore_switchFolder (s : App) (folder : String) (h : SelectionInStore s) :
    SelectionInStore (FileExplorer.switchFolder s folder).state := by
  unfold FileExplorer.switchFolder
  split_ifs
  · exact h
  · exact h

theorem selectionInStore_selectFile (s : App) (file : Nat) (hfile : file ∈ shownFiles s) :
    SelectionInStore (FileExplorer.selectFile s file) := by
  intro f hf
  refine ⟨s.currentFolder, f, ?_, rfl⟩
  have hf' : s.heap[file]? = some f := hf
  unfold shownFiles at hfile
  show f ∈ List.filterMap (fun r => s.heap[r]?) ((lookupFolder s.currentFolder s.files).getD [])
  exact List.mem_filterMap.mpr ⟨file, hfile, hf'⟩

theorem selectionInStore_openFile (s : App) (file : Nat) (h : SelectionInStore s)
    (hfile : file ∈ shownFiles s) :
    SelectionInStore (FileExplorer.openFile s file).state := by
  obtain ⟨hfiles, hcur, -, -, -, -, -, hco, hsel⟩ := openFile_frame s file
  rw [selectionInStore_iff] at h ⊢
  intro n hn
  have hnames := folderNames_of_contentOnly hfiles hco
  rcases hsel with hsel | hsel
  · have hrec : (selectedRecord (FileExplorer.openFile s file).state).map (fun f => f.name)
        = (selectedRecord s).map (fun f => f.name) := by
      unfold selectedRecord
      rw [hsel]
      cases s.selectedFile with
      | none => rfl
      | some r => exact name_of_contentOnly hco r
    rw [hrec] at hn
    obtain ⟨folder, hmem⟩ := h n hn
    exact ⟨folder, by rw [hnames]; exact hmem⟩
  · refine ⟨s.currentFolder, ?_⟩
    rw [hnames]
    unfold selectedRecord at hn
    rw [hsel] at hn
    change ((FileExplorer.openFile s file).state.heap[file]?).map (fun f => f.name) = some n at hn
    rw [name_of_contentOnly hco file] at hn
    cases hrec : s.heap[file]? with
    | none => simp [hrec] at hn
    | some f =>
      simp only [hrec, Option.map_some', Option.some.injEq] at hn
      refine List.mem_map.mpr ⟨f, ?_, hn⟩
      unfold shownFiles at hfile
      exact List.mem_filterMap.mpr ⟨file, hfile, hrec⟩

theorem selectionInStore_confirmDeleteFile (s : App) (fileName : String)
    (h : SelectionInStore s) (hname : ∀ f, selectedRecord s = some f → f.name ≠ fileName) :
    SelectionInStore (FileManager.confirmDeleteFile s fileName) := by
  intro f hf
  have hf' : selectedRecord s = some f := by
    unfold selectedRecord at hf ⊢
    rwa [confirmDeleteFile_selectedFile, confirmDeleteFile_heap] at hf
  obtain ⟨folder, g, hg, hgname⟩ := h f hf'
  refine ⟨folder, g, ?_, hgname⟩
  by_cases hfolder : folder = (FileManager.getCurrentFolder s).2
  · subst hfolder
    rw [confirmDeleteFile_folderRecords]
    have hneg : ¬ (fun x : FileRecord => decide (x.name = fileName)) g = true := by
      simp only [decide_eq_true_eq]
      rw [hgname]
      exact hname f hf'
    exact (List.mem_eraseP_of_neg (p := fun x : FileRecord => decide (x.name = fileName))
      (a := g) hneg).mpr hg
  · rw [confirmDeleteFile_folderRecords_other s fileName folder hfolder]
    exact hg

/-! ## Lemmas on the stored file system -/

theorem decodeRecord_toJVal (f : FileRecord) : decodeRecord f.toJVal = some f := by
  obtain ⟨name, type, icon, content, size, uploaded, isImage⟩ := f
  cases size <;> cases uploaded <;> cases isImage <;>
    simp [FileRecord.toJVal, decodeRecord, JVal.lookupKey]

theorem decodeFolder_map_toJVal (l : List FileRecord) :
    decodeFolder (JVal.arr (l.map FileRecord.toJVal)) = some l := by
  show List.mapM decodeRecord (l.map FileRecord.toJVal) = some l
  induction l with
  | nil => rfl
  | cons f rest ih =>
    rw [List.map_cons, List.mapM_cons, decodeRecord_toJVal, ih]
    rfl

theorem decodeTable_tableToJVal (t : List (String × List FileRecord)) :
    decodeTable (tableToJVal t) = some t := by
  show List.mapM (fun kv : String × JVal => (decodeFolder kv.2).map (fun l => (kv.1, l)))
      (t.map (fun kl => (kl.1, JVal.arr (kl.2.map FileRecord.toJVal)))) = some t
  induction t with
  | nil => rfl
  | cons kl rest ih =>
    rw [List.map_cons, List.mapM_cons, ih]
    simp only [decodeFolder_map_toJVal]
    rfl

theorem filesToJVal_eq (heap : List FileRecord) (files : List (String × List Nat)) :
    filesToJVal heap files = tableToJVal (storeTable heap files) := by
  unfold filesToJVal tableToJVal storeTable
  simp [List.map_map, Function.comp]

theorem lookupTable_storeTable (heap : List FileRecord) (files : List (String × List Nat))
    (folder : String) :
    lookupTable folder (storeTable heap files)
      = (lookupFolder folder files).map (fun l => l.filterMap (fun r => heap[r]?)) := by
  unfold storeTable
  induction files with
  | nil => rfl
  | cons kl rest ih =>
    obtain ⟨k, l⟩ := kl
    by_cases hk : k = folder
    · simp [lookupTable, lookupFolder, hk]
    · simp only [List.map_cons, lookupTable, lookupFolder, hk, if_false]
      exact ih

theorem filterMap_range'_append (a b c : List FileRecord) :
    (List.range' a.length b.length).filterMap (fun r => (a ++ b ++ c)[r]?) = b := by
  induction b generalizing a with
  | nil => rfl
  | cons x rest ih =>
    have h1 : (a ++ x :: rest ++ c)[a.length]? = some x := by
      rw [List.append_assoc, List.getElem?_append_right (le_refl _)]
      simp
    have h2 := ih (a ++ [x])
    simp only [List.length_append, List.length_singleton, List.append_assoc,
      List.singleton_append] at h2
    simp only [List.length_cons, List.range'_succ, List.filterMap_cons, h1]
    simpa [List.append_assoc] using h2

theorem allocTable_spec (t : List (String × List FileRecord)) (h : List FileRecord) :
    (allocTable t h).1 = h ++ t.flatMap Prod.snd ∧
    ∀ (extra : List FileRecord) (folder : String),
      ((lookupFolder folder (allocTable t h).2).getD []).filterMap
          (fun r => ((allocTable t h).1 ++ extra)[r]?)
        = (lookupTable folder t).getD [] := by
  induction t generalizing h with
  | nil =>
    refine ⟨by simp [allocTable], ?_⟩
    intro extra folder
    simp [allocTable, lookupFolder, lookupTable]
  | cons kl rest ih =>
    obtain ⟨k, recs⟩ := kl
    obtain ⟨ih1, ih2⟩ := ih (h ++ recs)
    have hheap : (allocTable ((k, recs) :: rest) h).1 = h ++ recs ++ rest.flatMap Prod.snd := by
      simp only [allocTable]
      exact ih1
    refine ⟨by rw [hheap]; simp [List.flatMap_cons], ?_⟩
    intro extra folder
    by_cases hk : k = folder
    · have hl : lookupFolder folder (allocTable ((k, recs) :: rest) h).2
          = some (List.range' h.length recs.length) := by
        simp [allocTable, lookupFolder, hk]
      rw [hl, hheap]
      simp only [Option.getD_some, lookupTable, hk, if_true]
      have := filterMap_range'_append h recs (rest.flatMap Prod.snd ++ extra)
      simpa [List.append_assoc] using this
    · have hl : lookupFolder folder (allocTable ((k, recs) :: rest) h).2
          = lookupFolder folder (allocTable rest (h ++ recs)).2 := by
        simp [allocTable, lookupFolder, hk]
      have hh : (allocTable ((k, recs) :: rest) h).1 = (allocTable rest (h ++ recs)).1 := by
        simp [allocTable]
      rw [hl, hh]
      simp only [lookupTable, hk, if_false]
      exact ih2 extra folder

/-- The page that `init` makes of a slot holding the file system of `s0`. -/
theorem init_saved_fileSystem_eq (T : Templates) (s0 : App) (e : Editors) (btns : List String) :
    JSEditor.init T (Slot.parsed (JVal.obj [("fileSystem", fileSystemToJVal s0)])) e btns =
      some
        { toEditors :=
            { e with html := "", css := "", js := "", currentTab := JVal.str "html",
                     savedFileSystemData := fileSystemToJVal s0 },
          heap := (allocTable (storeTable s0.heap s0.files) []).1 ++ (selectedRecord s0).toList,
          files := (allocTable (storeTable s0.heap s0.files) []).2,
          currentFolder := orElse s0.currentFolder "html",
          selectedFile := (selectedRecord s0).map
            (fun _ => (allocTable (storeTable s0.heap s0.files) []).1.length),
          fmCurrentFolder := "html",
          fmSelectedFile := none,
          activeFolder := if orElse s0.currentFolder "html" ∈ btns
            then some (orElse s0.currentFolder "html") else none,
          folderBtns := btns,
          storage := Slot.parsed (JVal.obj [("fileSystem", fileSystemToJVal s0)]) } := by
  have hfiles : FileExplorer.initializeFiles T
      (JSEditor.loadSavedCode T (Slot.parsed (JVal.obj [("fileSystem", fileSystemToJVal s0)]))
        { e with currentTab := JVal.str "html", savedFileSystemData := JVal.undefined })
      (Slot.parsed (JVal.obj [("fileSystem", fileSystemToJVal s0)]))
      = tableToJVal (storeTable s0.heap s0.files) := by
    rw [← filesToJVal_eq]
    rfl
  unfold JSEditor.init FileExplorer.construct
  simp only [hfiles, decodeTable_tableToJVal]
  cases hsel : selectedRecord s0 with
  | none =>
    have h1 : fileSystemToJVal s0 = JVal.obj
        [("currentFolder", JVal.str s0.currentFolder), ("selectedFile", JVal.null),
         ("files", filesToJVal s0.heap s0.files)] := by
      unfold fileSystemToJVal; rw [hsel]
    rw [h1]
    rfl
  | some f =>
    have h1 : fileSystemToJVal s0 = JVal.obj
        [("currentFolder", JVal.str s0.currentFolder), ("selectedFile", f.toJVal),
         ("files", filesToJVal s0.heap s0.files)] := by
      unfold fileSystemToJVal; rw [hsel]
    have h2 : f.toJVal.truthy = true := rfl
    have h3 : ∀ kvs, (JVal.obj kvs).truthy = true := fun _ => rfl
    have h4 : JVal.undefined.truthy = false := rfl
    rw [h1]
    simp [JSEditor.loadSavedCode, JVal.getProp, JVal.lookupKey, editorText,
      decodeRecord_toJVal, h2, h3, h4]

theorem init_saved_fileSystem (T : Templates) (s0 : App) (e : Editors) (btns : List String)
    (s' : App)
    (h : JSEditor.init T (Slot.parsed (JVal.obj [("fileSystem", fileSystemToJVal s0)])) e btns
      = some s') :
    (∀ folder, folderRecords s' folder = folderRecords s0 folder) ∧
    selectedRecord s' = selectedRecord s0 ∧
    s'.storage = Slot.parsed (JVal.obj [("fileSystem", fileSystemToJVal s0)]) := by
  rw [init_saved_fileSystem_eq] at h
  injection h with h
  subst h
  refine ⟨?_, ?_, rfl⟩
  · intro folder
    have := (allocTable_spec (storeTable s0.heap s0.files) []).2 (selectedRecord s0).toList folder
    unfold folderRecords
    rw [lookupTable_storeTable] at this
    simp only at this ⊢
    rw [this]
    cases lookupFolder folder s0.files <;> rfl
  · unfold selectedRecord
    cases hsel : s0.selectedFile.bind (fun r => s0.heap[r]?) with
    | none => simp [selectedRecord, hsel]
    | some f => simp [selectedRecord, hsel]

theorem saveFileSystemState_storage (s : App) (h : SlotInStore s.storage) :
    (FileManager.saveFileSystemState s).storage
      = Slot.parsed (JVal.obj [("fileSystem", fileSystemToJVal s)]) := by
  unfold FileManager.saveFileSystemState
  rcases h with h | ⟨s0, -, h⟩
  · rw [h]; rfl
  · rw [h]
    simp [JVal.setKey]

theorem fileSystemToJVal_saveFileSystemState (s : App) :
    fileSystemToJVal (FileManager.saveFileSystemState s) = fileSystemToJVal s := by
  unfold fileSystemToJVal selectedRecord
  simp

theorem selectionInStore_saveFileSystemState (s : App) (h : SelectionInStore s) :
    SelectionInStore (FileManager.saveFileSystemState s) := by
  intro f hf
  have hf' : selectedRecord s = some f := by
    unfold selectedRecord at hf ⊢
    simpa using hf
  obtain ⟨folder, g, hg, hname⟩ := h f hf'
  refine ⟨folder, g, ?_, hname⟩
  unfold folderRecords at hg ⊢
  simpa using hg

theorem slotInStore_confirmDeleteFile (s : App) (fileName : String)
    (hslot : SlotInStore s.storage)
    (hsel : SelectionInStore (FileManager.confirmDeleteFile s fileName)) :
    SlotInStore (FileManager.confirmDeleteFile s fileName).storage := by
  have key : (FileManager.confirmDeleteFile s fileName).storage = s.storage ∨
      (FileManager.confirmDeleteFile s fileName).storage =
        Slot.parsed (JVal.obj
          [("fileSystem", fileSystemToJVal (FileManager.confirmDeleteFile s fileName))]) := by
    unfold FileManager.confirmDeleteFile
    dsimp only
    cases hl : lookupFolder (FileManager.getCurrentFolder s).2
        (FileManager.getCurrentFolder s).1.files with
    | none => left; simp
    | some l =>
      right
      dsimp only
      rw [fileSystemToJVal_saveFileSystemState]
      apply saveFileSystemState_storage
      unfold FileExplorer.showFolder
      cases findIndex (hasName (FileManager.getCurrentFolder s).1.heap fileName) l <;>
        simpa using hslot
  rcases key with key | key
  · rw [key]; exact hslot
  · exact Or.inr ⟨_, hsel, key⟩

/-- The invariant of the reachable states: the selection is in the store, and
the slot is empty or holds the file system of such a state. -/
theorem reachable_invariant (T : Templates) (s : App) (h : Reachable T s) :
    SelectionInStore s ∧ SlotInStore s.storage := by
  induction h with
  | init e btns s hs =>
    rw [init_absent] at hs
    injection hs with hs
    subst hs
    refine ⟨?_, Or.inl rfl⟩
    intro f hf
    simp [selectedRecord, startApp] at hf
  | reload s e btns s' _ hs' ih =>
    obtain ⟨-, hslot⟩ := ih
    rcases hslot with hslot | ⟨s0, hs0, hslot⟩
    · rw [hslot, init_absent] at hs'
      injection hs' with hs'
      subst hs'
      refine ⟨?_, Or.inl rfl⟩
      intro f hf
      simp [selectedRecord, startApp] at hf
    · rw [hslot] at hs'
      obtain ⟨hrec, hselrec, hstorage⟩ := init_saved_fileSystem T s0 e btns s' hs'
      refine ⟨?_, Or.inr ⟨s0, hs0, hstorage⟩⟩
      intro f hf
      rw [hselrec] at hf
      obtain ⟨folder, g, hg, hname⟩ := hs0 f hf
      exact ⟨folder, g, by rw [hrec]; exact hg, hname⟩
  | showFolder s folder _ ih => exact ⟨selectionInStore_showFolder s folder ih.1, ih.2⟩
  | switchFolder s folder _ ih =>
    refine ⟨selectionInStore_switchFolder s folder ih.1, ?_⟩
    unfold FileExplorer.switchFolder
    split_ifs
    · exact ih.2
    · exact ih.2
  | openFile s file _ hfile ih =>
    refine ⟨selectionInStore_openFile s file ih.1 hfile, ?_⟩
    obtain ⟨-, -, -, -, -, -, hstorage, -, -⟩ := openFile_frame s file
    rw [hstorage]
    exact ih.2
  | selectFile s file _ hfile ih => exact ⟨selectionInStore_selectFile s file hfile, ih.2⟩
  | confirmDeleteFile s fileName _ hname ih =>
    have hsel := selectionInStore_confirmDeleteFile s fileName ih.1 hname
    exact ⟨hsel, slotInStore_confirmDeleteFile s fileName ih.2 hsel⟩

/-! ## C5: selection validity -/

/-- C5 (counterexample).  On the sample page, after `index.html` is opened in
the folder `html` and the folder `css` is shown through `switchFolder`, the
selection is still `index.html` while `files[currentFolder]` is the folder
`css`, which holds no file of that name. -/
theorem selection_outside_current_folder :
    ∃ s0 s1 s2 : App,
      JSEditor.init demoTemplates Slot.absent demoEditors demoButtons = some s0 ∧
      FileExplorer.openFile s0 1 = Outcome.returned s1 ∧
      FileExplorer.switchFolder s1 "css" = Outcome.returned s2 ∧
      (selectedRecord s2).map (fun f => f.name) = some "index.html" ∧
      s2.currentFolder = "css" ∧
      (folderRecords s2 s2.currentFolder).map (fun f => f.name) = ["clock.css", "style.css"] ∧
      ¬ SelectionInCurrentFolder s2 := by
  refine ⟨demoApp, (FileExplorer.openFile demoApp 1).state,
    (FileExplorer.switchFolder (FileExplorer.openFile demoApp 1).state "css").state,
    rfl, rfl, rfl, by decide, rfl, by decide, ?_⟩
  intro h
  obtain ⟨g, hg, hname⟩ := h
    { name := "index.html", type := "html", icon := "fab fa-html5", content := "<p>index</p>" } rfl
  revert hname
  revert g
  decide

/-- C5 (amended).  In every state reached from a first visit by reloading
(`init` restores from the slot), `showFolder` or `switchFolder`, `openFile` or
`selectFile` of a file of the shown folder, and `confirmDeleteFile` of a name
other than the selected file's: when `fileExplorer.selectedFile` is set, some
folder of `fileExplorer.files` holds a file of the same name. -/
theorem reachable_selection_in_store (T : Templates) (s : App) (h : Reachable T s) :
    ∀ f, selectedRecord s = some f → ∃ folder, ∃ g ∈ folderRecords s folder, g.name = f.name :=
  (reachable_invariant T s h).1

/-- Witness for C5 on the sample page: the state of the counterexample is
reachable, and its selection `index.html` is a file of the folder `html`. -/
theorem reachable_selection_in_store_witness :
    Reachable demoTemplates
      (FileExplorer.switchFolder (FileExplorer.openFile demoApp 1).state "css").state ∧
    ∀ f, selectedRecord
        (FileExplorer.switchFolder (FileExplorer.openFile demoApp 1).state "css").state = some f →
      ∃ folder, ∃ g ∈ folderRecords
        (FileExplorer.switchFolder (FileExplorer.openFile demoApp 1).state "css").state folder,
        g.name = f.name :=
  ⟨Reachable.switchFolder _ "css"
      (Reachable.openFile _ 1 (Reachable.init demoEditors demoButtons demoApp rfl) (by decide)),
   reachable_selection_in_store demoTemplates _
     (Reachable.switchFolder _ "css"
       (Reachable.openFile _ 1 (Reachable.init demoEditors demoButtons demoApp rfl) (by decide)))⟩

/-! ## C6: flush before load -/

theorem getElem?_setContent_twice (h : List FileRecord) (a b y : Nat) (c : String) :
    (setContent (setContent h a c) b c)[y]? =
      if y = a ∨ y = b then (h[y]?).map (fun f => { f with content := c }) else h[y]? := by
  rw [getElem?_setContent, getElem?_setContent]
  by_cases hb : y = b <;> by_cases ha : y = a
  · rw [if_pos hb, if_pos ha, if_pos (Or.inl ha)]
    cases h[y]? <;> rfl
  · rw [if_pos hb, if_neg ha, if_pos (Or.inr hb)]
  · rw [if_neg hb, if_pos ha, if_pos (Or.inl ha)]
  · rw [if_neg hb, if_neg ha, if_neg (by simp [ha, hb])]

theorem findIndex_some_sat {α : Type} (p : α → Bool) :
    ∀ (l : List α) (i : Nat), findIndex p l = some i → ∃ x, l[i]? = some x ∧ p x = true := by
  intro l
  induction l with
  | nil => intro i h; exact Option.noConfusion h
  | cons a l ih =>
    intro i h
    unfold findIndex at h
    by_cases hp : p a = true
    · rw [if_pos hp] at h
      cases Option.some.inj h
      exact ⟨a, by simp, hp⟩
    · rw [if_neg hp] at h
      cases hr : findIndex p l with
      | none => rw [hr] at h; exact Option.noConfusion h
      | some j =>
        rw [hr] at h
        cases Option.some.inj h
        obtain ⟨x, hx, hpx⟩ := ih j hr
        exact ⟨x, by simpa using hx, hpx⟩

/-- The heap after a flush of the selected file `x` whose editor is not empty:
the selected object and the object found by its name hold the text, and every
other object is as before. -/
theorem saveCurrentFileContent_flush (s : App) (x : Nat) (fx : FileRecord)
    (hsel : s.selectedFile = some x) (hx : s.heap[x]? = some fx)
    (hv : bufferOfType s fx.type ≠ "") (hf : folderOfType fx.type ≠ "") (z : Nat) :
    (FileExplorer.saveCurrentFileContent s).heap[z]?
      = if z = x ∨ FileExplorer.flushTarget s fx = some z
        then (s.heap[z]?).map (fun f => { f with content := bufferOfType s fx.type })
        else s.heap[z]? := by
  rw [saveCurrentFileContent_eq]
  simp only [hsel, hx]
  rw [if_pos ⟨hv, hf⟩]
  unfold FileExplorer.flushTarget
  split
  · rename_i hnone
    rw [hnone]
    show (setContent s.heap x (bufferOfType s fx.type))[z]? = _
    rw [getElem?_setContent]
    by_cases hzx : z = x
    · rw [if_pos hzx, if_pos (Or.inl hzx)]
    · rw [if_neg hzx, if_neg (fun h => h.elim hzx (fun h2 => Option.noConfusion h2))]
  · rename_i r hsome
    rw [hsome]
    show (setContent (setContent s.heap x (bufferOfType s fx.type)) r
      (bufferOfType s fx.type))[z]? = _
    rw [getElem?_setContent_twice]
    by_cases hz : z = x ∨ z = r
    · rw [if_pos hz, if_pos (hz.imp id (fun h2 => by rw [h2]))]
    · rw [if_neg hz, if_neg (fun h => hz (h.imp id (fun h2 => (Option.some.inj h2).symm)))]

/-- The object found by the name of `f` is named like `f`. -/
theorem flushTarget_name (s : App) (f : FileRecord) (r : Nat)
    (h : FileExplorer.flushTarget s f = some r) :
    ∃ fr, s.heap[r]? = some fr ∧ fr.name = f.name := by
  unfold FileExplorer.flushTarget at h
  cases hl : lookupFolder (folderOfType f.type) s.files with
  | none => rw [hl] at h; exact Option.noConfusion h
  | some l =>
    rw [hl] at h
    change (findIndex (hasName s.heap f.name) l).bind (fun i => l[i]?) = some r at h
    cases hi : findIndex (hasName s.heap f.name) l with
    | none => rw [hi] at h; exact Option.noConfusion h
    | some i =>
      rw [hi] at h
      obtain ⟨x, hx, hpx⟩ := findIndex_some_sat _ l i hi
      have hxr : x = r := by
        have : l[i]? = some r := h
        rw [hx] at this
        exact Option.some.inj this
      subst hxr
      unfold hasName at hpx
      cases hr : s.heap[x]? with
      | none => rw [hr] at hpx; exact Bool.noConfusion hpx
      | some fr =>
        rw [hr] at hpx
        exact ⟨fr, rfl, of_decide_eq_true hpx⟩

/-- A file with another name is not the object found by name. -/
theorem flushTarget_ne_of_name (s : App) (fx fy : FileRecord) (y : Nat)
    (hy : s.heap[y]? = some fy) (hname : fy.name ≠ fx.name) :
    FileExplorer.flushTarget s fx ≠ some y := by
  intro h
  obtain ⟨fr, hr, hn⟩ := flushTarget_name s fx y h
  rw [hy] at hr
  cases Option.some.inj hr
  exact hname hn

/-- C6 (counterexample).  An empty buffer is not flushed, and an empty file
is not loaded as it is stored.  On the sample page with `index.html` selected
and the html editor emptied, `openFile` of `clock.html` leaves the stored
content of `index.html` as it was.  And after the empty file `e.html` has been
uploaded into the folder `html`, `openFile` of it (with `index.html` selected
and `<i>y</i>` in the editor) flushes the editor and then sets it to a
placeholder comment, while the stored content of `e.html` is empty.  And
`openFile` of the selected file itself does not flush: the editor text
`<i>y</i>` is replaced by the stored content.  And a file named like the
selected one is overwritten by the flush: with the `x.html` of the folder
`css` selected and `v` in the html editor, `openFile` of the `x.html` of the
folder `html`, whose stored content is `html:x.html`, leaves `v` as the
stored content of that file and in the editor. -/
theorem openFile_flush_or_load_differs :
    (∃ s0 s1 s2 : App,
      JSEditor.init demoTemplates Slot.absent demoEditors demoButtons = some s0 ∧
      FileExplorer.openFile s0 1 = Outcome.returned s1 ∧
      s1.selectedFile = some 1 ∧
      FileExplorer.openFile { s1 with html := "" } 0 = Outcome.returned s2 ∧
      (s2.heap[1]?).map (fun f => (f.name, f.content)) = some ("index.html", "<p>index</p>") ∧
      (s2.heap[1]?).map (fun f => f.content) ≠ some "") ∧
    (∃ s1 s2 s3 : App,
      JSEditor.addFileToFileExplorer toLowerCase demoApp { name := "e.html", size := 0 } "" "e.html" "html"
        false false = Outcome.returned s1 ∧
      FileExplorer.openFile s1 1 = Outcome.returned s2 ∧
      FileExplorer.openFile { s2 with html := "<i>y</i>" } 8 = Outcome.returned s3 ∧
      (s3.heap[1]?).map (fun f => (f.name, f.content)) = some ("index.html", "<i>y</i>") ∧
      (s3.heap[8]?).map (fun f => (f.name, f.type, f.content)) = some ("e.html", "html", "") ∧
      s3.html = "<!-- e.html -->\n\n") ∧
    (∃ s1 s2 : App,
      FileExplorer.openFile demoApp 1 = Outcome.returned s1 ∧
      FileExplorer.openFile { s1 with html := "<i>y</i>" } 1 = Outcome.returned s2 ∧
      (s2.heap[1]?).map (fun f => (f.name, f.content)) = some ("index.html", "<p>index</p>") ∧
      s2.html = "<p>index</p>") ∧
    (twoNamesakesApp.selectedFile = some 9 ∧
      twoNamesakesApp.currentTab = JVal.str "html" ∧
      twoNamesakesApp.html = "v" ∧
      (twoNamesakesApp.heap[9]?).map (fun f => (f.name, f.type)) = some ("x.html", "html") ∧
      (twoNamesakesApp.heap[10]?).map (fun f => (f.name, f.type, f.content))
        = some ("x.html", "html", "html:x.html") ∧
      lookupFolder "css" twoNamesakesApp.files = some [2, 3, 4, 9] ∧
      lookupFolder "html" twoNamesakesApp.files = some [0, 1, 10] ∧
      ∃ s1, FileExplorer.openFile twoNamesakesApp 10 = Outcome.returned s1 ∧
        (s1.heap[10]?).map (fun f => f.content) = some "v" ∧ s1.html = "v") :=
  ⟨⟨demoApp, (FileExplorer.openFile demoApp 1).state,
    (FileExplorer.openFile { (FileExplorer.openFile demoApp 1).state with html := "" } 0).state,
    rfl, rfl, rfl, rfl, by decide, by decide⟩,
   ⟨(JSEditor.addFileToFileExplorer toLowerCase demoApp { name := "e.html", size := 0 } "" "e.html" "html"
      false false).state,
    (FileExplorer.openFile (JSEditor.addFileToFileExplorer toLowerCase demoApp { name := "e.html", size := 0 }
      "" "e.html" "html" false false).state 1).state,
    (FileExplorer.openFile
      { (FileExplorer.openFile (JSEditor.addFileToFileExplorer toLowerCase demoApp
          { name := "e.html", size := 0 } "" "e.html" "html" false false).state 1).state with
        html := "<i>y</i>" } 8).state,
    rfl, rfl, rfl, by decide, by decide, by decide⟩,
   ⟨(FileExplorer.openFile demoApp 1).state,
    (FileExplorer.openFile { (FileExplorer.openFile demoApp 1).state with html := "<i>y</i>" }
      1).state,
    rfl, rfl, by decide, by decide⟩,
   ⟨rfl, rfl, rfl, by decide, by decide, by decide, by decide,
    ⟨(FileExplorer.openFile twoNamesakesApp 10).state, rfl, by decide, by decide⟩⟩⟩

/-- C6 (amended).  Flush before load for code files: let `x` be the selected
file and `y` another file of the same type, one of `html`, `css` and
`javascript`, let the current tab be the tab of that type, let the editor of
that type hold a text `v` that is not empty, let the stored content of `y` be
not empty, and let the names of `x` and `y` differ or, more generally, `y` not
be the object that the flush finds by the name of `x` in the folder of the
type.  Then `openFile(y)` returns, the folder arrays are as before, the
content of `x` is `v`, and so is the content of the object stored under the
name of `x` in the folder of the type; `y` is stored as before, the editor
holds the stored content of `y`, and `y` is selected. -/
theorem openFile_flushes_then_loads (s : App) (x y : Nat) (fx fy : FileRecord)
    (hsel : s.selectedFile = some x) (hxy : x ≠ y)
    (hx : s.heap[x]? = some fx) (hy : s.heap[y]? = some fy)
    (hkind : fy.type = fx.type)
    (hcode : fx.type = "html" ∨ fx.type = "css" ∨ fx.type = "javascript")
    (htab : s.currentTab = JVal.str (tabOfType fx.type))
    (hv : bufferOfType s fx.type ≠ "") (hcontent : fy.content ≠ "")
    (hnames : fy.name ≠ fx.name ∨ FileExplorer.flushTarget s fx ≠ some y) :
    ∃ s', FileExplorer.openFile s y = Outcome.returned s' ∧
      s'.files = s.files ∧
      s'.heap[x]? = some { fx with content := bufferOfType s fx.type } ∧
      (∀ r fr, FileExplorer.flushTarget s fx = some r → s.heap[r]? = some fr →
        s'.heap[r]? = some { fr with content := bufferOfType s fx.type }) ∧
      s'.heap[y]? = some fy ∧
      bufferOfType s' fx.type = fy.content ∧
      s'.selectedFile = some y := by
  have hother : FileExplorer.flushTarget s fx ≠ some y :=
    hnames.elim (flushTarget_ne_of_name s fx fy y hy) id
  have hf : folderOfType fx.type ≠ "" := by
    rcases hcode with h | h | h <;> rw [h] <;> decide
  have hflush := saveCurrentFileContent_flush s x fx hsel hx hv hf
  obtain ⟨hed, hfiles, -, -, -, -, -, -, -, -⟩ := saveCurrentFileContent_frame s
  have hcond : s.selectedFile.isSome = true ∧ s.selectedFile ≠ some y := by
    rw [hsel]
    exact ⟨rfl, fun h => hxy (Option.some.inj h)⟩
  have htab1 : (FileExplorer.saveCurrentFileContent s).currentTab
      = JVal.str (tabOfType fx.type) := by
    rw [← htab]
    exact congrArg Editors.currentTab hed
  have h1x : (FileExplorer.saveCurrentFileContent s).heap[x]?
      = some { fx with content := bufferOfType s fx.type } := by
    rw [hflush x, if_pos (Or.inl rfl), hx]
    rfl
  have h1y : (FileExplorer.saveCurrentFileContent s).heap[y]? = some fy := by
    rw [hflush y, if_neg (fun h => h.elim (fun h2 => hxy h2.symm) hother), hy]
  have h1r : ∀ r fr, FileExplorer.flushTarget s fx = some r → s.heap[r]? = some fr →
      (FileExplorer.saveCurrentFileContent s).heap[r]?
        = some { fr with content := bufferOfType s fx.type } := by
    intro r fr hr hfr
    rw [hflush r, if_pos (Or.inr hr), hfr]
    rfl
  unfold FileExplorer.openFile
  dsimp only
  rw [if_pos hcond]
  generalize FileExplorer.saveCurrentFileContent s = s1 at h1x h1y h1r hed hfiles htab1 ⊢
  have hswitch : JSEditor.switchTab s1 (tabOfType fx.type)
      = Outcome.returned { s1 with currentTab := JVal.str (tabOfType fx.type) } := by
    rw [switchTab_eq, htab1]
    simp [JVal.isStr]
  have hor : ∀ d, orElse fy.content d = fy.content := by
    intro d; unfold orElse; rw [if_pos hcontent]
  rw [h1y]
  dsimp only
  rcases hcode with h | h | h
  · have ht : fy.type = "html" := hkind.trans h
    have htabv : tabOfType fx.type = "html" := by rw [h]; rfl
    rw [htabv] at hswitch
    rw [if_pos ht, hor]
    unfold FileExplorer.openInEditor
    rw [hswitch]
    refine ⟨_, rfl, hfiles, h1x, h1r, h1y, ?_, rfl⟩
    rw [h]; rfl
  · have ht : fy.type = "css" := hkind.trans h
    have htabv : tabOfType fx.type = "css" := by rw [h]; rfl
    rw [htabv] at hswitch
    rw [if_neg (by rw [ht]; decide), if_pos ht, hor]
    unfold FileExplorer.openInEditor
    rw [hswitch]
    refine ⟨_, rfl, hfiles, h1x, h1r, h1y, ?_, rfl⟩
    rw [h]; rfl
  · have ht : fy.type = "javascript" := hkind.trans h
    have htabv : tabOfType fx.type = "js" := by rw [h]; rfl
    rw [htabv] at hswitch
    rw [if_neg (by rw [ht]; decide), if_neg (by rw [ht]; decide), if_pos ht, hor]
    unfold FileExplorer.openInEditor
    rw [hswitch]
    refine ⟨_, rfl, hfiles, h1x, h1r, h1y, ?_, rfl⟩
    rw [h]; rfl

/-- Witness for C6 on the sample page: `index.html` is selected, the html
editor holds `<i>y</i>`, and `clock.html` is opened. -/
theorem openFile_flushes_then_loads_witness :
    ∃ s',
      FileExplorer.openFile { (FileExplorer.openFile demoApp 1).state with html := "<i>y</i>" } 0
        = Outcome.returned s' ∧
      s'.files = demoApp.files ∧
      s'.heap[1]? = some { name := "index.html", type := "html", icon := "fab fa-html5",
                           content := "<i>y</i>" } ∧
      s'.heap[0]? = some { name := "clock.html", type := "html", icon := "fab fa-html5",
                           content := "<p>clock</p>" } ∧
      s'.html = "<p>clock</p>" ∧ s'.selectedFile = some 0 :=
  (openFile_flushes_then_loads
    { (FileExplorer.openFile demoApp 1).state with html := "<i>y</i>" } 1 0
    { name := "index.html", type := "html", icon := "fab fa-html5", content := "<p>index</p>" }
    { name := "clock.html", type := "html", icon := "fab fa-html5", content := "<p>clock</p>" }
    rfl (by decide) rfl rfl rfl (Or.inl rfl) rfl (by decide) (by decide)
    (Or.inl (by decide))).elim
    (fun s' h => ⟨s', h.1, h.2.1, h.2.2.1, h.2.2.2.2.1, h.2.2.2.2.2.1, h.2.2.2.2.2.2⟩)

/-! ## C7: content update preserves position -/

theorem folderRecords_blank_of_contentOnly {s s' : App} (hfiles : s'.files = s.files)
    (hco : ContentOnly s.heap s'.heap) (folder : String) :
    (folderRecords s' folder).map (fun f : FileRecord => { f with content := "" })
      = (folderRecords s folder).map (fun f : FileRecord => { f with content := "" }) := by
  unfold folderRecords
  rw [hfiles, List.map_filterMap, List.map_filterMap]
  congr 1
  funext x
  exact hco x

/-- C7 (counterexample).  The write also reaches a file stored in another
folder than the one of its type: on the reloaded sample page the selected
`x.html` is stored in the folder `css`; `saveCurrentFileContent` changes its
content there, and the folder `html`, the folder of its type, holds no file of
that name. -/
theorem saveCurrentFileContent_writes_other_folder :
    JSEditor.init demoTemplates (FileManager.createFile demoTemplates cssPageApp "a.css").storage
        demoEditors demoButtons = some reloadedApp ∧
    (FileManager.createFileOpenCallback
        (FileManager.createFile demoTemplates reloadedApp "x.html") 9).isRaised = false ∧
    (selectedRecord aliasedApp).map (fun f => (f.name, f.type)) = some ("x.html", "html") ∧
    folderOfType "html" = "html" ∧
    (folderRecords aliasedApp "html").map (fun f => f.name) = ["clock.html", "index.html"] ∧
    (folderRecords aliasedApp "css").map (fun f => (f.name, f.content))
      = [("clock.css", "p {}"), ("style.css", "p {}"), ("a.css", "css:a.css"),
         ("x.html", "html:x.html")] ∧
    (folderRecords (FileExplorer.saveCurrentFileContent aliasedApp) "css").map
        (fun f => (f.name, f.content))
      = [("clock.css", "p {}"), ("style.css", "p {}"), ("a.css", "css:a.css"), ("x.html", "v")] :=
  ⟨rfl, rfl, by decide, by decide, by decide, by decide, by decide⟩

/-- C7 (amended).  `saveCurrentFileContent` never adds, removes or reorders
files: `fileExplorer.files` is unchanged and every folder reads the same up to
the contents of its files (so the names and types are the same, in the same
order); and an object whose content changes is the selected object itself or
the first object of its name in the folder of its type. -/
theorem saveCurrentFileContent_preserves_positions (s : App) :
    (FileExplorer.saveCurrentFileContent s).files = s.files ∧
    (∀ folder,
      (folderRecords (FileExplorer.saveCurrentFileContent s) folder).map
          (fun f : FileRecord => { f with content := "" })
        = (folderRecords s folder).map (fun f : FileRecord => { f with content := "" })) ∧
    (∀ folder,
      (folderRecords (FileExplorer.saveCurrentFileContent s) folder).map (fun f => (f.name, f.type))
        = (folderRecords s folder).map (fun f => (f.name, f.type))) ∧
    (∀ r : Nat, (FileExplorer.saveCurrentFileContent s).heap[r]? ≠ s.heap[r]? →
      s.selectedFile = some r ∨
      ∃ f l i, selectedRecord s = some f ∧
        lookupFolder (folderOfType f.type) s.files = some l ∧
        findIndex (hasName s.heap f.name) l = some i ∧ l[i]? = some r) := by
  obtain ⟨-, hfiles, -, -, -, -, -, -, -, hco⟩ := saveCurrentFileContent_frame s
  have hblank := folderRecords_blank_of_contentOnly hfiles hco
  refine ⟨hfiles, hblank, ?_, ?_⟩
  · intro folder
    have := congrArg (List.map (fun f : FileRecord => (f.name, f.type))) (hblank folder)
    simpa [List.map_map, Function.comp] using this
  · intro r hr
    rw [saveCurrentFileContent_eq] at hr
    cases hsel : s.selectedFile with
    | none => simp [hsel] at hr
    | some sel =>
      by_cases hrs : sel = r
      · left; rw [hrs]
      · right
        have hrs' : ¬ r = sel := fun h => hrs h.symm
        simp only [hsel] at hr
        cases hrec : s.heap[sel]? with
        | none => simp [hrec] at hr
        | some f =>
          simp only [hrec] at hr
          by_cases hc : bufferOfType s f.type ≠ "" ∧ folderOfType f.type ≠ ""
          · rw [if_pos hc] at hr
            cases hl : lookupFolder (folderOfType f.type) s.files with
            | none =>
              exfalso
              apply hr
              simp only [hl, Option.none_bind]
              show (setContent s.heap sel (bufferOfType s f.type))[r]? = _
              rw [getElem?_setContent, if_neg hrs']
            | some l =>
              cases hi : findIndex (hasName s.heap f.name) l with
              | none =>
                exfalso
                apply hr
                simp only [hl, hi, Option.some_bind, Option.none_bind]
                show (setContent s.heap sel (bufferOfType s f.type))[r]? = _
                rw [getElem?_setContent, if_neg hrs']
              | some i =>
                cases hli : l[i]? with
                | none =>
                  exfalso
                  apply hr
                  simp only [hl, hi, hli, Option.some_bind]
                  show (setContent s.heap sel (bufferOfType s f.type))[r]? = _
                  rw [getElem?_setContent, if_neg hrs']
                | some t =>
                  refine ⟨f, l, i, ?_, hl, hi, ?_⟩
                  · unfold selectedRecord; rw [hsel]; exact hrec
                  · by_cases hrt : r = t
                    · rw [hli, hrt]
                    · exfalso
                      apply hr
                      simp only [hl, hi, hli, Option.some_bind]
                      show (setContent (setContent s.heap sel (bufferOfType s f.type)) t
                        (bufferOfType s f.type))[r]? = _
                      rw [getElem?_setContent_twice, if_neg (by simp [hrs', hrt])]
          · rw [if_neg hc] at hr
            exact absurd rfl hr

/-- Witness for C7 on the reloaded sample page: the object at address 9 (the
selected `x.html`) changes, and it is the selected object. -/
theorem saveCurrentFileContent_preserves_positions_witness :
    (FileExplorer.saveCurrentFileContent aliasedApp).heap[9]? ≠ aliasedApp.heap[9]? ∧
    (aliasedApp.selectedFile = some 9 ∨
      ∃ f l i, selectedRecord aliasedApp = some f ∧
        lookupFolder (folderOfType f.type) aliasedApp.files = some l ∧
        findIndex (hasName aliasedApp.heap f.name) l = some i ∧ l[i]? = some 9) :=
  ⟨by decide,
   (saveCurrentFileContent_preserves_positions aliasedApp).2.2.2 9 (by decide)⟩

/-! ## C8: upload -/

theorem setEditorValue_store (s : App) (targetTab content : String) :
    (setEditorValue s targetTab content).files = s.files ∧
    (setEditorValue s targetTab content).heap = s.heap := by
  unfold setEditorValue
  split_ifs <;> exact ⟨rfl, rfl⟩

theorem loadDefaultDataFiles_store (t : App) :
    (JSEditor.loadDefaultDataFiles t).state.files = t.files ∧
    (JSEditor.loadDefaultDataFiles t).state.heap = t.heap := by
  unfold JSEditor.loadDefaultDataFiles FileExplorer.loadDataToEditor
  split
  · exact ⟨rfl, rfl⟩
  · split
    · exact ⟨rfl, rfl⟩
    · split <;> exact ⟨rfl, rfl⟩

theorem switchFolderEditor_store (t : App) (folder : String) :
    (JSEditor.switchFolderEditor t folder).state.files = t.files ∧
    (JSEditor.switchFolderEditor t folder).state.heap = t.heap := by
  unfold JSEditor.switchFolderEditor
  by_cases hb : folder ∈ t.folderBtns
  · rw [if_pos hb]
    dsimp only
    by_cases ha : folder = "assets"
    · rw [if_pos ha]
      exact loadDefaultDataFiles_store _
    · rw [if_neg ha]
      exact ⟨rfl, rfl⟩
  · rw [if_neg hb]
    exact ⟨rfl, rfl⟩

theorem openFileInEditor_store (s : App) (fileType content : String) :
    (JSEditor.openFileInEditor s fileType content).state.files = s.files ∧
    (JSEditor.openFileInEditor s fileType content).state.heap = s.heap := by
  unfold JSEditor.openFileInEditor
  by_cases hd : fileType = "json" ∨ fileType = "csv"
  · rw [if_pos hd]
    exact switchFolderEditor_store s "assets"
  · rw [if_neg hd]
    dsimp only
    generalize (if fileType = "css" then "css" else if fileType = "javascript" then "js"
      else "html") = targetTab
    have := switchFolderEditor_store s (JSEditor.getCurrentFolder s)
    cases hsw : JSEditor.switchFolderEditor s (JSEditor.getCurrentFolder s) with
    | raised s1 =>
      rw [hsw] at this
      exact this
    | returned s1 =>
      rw [hsw] at this
      have h2 := setEditorValue_store s1 targetTab content
      exact ⟨h2.1.trans this.1, h2.2.trans this.2⟩

theorem findIndex_filterMap_valid (lower : String → String) (heap : List FileRecord) (n : String) (l : List Nat)
    (hl : ∀ r ∈ l, r < heap.length) :
    findIndex (hasNameIgnoringCase lower heap n) l
      = findIndex (fun f : FileRecord => decide (lower f.name = lower n))
          (l.filterMap (fun r => heap[r]?)) := by
  induction l with
  | nil => rfl
  | cons r rest ih =>
    have hr : r < heap.length := hl r (List.mem_cons_self _ _)
    have hget : heap[r]? = some heap[r] := List.getElem?_eq_getElem hr
    have ih' := ih (fun x hx => hl x (List.mem_cons_of_mem _ hx))
    simp only [List.filterMap_cons, hget, findIndex, hasNameIgnoringCase, ih']

theorem filterMap_append_valid (heap extra : List FileRecord) (l : List Nat)
    (hl : ∀ r ∈ l, r < heap.length) :
    l.filterMap (fun r => (heap ++ extra)[r]?) = l.filterMap (fun r => heap[r]?) := by
  induction l with
  | nil => rfl
  | cons r rest ih =>
    have hr : r < heap.length := hl r (List.mem_cons_self _ _)
    simp only [List.filterMap_cons, List.getElem?_append_left hr,
      ih (fun x hx => hl x (List.mem_cons_of_mem _ hx))]

theorem filterMap_set_valid (heap : List FileRecord) (x : FileRecord) (l : List Nat) (i : Nat)
    (hl : ∀ r ∈ l, r < heap.length) :
    (l.set i heap.length).filterMap (fun r => (heap ++ [x])[r]?)
      = (l.filterMap (fun r => heap[r]?)).set i x := by
  induction l generalizing i with
  | nil => rfl
  | cons r rest ih =>
    have hr : r < heap.length := hl r (List.mem_cons_self _ _)
    have hrest : ∀ y ∈ rest, y < heap.length := fun y hy => hl y (List.mem_cons_of_mem _ hy)
    have hget : heap[r]? = some heap[r] := List.getElem?_eq_getElem hr
    cases i with
    | zero =>
      simp only [List.set_cons_zero, List.filterMap_cons, List.getElem?_concat_length, hget]
      rw [filterMap_append_valid heap [x] rest hrest]
    | succ j =>
      simp only [List.set_cons_succ, List.filterMap_cons, List.getElem?_append_left hr, hget]
      rw [ih j hrest]

theorem mem_of_lookupFolder (files : List (String × List Nat)) (g : String) (l : List Nat)
    (hl : lookupFolder g files = some l) : (g, l) ∈ files := by
  induction files with
  | nil => simp [lookupFolder] at hl
  | cons kl rest ih =>
    obtain ⟨k, l'⟩ := kl
    by_cases hk : k = g
    · rw [lookupFolder, if_pos hk] at hl
      rw [hk, Option.some.inj hl]
      exact List.mem_cons_self _ _
    · rw [lookupFolder, if_neg hk] at hl
      exact List.mem_cons_of_mem _ (ih hl)

theorem folderRecords_append_heap (s s' : App) (x : FileRecord) (g : String)
    (hwf : s.WellFormed) (hheap : s'.heap = s.heap ++ [x])
    (hg : lookupFolder g s'.files = lookupFolder g s.files) :
    folderRecords s' g = folderRecords s g := by
  unfold folderRecords
  rw [hheap, hg]
  cases hl : lookupFolder g s.files with
  | none => rfl
  | some l =>
    apply filterMap_append_valid
    intro r hr
    exact hwf.1 (g, l) (mem_of_lookupFolder _ _ _ hl) r hr

theorem setFolder_setFolder (folder : String) (a b : List Nat)
    (files : List (String × List Nat)) :
    setFolder folder a (setFolder folder b files) = setFolder folder a files := by
  induction files with
  | nil => simp [setFolder]
  | cons kl rest ih =>
    obtain ⟨k, l'⟩ := kl
    by_cases hk : k = folder
    · simp [setFolder, hk]
    · simp [setFolder, hk, ih]

/-- The store after `addFileToFileExplorer`, at the level of addresses; the
optional `openFileInEditor` at the end does not touch the store. -/
theorem addFileToFileExplorer_store (lower : String → String) (s : App) (file : UploadedFile)
    (content fileName folder : String) (shouldReplace shouldOpen : Bool) :
    ((JSEditor.addFileToFileExplorer lower s file content fileName folder shouldReplace
        shouldOpen).state.files,
     (JSEditor.addFileToFileExplorer lower s file content fileName folder shouldReplace
        shouldOpen).state.heap) =
      match findIndex (hasNameIgnoringCase lower s.heap file.name)
          ((lookupFolder folder s.files).getD []) with
      | some i =>
        if shouldReplace = true then
          (setFolder folder (((lookupFolder folder s.files).getD []).set i s.heap.length) s.files,
           s.heap ++ [JSEditor.newUploadedFile file content fileName])
        else (s.files, s.heap)
      | none =>
        (setFolder folder ((lookupFolder folder s.files).getD [] ++ [s.heap.length]) s.files,
         s.heap ++ [JSEditor.newUploadedFile file content fileName]) := by
  have htail : ∀ s1 : App,
      ((if (JSEditor.getFileType fileName = "html" ∨ JSEditor.getFileType fileName = "css" ∨
            JSEditor.getFileType fileName = "javascript") ∧ shouldOpen = true
          then JSEditor.openFileInEditor s1 (JSEditor.getFileType fileName) content
          else Outcome.returned s1).state.files,
       (if (JSEditor.getFileType fileName = "html" ∨ JSEditor.getFileType fileName = "css" ∨
            JSEditor.getFileType fileName = "javascript") ∧ shouldOpen = true
          then JSEditor.openFileInEditor s1 (JSEditor.getFileType fileName) content
          else Outcome.returned s1).state.heap) = (s1.files, s1.heap) := by
    intro s1
    split_ifs
    · rw [(openFileInEditor_store s1 _ content).1, (openFileInEditor_store s1 _ content).2]
    · rfl
  unfold JSEditor.addFileToFileExplorer
  dsimp only
  cases hl : lookupFolder folder s.files with
  | some l =>
    simp only [hl, Option.getD_some]
    cases hi : findIndex (hasNameIgnoringCase lower s.heap file.name) l with
    | some i =>
      cases shouldReplace with
      | true => simp only [if_true]; exact htail _
      | false => simp [Outcome.state]
    | none => exact htail _
  | none =>
    simp only [lookupFolder_setFolder_self, Option.getD_some, Option.getD_none, findIndex]
    rw [htail]
    simp [setFolder_setFolder]

theorem folderRecords_of_store (s' : App) (folder : String) :
    folderRecords s' folder
      = ((lookupFolder folder s'.files).getD []).filterMap (fun r => s'.heap[r]?) := rfl

theorem demoApp_wellFormed : demoApp.WellFormed := by
  refine ⟨by decide, ?_, by decide⟩
  intro r h
  simp [demoApp, startApp] at h

/-- C8.  Upload never silently overwrites: for a well-formed store,
`addFileToFileExplorer` into a folder that holds a file whose name matches
case-insensitively (at index `i`) leaves the store unchanged when the overwrite
answer is no, and puts the new file object at index `i`, keeping the length and
every other file, when the answer is yes; when no file matches, the new file
object is appended at the end; the other folders read the same in all cases.
Two names match when `lower`, the function `toLowerCase` of the language,
gives the same string for both; the statement holds whatever that function
is. -/
theorem addFileToFileExplorer_never_overwrites_silently (lower : String → String) (s : App) (file : UploadedFile)
    (content fileName folder : String) (shouldReplace shouldOpen : Bool) (hwf : s.WellFormed) :
    (∀ i, findIndex (fun f : FileRecord => decide (lower f.name = lower file.name))
          (folderRecords s folder) = some i →
      (shouldReplace = false →
        (JSEditor.addFileToFileExplorer lower s file content fileName folder shouldReplace
          shouldOpen).state.files = s.files ∧
        (JSEditor.addFileToFileExplorer lower s file content fileName folder shouldReplace
          shouldOpen).state.heap = s.heap ∧
        folderRecords (JSEditor.addFileToFileExplorer lower s file content fileName folder shouldReplace
          shouldOpen).state folder = folderRecords s folder) ∧
      (shouldReplace = true →
        folderRecords (JSEditor.addFileToFileExplorer lower s file content fileName folder shouldReplace
          shouldOpen).state folder
          = (folderRecords s folder).set i (JSEditor.newUploadedFile file content fileName) ∧
        (folderRecords (JSEditor.addFileToFileExplorer lower s file content fileName folder shouldReplace
          shouldOpen).state folder).length = (folderRecords s folder).length)) ∧
    (findIndex (fun f : FileRecord => decide (lower f.name = lower file.name))
          (folderRecords s folder) = none →
      folderRecords (JSEditor.addFileToFileExplorer lower s file content fileName folder shouldReplace
          shouldOpen).state folder
        = folderRecords s folder ++ [JSEditor.newUploadedFile file content fileName]) ∧
    (∀ g, g ≠ folder →
      folderRecords (JSEditor.addFileToFileExplorer lower s file content fileName folder shouldReplace
          shouldOpen).state g = folderRecords s g) := by
  have hstore := addFileToFileExplorer_store lower s file content fileName folder shouldReplace shouldOpen
  generalize (JSEditor.addFileToFileExplorer lower s file content fileName folder shouldReplace
    shouldOpen).state = s' at hstore ⊢
  have hvalid : ∀ r ∈ (lookupFolder folder s.files).getD [], r < s.heap.length := by
    intro r hr
    cases hl : lookupFolder folder s.files with
    | none => simp [hl] at hr
    | some l =>
      rw [hl] at hr
      exact hwf.1 (folder, l) (mem_of_lookupFolder _ _ _ hl) r hr
  have hfi := findIndex_filterMap_valid lower s.heap file.name _ hvalid
  rw [hfi] at hstore
  change (s'.files, s'.heap) = match findIndex _ (folderRecords s folder) with
    | some i => _
    | none => _ at hstore
  refine ⟨?_, ?_, ?_⟩
  · intro i hi
    rw [hi] at hstore
    dsimp only at hstore
    constructor
    · intro hno
      rw [hno] at hstore
      simp only [Bool.false_eq_true, if_false, Prod.mk.injEq] at hstore
      refine ⟨hstore.1, hstore.2, ?_⟩
      rw [folderRecords_of_store s', hstore.1, hstore.2]
      rfl
    · intro hyes
      rw [hyes] at hstore
      simp only [if_true, Prod.mk.injEq] at hstore
      have hrec : folderRecords s' folder
          = (folderRecords s folder).set i (JSEditor.newUploadedFile file content fileName) := by
        rw [folderRecords_of_store s', hstore.1, hstore.2, lookupFolder_setFolder_self]
        exact filterMap_set_valid s.heap _ _ i hvalid
      exact ⟨hrec, by rw [hrec, List.length_set]⟩
  · intro hnone
    rw [hnone] at hstore
    simp only [Prod.mk.injEq] at hstore
    rw [folderRecords_of_store s', hstore.1, hstore.2, lookupFolder_setFolder_self]
    simp only [Option.getD_some, List.filterMap_append, List.filterMap_cons, List.filterMap_nil,
      List.getElem?_concat_length]
    rw [filterMap_append_valid s.heap _ _ hvalid]
    rfl
  · intro g hg
    cases hfind : findIndex (fun f : FileRecord => decide (lower f.name = lower file.name))
        (folderRecords s folder) with
    | none =>
      rw [hfind] at hstore
      simp only [Prod.mk.injEq] at hstore
      exact folderRecords_append_heap s s' _ g hwf hstore.2
        (by rw [hstore.1, lookupFolder_setFolder_ne _ _ _ _ hg])
    | some i =>
      rw [hfind] at hstore
      dsimp only at hstore
      cases shouldReplace with
      | false =>
        simp only [Bool.false_eq_true, if_false, Prod.mk.injEq] at hstore
        rw [folderRecords_of_store s', hstore.1, hstore.2]
        rfl
      | true =>
        simp only [if_true, Prod.mk.injEq] at hstore
        exact folderRecords_append_heap s s' _ g hwf hstore.2
          (by rw [hstore.1, lookupFolder_setFolder_ne _ _ _ _ hg])

/-- Witness for C8 on the sample page: `INDEX.HTML` is uploaded into the folder
`html`, where `index.html` is at index 1; with the answer yes the new object
takes index 1, with the answer no the store is unchanged.  The two names are
ASCII, where the function of the language is `toLowerCase`. -/
theorem addFileToFileExplorer_never_overwrites_silently_witness :
    demoApp.WellFormed ∧
    folderRecords (JSEditor.addFileToFileExplorer toLowerCase demoApp { name := "INDEX.HTML", size := 3 }
        "<p>up</p>" "index.html" "html" true false).state "html"
      = (folderRecords demoApp "html").set 1
          (JSEditor.newUploadedFile { name := "INDEX.HTML", size := 3 } "<p>up</p>" "index.html") ∧
    (JSEditor.addFileToFileExplorer toLowerCase demoApp { name := "INDEX.HTML", size := 3 }
        "<p>up</p>" "index.html" "html" false false).state.files = demoApp.files :=
  ⟨demoApp_wellFormed,
   (((addFileToFileExplorer_never_overwrites_silently toLowerCase demoApp { name := "INDEX.HTML", size := 3 }
      "<p>up</p>" "index.html" "html" true false demoApp_wellFormed).1 1 (by decide)).2 rfl).1,
   (((addFileToFileExplorer_never_overwrites_silently toLowerCase demoApp { name := "INDEX.HTML", size := 3 }
      "<p>up</p>" "index.html" "html" false false demoApp_wellFormed).1 1 (by decide)).1 rfl).1⟩

/-! ## C9 and C10: persistence -/

theorem saveCode_raised (s : App) (now : String) :
    JSEditor.saveCode s now = Outcome.raised s := by
  unfold JSEditor.saveCode JSEditor.saveCurrentFile JSEditor.saveCurrentEditorContent
    JSEditor.getCurrentTab
  cases s.selectedFile with
  | none => rfl
  | some sel =>
    dsimp only
    cases s.heap[sel]? <;> rfl

/-- C9 (code bug).  `saveCode` writes no snapshot: its first statement,
`saveCurrentFile()`, calls the undefined `getCurrentTab` on either branch, so
in every state `saveCode` is left by a TypeError before `localStorage.setItem`.
On the sample page with `mine` typed into the html editor the slot is still
empty after `saveCode`, and the load path on it gives the default code, not
`mine`. -/
theorem saveCode_then_load_loses_buffers :
    (∀ (s : App) (now : String),
      JSEditor.saveCode s now = Outcome.raised s ∧
      (JSEditor.saveCode s now).state.storage = s.storage) ∧
    (JSEditor.saveCode { demoApp with html := "mine" } "2024-01-01T00:00:00.000Z").isRaised = true ∧
    (JSEditor.init demoTemplates
        (JSEditor.saveCode { demoApp with html := "mine" } "2024-01-01T00:00:00.000Z").state.storage
        demoEditors demoButtons).map (fun s => s.html) = some "<h1>hi</h1>" :=
  ⟨fun s now => ⟨saveCode_raised s now, by rw [saveCode_raised]; rfl⟩, rfl, by decide⟩

/-- C10.  Backward-readable snapshot: when the slot holds the JSON object with
the single key `html` and the string `h` under it, `loadSavedCode` sets the
html editor to `h`, `initializeFiles` returns the built-in file set, which has
two files in each of `html`, `css`, `javascript` and `assets`, and the file
explorer is built on that set. -/
theorem load_html_only_snapshot (T : Templates) (h : String) (e : Editors)
    (btns : List String) :
    (JSEditor.loadSavedCode T (Slot.parsed (JVal.obj [("html", JVal.str h)])) e).html = h ∧
    FileExplorer.initializeFiles T
        (JSEditor.loadSavedCode T (Slot.parsed (JVal.obj [("html", JVal.str h)])) e)
        (Slot.parsed (JVal.obj [("html", JVal.str h)]))
      = tableToJVal (defaultFiles T) ∧
    (defaultFiles T).map (fun kl => (kl.1, kl.2.map (fun f => f.name)))
      = [("html", ["clock.html", "index.html"]), ("css", ["clock.css", "style.css"]),
         ("javascript", ["clock.js", "script.js"]), ("assets", ["data.json", "data.csv"])] ∧
    ∃ s' : App,
      JSEditor.init T (Slot.parsed (JVal.obj [("html", JVal.str h)])) e btns = some s' ∧
      s'.html = h ∧
      ∀ folder, folderRecords s' folder = (lookupTable folder (defaultFiles T)).getD [] := by
  refine ⟨rfl, rfl, rfl, ?_⟩
  refine ⟨{ startApp T e btns with
      html := h, css := "", js := "",
      storage := Slot.parsed (JVal.obj [("html", JVal.str h)]) }, rfl, rfl, ?_⟩
  intro folder
  have := (allocTable_spec (defaultFiles T) []).2 [] folder
  simpa [folderRecords] using this

/-! ## C11 to C13: loading and writing the slot -/

theorem truthy_obj (kvs : List (String × JVal)) : (JVal.obj kvs).truthy = true := rfl

theorem loadDefaultCode_savedFileSystemData (T : Templates) (e : Editors) :
    (JSEditor.loadDefaultCode T e).savedFileSystemData = e.savedFileSystemData := rfl

theorem loadSavedCode_savedFileSystemData (T : Templates) (v : JVal) (e : Editors)
    (h : e.savedFileSystemData = JVal.undefined) :
    (JSEditor.loadSavedCode T (Slot.parsed v) e).savedFileSystemData = JVal.undefined ∨
    (JSEditor.loadSavedCode T (Slot.parsed v) e).savedFileSystemData
      = (v.getProp "fileSystem").getD JVal.undefined := by
  unfold JSEditor.loadSavedCode
  dsimp only
  split
  · left; exact h
  · split
    · right; rfl
    · left
      rw [loadDefaultCode_savedFileSystemData]
      split <;> exact h

theorem pick_files_eq (fs : JVal) :
    (if fs.truthy then
      (match fs.getProp "files" with
       | some files => if files.truthy then some files else none
       | none => none)
     else none)
    = if ((fs.getProp "files").getD JVal.undefined).truthy then
        some ((fs.getProp "files").getD JVal.undefined) else none := by
  cases fs <;> simp [JVal.truthy, JVal.getProp]

theorem initializeFiles_eq (T : Templates) (e : Editors) (v : JVal)
    (h : e.savedFileSystemData = JVal.undefined ∨
      e.savedFileSystemData = (v.getProp "fileSystem").getD JVal.undefined) :
    FileExplorer.initializeFiles T e (Slot.parsed v)
      = if (snapshotFiles v).truthy then snapshotFiles v else tableToJVal (defaultFiles T) := by
  unfold FileExplorer.initializeFiles snapshotFiles
  dsimp only
  cases hv : v.getProp "fileSystem" with
  | none =>
    have hs : e.savedFileSystemData = JVal.undefined := by
      rcases h with h | h
      · exact h
      · rw [h, hv]; rfl
    simp [hs, JVal.truthy, JVal.getProp]
  | some fs =>
    rw [hv] at h
    have hu : JVal.undefined.truthy = false := rfl
    have hn : JVal.null.truthy = false := rfl
    have ho : ∀ kvs, (JVal.obj kvs).truthy = true := fun _ => rfl
    have ha : ∀ xs, (JVal.arr xs).truthy = true := fun _ => rfl
    rcases h with h | h
    · cases fs <;> simp [h, hu, hn, ho, ha, JVal.getProp] <;>
        split_ifs <;> rfl
    · simp only [Option.getD] at h
      cases fs <;> simp [h, hu, hn, ho, ha, JVal.getProp] <;>
        split_ifs <;> rfl

/-- C11 (counterexample).  A snapshot whose `fileSystem.files` is the string
`abc`, and one whose `fileSystem.files` has the folder `html` only: in both
cases `initializeFiles` returns the stored value, not the built-in file set,
and the second value has no key `css`. -/
theorem initializeFiles_returns_malformed_files :
    FileExplorer.initializeFiles demoTemplates
        (JSEditor.loadSavedCode demoTemplates (Slot.parsed stringFilesSnapshot)
          (freshEditors demoEditors))
        (Slot.parsed stringFilesSnapshot) = JVal.str "abc" ∧
    JVal.str "abc" ≠ tableToJVal (defaultFiles demoTemplates) ∧
    FileExplorer.initializeFiles demoTemplates
        (JSEditor.loadSavedCode demoTemplates (Slot.parsed htmlOnlyFilesSnapshot)
          (freshEditors demoEditors))
        (Slot.parsed htmlOnlyFilesSnapshot) = JVal.obj [("html", JVal.arr [])] ∧
    JVal.lookupKey "css" [("html", JVal.arr [])] = none :=
  ⟨rfl, fun h => JVal.noConfusion h, rfl, rfl⟩

/-- C11 (amended).  For every parsed snapshot, `initializeFiles` (after
`loadSavedCode` on the same slot) returns the built-in file set when
`fileSystem.files` is absent or falsy, and the stored value when it is truthy;
the built-in file set has the four folder keys `html`, `css`, `javascript`
and `assets`. -/
theorem initializeFiles_defaults_when_files_falsy (T : Templates) (e : Editors) (v : JVal) :
    FileExplorer.initializeFiles T
        (JSEditor.loadSavedCode T (Slot.parsed v) (freshEditors e)) (Slot.parsed v)
      = (if (snapshotFiles v).truthy then snapshotFiles v else tableToJVal (defaultFiles T)) ∧
    ∃ kvs, tableToJVal (defaultFiles T) = JVal.obj kvs ∧
      kvs.map Prod.fst = ["html", "css", "javascript", "assets"] :=
  ⟨initializeFiles_eq T _ v (loadSavedCode_savedFileSystemData T v (freshEditors e) rfl),
   _, rfl, rfl⟩

/-- C12 (counterexample).  With `5` or `[]` in the slot, `loadSavedCode` leaves
the three editors empty; the built-in default code is not loaded. -/
theorem loadSavedCode_number_gives_empty_buffers :
    codeBuffers (JSEditor.loadSavedCode demoTemplates (Slot.parsed (JVal.num 5)) demoEditors)
      = ("", "", "") ∧
    codeBuffers (JSEditor.loadSavedCode demoTemplates (Slot.parsed (JVal.arr [])) demoEditors)
      = ("", "", "") ∧
    codeBuffers (JSEditor.loadDefaultCode demoTemplates demoEditors)
      = ("<h1>hi</h1>", "h1 {}", "log()") := by
  decide

/-- C12 (amended).  `loadSavedCode` is total (every exception of its body is
caught).  With no text, the empty text, an unparsable text or `null` in the
slot, the html, css and js editors end up with the default code of
`loadDefaultCode`; with a number, a boolean, a string, an array or an object
without keys in the slot, the three editors end up empty. -/
theorem loadSavedCode_default_or_empty (T : Templates) (e : Editors) :
    codeBuffers (JSEditor.loadSavedCode T Slot.absent e)
      = codeBuffers (JSEditor.loadDefaultCode T e) ∧
    codeBuffers (JSEditor.loadSavedCode T Slot.empty e)
      = codeBuffers (JSEditor.loadDefaultCode T e) ∧
    codeBuffers (JSEditor.loadSavedCode T Slot.unparsable e)
      = codeBuffers (JSEditor.loadDefaultCode T e) ∧
    codeBuffers (JSEditor.loadSavedCode T (Slot.parsed JVal.null) e)
      = codeBuffers (JSEditor.loadDefaultCode T e) ∧
    codeBuffers (JSEditor.loadDefaultCode T e)
      = (T.defaultCodeHtml, T.defaultCodeCss, T.defaultCodeJs) ∧
    (∀ n, codeBuffers (JSEditor.loadSavedCode T (Slot.parsed (JVal.num n)) e) = ("", "", "")) ∧
    (∀ b, codeBuffers (JSEditor.loadSavedCode T (Slot.parsed (JVal.bool b)) e) = ("", "", "")) ∧
    (∀ t, codeBuffers (JSEditor.loadSavedCode T (Slot.parsed (JVal.str t)) e) = ("", "", "")) ∧
    (∀ xs, codeBuffers (JSEditor.loadSavedCode T (Slot.parsed (JVal.arr xs)) e) = ("", "", "")) ∧
    codeBuffers (JSEditor.loadSavedCode T (Slot.parsed (JVal.obj [])) e) = ("", "", "") :=
  ⟨rfl, rfl, rfl, rfl, rfl, fun _ => rfl, fun _ => rfl, fun _ => rfl, fun _ => rfl, rfl⟩

/-- C13 (counterexample).  Two pages that differ only in the stored value:
after `saveFileSystemState` the slot of the first holds an object with the key
`fileSystem` only, the slot of the second still has the key `html` of the
prior snapshot. -/
theorem saveFileSystemState_keeps_prior_keys :
    oldSnapshotApp = { demoApp with storage := oldSnapshotApp.storage } ∧
    (FileManager.saveFileSystemState demoApp).storage.topKeys = ["fileSystem"] ∧
    (FileManager.saveFileSystemState oldSnapshotApp).storage.topKeys = ["html", "fileSystem"] ∧
    (FileManager.saveFileSystemState demoApp).storage
      ≠ (FileManager.saveFileSystemState oldSnapshotApp).storage := by
  refine ⟨rfl, rfl, rfl, ?_⟩
  intro h
  have h2 := congrArg Slot.topKeys h
  revert h2
  decide

/-- C13 (amended).  The snapshot `saveCode` builds and the file system both
writers store are functions of the editors and the file store, whatever the
slot holds.  `saveFileSystemState` stores the object parsed from the slot with
its key `fileSystem` set to the current file system, every other key and its
value as before; when the slot holds no text, the empty text or an unparsable
text, it stores an object with the key `fileSystem` only. -/
theorem saveFileSystemState_merges_into_prior (s : App) (slot : Slot) (now : String) :
    codeDataToJVal { s with storage := slot } now = codeDataToJVal s now ∧
    fileSystemToJVal { s with storage := slot } = fileSystemToJVal s ∧
    (∀ kvs, (FileManager.saveFileSystemState { s with storage := Slot.parsed (JVal.obj kvs) }).storage
        = Slot.parsed (JVal.obj (JVal.setKey "fileSystem" (fileSystemToJVal s) kvs))) ∧
    (∀ kvs k, JVal.lookupKey k (JVal.setKey "fileSystem" (fileSystemToJVal s) kvs)
        = if k = "fileSystem" then some (fileSystemToJVal s) else JVal.lookupKey k kvs) ∧
    (FileManager.saveFileSystemState { s with storage := Slot.absent }).storage
        = Slot.parsed (JVal.obj [("fileSystem", fileSystemToJVal s)]) ∧
    (FileManager.saveFileSystemState { s with storage := Slot.empty }).storage
        = Slot.parsed (JVal.obj [("fileSystem", fileSystemToJVal s)]) ∧
    (FileManager.saveFileSystemState { s with storage := Slot.unparsable }).storage
        = Slot.parsed (JVal.obj [("fileSystem", fileSystemToJVal s)]) := by
  refine ⟨rfl, rfl, fun _ => rfl, ?_, rfl, rfl, rfl⟩
  intro kvs k
  induction kvs with
  | nil =>
    by_cases hk : k = "fileSystem"
    · subst hk; simp [JVal.setKey, JVal.lookupKey]
    · have : ¬ "fileSystem" = k := fun h => hk h.symm
      simp [JVal.setKey, JVal.lookupKey, hk, this]
  | cons kv rest ih =>
    obtain ⟨k', v'⟩ := kv
    unfold JVal.setKey
    by_cases h1 : k' = "fileSystem"
    · rw [if_pos h1]
      subst h1
      by_cases hk : k = "fileSystem"
      · subst hk; simp [JVal.lookupKey]
      · have : ¬ "fileSystem" = k := fun h => hk h.symm
        simp [JVal.lookupKey, hk, this]
    · rw [if_neg h1]
      unfold JVal.lookupKey
      by_cases h2 : k' = k
      · have hk : ¬ k = "fileSystem" := fun h => h1 (h2.trans h)
        simp [h2, hk]
      · simp [h2, ih]

/-! ## C15 to C18: history -/

theorem sliceTo_of_nonneg {α : Type} (xs : List α) (stop : Int) (h : 0 ≤ stop) :
    sliceTo xs stop = xs.take stop.toNat := by
  unfold sliceTo
  rw [if_pos h]

theorem saveToHistory_stack1 (h : History)
    (hlo : -1 ≤ h.currentIndex) (hhi : h.currentIndex ≤ (h.stack.length : Int) - 1) :
    (if h.currentIndex < (h.stack.length : Int) - 1 then sliceTo h.stack (h.currentIndex + 1)
      else h.stack) = h.stack.take (h.currentIndex + 1).toNat := by
  split_ifs with hc
  · exact sliceTo_of_nonneg _ _ (by omega)
  · have : (h.currentIndex + 1).toNat = h.stack.length := by omega
    rw [this, List.take_length]

theorem saveToHistory_take_append (h : History) (e : Editors) (now : Int)
    (hlo : -1 ≤ h.currentIndex) (hhi : h.currentIndex ≤ (h.stack.length : Int) - 1)
    (hlen : h.stack.length ≤ 50) (hmax : h.maxHistorySize = 50) :
    (JSEditor.saveToHistory h e now).stack
      = (if (h.stack.take (h.currentIndex + 1).toNat ++ [JSEditor.currentState e now]).length > 50
          then (h.stack.take (h.currentIndex + 1).toNat ++ [JSEditor.currentState e now]).tail
          else h.stack.take (h.currentIndex + 1).toNat ++ [JSEditor.currentState e now]) ∧
    (JSEditor.saveToHistory h e now).stack.length ≤ 50 ∧
    (JSEditor.saveToHistory h e now).currentIndex
      = ((JSEditor.saveToHistory h e now).stack.length : Int) - 1 ∧
    (JSEditor.saveToHistory h e now).stack.getLast? = some (JSEditor.currentState e now) := by
  unfold JSEditor.saveToHistory
  dsimp only
  rw [saveToHistory_stack1 h hlo hhi, hmax]
  have htake : (h.stack.take (h.currentIndex + 1).toNat).length = (h.currentIndex + 1).toNat := by
    rw [List.length_take]; omega
  split_ifs with hc
  · refine ⟨rfl, ?_, ?_, ?_⟩
    · simp only [List.length_tail, List.length_append, List.length_singleton, htake]
      omega
    · simp only [List.length_tail, List.length_append, List.length_singleton, htake]
      omega
    · generalize h.stack.take (h.currentIndex + 1).toNat = l at hc
      cases l with
      | nil => simp at hc
      | cons a l => simp
  · refine ⟨rfl, ?_, ?_, ?_⟩
    · simp only [List.length_append, List.length_singleton, htake] at hc ⊢
      omega
    · simp only [List.length_append, List.length_singleton, htake]
      omega
    · simp

/-- C15.  For a history with `-1 <= currentIndex <= stack.length - 1`, at most
50 entries and capacity 50, `saveToHistory` leaves the first `currentIndex + 1`
old entries followed by the new snapshot, without its oldest entry when that
would be more than 50 entries; afterwards `currentIndex` is
`stack.length - 1` and the entry there is the snapshot. -/
theorem saveToHistory_truncates_and_appends (h : History) (e : Editors) (now : Int)
    (hlo : -1 ≤ h.currentIndex) (hhi : h.currentIndex ≤ (h.stack.length : Int) - 1)
    (hlen : h.stack.length ≤ 50) (hmax : h.maxHistorySize = 50) :
    (JSEditor.saveToHistory h e now).stack
      = (if (h.stack.take (h.currentIndex + 1).toNat ++ [JSEditor.currentState e now]).length > 50
          then (h.stack.take (h.currentIndex + 1).toNat ++ [JSEditor.currentState e now]).tail
          else h.stack.take (h.currentIndex + 1).toNat ++ [JSEditor.currentState e now]) ∧
    (JSEditor.saveToHistory h e now).stack.length ≤ 50 ∧
    (JSEditor.saveToHistory h e now).currentIndex
      = ((JSEditor.saveToHistory h e now).stack.length : Int) - 1 ∧
    (JSEditor.saveToHistory h e now).stack.getLast? = some (JSEditor.currentState e now) :=
  saveToHistory_take_append h e now hlo hhi hlen hmax

theorem saveToHistory_at_tail (h : History) (e : Editors) (now : Int)
    (hidx : h.currentIndex = (h.stack.length : Int) - 1) :
    JSEditor.saveToHistory h e now
      = if (h.stack ++ [JSEditor.currentState e now]).length > h.maxHistorySize then
          { h with stack := (h.stack ++ [JSEditor.currentState e now]).tail,
                   currentIndex := h.currentIndex }
        else { h with stack := h.stack ++ [JSEditor.currentState e now],
                      currentIndex := h.currentIndex + 1 } := by
  unfold JSEditor.saveToHistory
  dsimp only
  have hc : ¬ h.currentIndex < (h.stack.length : Int) - 1 := by omega
  rw [if_neg hc]
  split_ifs
  · congr 1; omega
  · rfl

theorem saveAllToHistory_append (h : History) (es : List (Editors × Int)) (p : Editors × Int) :
    JSEditor.saveAllToHistory h (es ++ [p])
      = JSEditor.saveToHistory (JSEditor.saveAllToHistory h es) p.1 p.2 := by
  unfold JSEditor.saveAllToHistory
  rw [List.foldl_append]
  rfl

theorem tail_drop_append_singleton {α : Type} (n : Nat) (l : List α) (x : α) (h : n < l.length) :
    (l.drop n ++ [x]).tail = (l ++ [x]).drop (n + 1) := by
  rw [List.drop_append_of_le_length (by omega), ← List.drop_drop 1 n l, List.drop_one]
  cases hd : l.drop n with
  | nil =>
    have := congrArg List.length hd
    rw [List.length_drop] at this
    simp at this
    omega
  | cons a t => rfl

theorem saveAllToHistory_initial (es : List (Editors × Int)) :
    (JSEditor.saveAllToHistory History.initial es).stack
      = (es.map (fun p => JSEditor.currentState p.1 p.2)).drop (es.length - 50) ∧
    (JSEditor.saveAllToHistory History.initial es).currentIndex
      = ((min es.length 50 : Nat) : Int) - 1 ∧
    (JSEditor.saveAllToHistory History.initial es).maxHistorySize = 50 := by
  induction es using List.reverseRecOn with
  | nil => exact ⟨rfl, rfl, rfl⟩
  | append_singleton es p ih =>
    obtain ⟨hs, hi, hm⟩ := ih
    rw [saveAllToHistory_append]
    have hlen : (JSEditor.saveAllToHistory History.initial es).stack.length = min es.length 50 := by
      rw [hs, List.length_drop, List.length_map]; omega
    rw [saveToHistory_at_tail _ _ _ (by rw [hi, hlen])]
    rw [hm]
    simp only [List.length_append, List.length_singleton, hlen, List.map_append, List.map_cons,
      List.map_nil]
    split_ifs with hc
    · have h50 : 50 ≤ es.length := by omega
      refine ⟨?_, ?_, rfl⟩
      · dsimp only
        rw [hs, tail_drop_append_singleton _ _ _ (by rw [List.length_map]; omega)]
        congr 1
        omega
      · dsimp only
        rw [hi]; omega
    · have h50 : es.length < 50 := by omega
      refine ⟨?_, ?_, rfl⟩
      · dsimp only
        rw [hs]
        have h0 : es.length - 50 = 0 := by omega
        have h1 : es.length + 1 - 50 = 0 := by omega
        rw [h0, h1]
        simp
      · dsimp only
        rw [hi]; omega

/-- Witness for C15: the cursor is on `a` of the entries `a`, `b`, `c`; the
push leaves `a` and the new snapshot. -/
theorem saveToHistory_truncates_and_appends_witness :
    (JSEditor.saveToHistory { stack := threeEntries, currentIndex := 0, maxHistorySize := 50 }
        typedEditors 9).stack.map (fun x => x.html) = ["a", "mine"] ∧
    (JSEditor.saveToHistory { stack := threeEntries, currentIndex := 0, maxHistorySize := 50 }
        typedEditors 9).currentIndex
      = ((JSEditor.saveToHistory { stack := threeEntries, currentIndex := 0, maxHistorySize := 50 }
        typedEditors 9).stack.length : Int) - 1 :=
  ⟨by decide,
   (saveToHistory_truncates_and_appends
      { stack := threeEntries, currentIndex := 0, maxHistorySize := 50 } typedEditors 9
      (by decide) (by decide) (by decide) rfl).2.2.1⟩

/-- C16.  From the initial history, `saveToHistory` run for sixty editor states
in order leaves exactly 50 entries, the snapshots of the 11th to the 60th
state in order, and `currentIndex` is 49, the index of the last one. -/
theorem saveToHistory_sixty_keeps_last_fifty (es : List (Editors × Int)) (h : es.length = 60) :
    (JSEditor.saveAllToHistory History.initial es).stack
      = (es.map (fun p => JSEditor.currentState p.1 p.2)).drop 10 ∧
    (JSEditor.saveAllToHistory History.initial es).stack.length = 50 ∧
    (JSEditor.saveAllToHistory History.initial es).currentIndex = 49 ∧
    (JSEditor.saveAllToHistory History.initial es).stack[49]?
      = (es.map (fun p => JSEditor.currentState p.1 p.2))[59]? := by
  obtain ⟨hs, hi, -⟩ := saveAllToHistory_initial es
  rw [h] at hs hi
  refine ⟨hs, ?_, ?_, ?_⟩
  · rw [hs, List.length_drop, List.length_map, h]
  · rw [hi]; rfl
  · rw [hs, List.getElem?_drop]

/-- Witness for C16 on sixty states numbered `1` to `60`. -/
theorem saveToHistory_sixty_keeps_last_fifty_witness :
    sixtyStates.length = 60 ∧
    (JSEditor.saveAllToHistory History.initial sixtyStates).stack.length = 50 ∧
    (JSEditor.saveAllToHistory History.initial sixtyStates).currentIndex = 49 :=
  ⟨by simp [sixtyStates],
   (saveToHistory_sixty_keeps_last_fifty sixtyStates (by simp [sixtyStates])).2.1,
   (saveToHistory_sixty_keeps_last_fifty sixtyStates (by simp [sixtyStates])).2.2.1⟩

theorem undo_of_valid (h : History) (e : Editors) (hv : h.Valid) :
    ((h.currentIndex = 0 ∨ h.stack = []) →
      JSEditor.undo h e = (h, e, UndoReport.nothingToUndo)) ∧
    (¬ (h.currentIndex = 0 ∨ h.stack = []) →
      ∃ state, h.stack[(h.currentIndex - 1).toNat]? = some state ∧
        (JSEditor.undo h e).1.currentIndex = h.currentIndex - 1 ∧
        (JSEditor.undo h e).1.stack = h.stack ∧
        (JSEditor.undo h e).1.maxHistorySize = h.maxHistorySize ∧
        (JSEditor.undo h e).2.1
          = { e with html := state.html, css := state.css, js := state.js } ∧
        (JSEditor.undo h e).2.2 = UndoReport.restored) ∧
    JSEditor.canUndo h = decide (¬ (h.currentIndex = 0 ∨ h.stack = [])) := by
  have hcases : (h.currentIndex = 0 ∨ h.stack = []) ↔ ¬ h.currentIndex > 0 := by
    rcases hv with ⟨hs, hi⟩ | ⟨hlo, hhi⟩
    · constructor
      · intro _; omega
      · intro _; exact Or.inr hs
    · constructor
      · rintro (h0 | hs)
        · omega
        · rw [hs] at hhi; simp at hhi; omega
      · intro hc; left; omega
  refine ⟨?_, ?_, ?_⟩
  · intro h0
    unfold JSEditor.undo
    rw [if_neg (hcases.mp h0)]
  · intro h0
    have hpos : h.currentIndex > 0 := by
      by_contra hc
      exact h0 (hcases.mpr hc)
    have hhi : h.currentIndex ≤ (h.stack.length : Int) - 1 := by
      rcases hv with ⟨-, hi⟩ | ⟨-, hhi⟩
      · omega
      · exact hhi
    have hlt : (h.currentIndex - 1).toNat < h.stack.length := by omega
    refine ⟨h.stack[(h.currentIndex - 1).toNat], List.getElem?_eq_getElem hlt, ?_⟩
    unfold JSEditor.undo
    rw [if_pos hpos]
    dsimp only
    rw [List.getElem?_eq_getElem hlt]
    exact ⟨rfl, rfl, rfl, rfl, rfl⟩
  · unfold JSEditor.canUndo
    by_cases hc : h.currentIndex > 0
    · have : ¬ (h.currentIndex = 0 ∨ h.stack = []) := fun h0 => hcases.mp h0 hc
      simp [hc, this]
    · have : h.currentIndex = 0 ∨ h.stack = [] := hcases.mpr hc
      simp [hc, this]

/-- C17.  For a history whose cursor is in range: when `currentIndex` is 0 or
the stack is empty, `undo` changes neither the history nor the editors and
reports that there is nothing to undo; otherwise it lowers `currentIndex` by
one, leaves the stack as it is, and sets the html, css and js editors to the
fields of the entry at the new `currentIndex`. -/
theorem undo_steps_back_or_reports (h : History) (e : Editors) (hv : h.Valid) :
    ((h.currentIndex = 0 ∨ h.stack = []) →
      JSEditor.undo h e = (h, e, UndoReport.nothingToUndo)) ∧
    (¬ (h.currentIndex = 0 ∨ h.stack = []) →
      ∃ state, h.stack[(h.currentIndex - 1).toNat]? = some state ∧
        (JSEditor.undo h e).1.currentIndex = h.currentIndex - 1 ∧
        (JSEditor.undo h e).1.stack = h.stack ∧
        (JSEditor.undo h e).1.maxHistorySize = h.maxHistorySize ∧
        (JSEditor.undo h e).2.1
          = { e with html := state.html, css := state.css, js := state.js } ∧
        (JSEditor.undo h e).2.2 = UndoReport.restored) ∧
    JSEditor.canUndo h = decide (¬ (h.currentIndex = 0 ∨ h.stack = [])) :=
  undo_of_valid h e hv

/-- Witness for C17: with the cursor on `c` of the entries `a`, `b`, `c`,
`undo` moves it to `b` and loads `b`; with the cursor on `a` it reports
that there is nothing to undo. -/
theorem undo_steps_back_or_reports_witness :
    (JSEditor.undo { stack := threeEntries, currentIndex := 2, maxHistorySize := 50 }
        typedEditors).2.2 = UndoReport.restored ∧
    (JSEditor.undo { stack := threeEntries, currentIndex := 2, maxHistorySize := 50 }
        typedEditors).1.currentIndex = 1 ∧
    JSEditor.undo { stack := threeEntries, currentIndex := 0, maxHistorySize := 50 } typedEditors
      = ({ stack := threeEntries, currentIndex := 0, maxHistorySize := 50 }, typedEditors,
          UndoReport.nothingToUndo) :=
  ⟨by decide, by decide,
   (undo_steps_back_or_reports { stack := threeEntries, currentIndex := 0, maxHistorySize := 50 }
      typedEditors (Or.inr ⟨by decide, by decide⟩)).1 (Or.inl rfl)⟩

theorem history_valid_saveToHistory (h : History) (e : Editors) (now : Int)
    (hv : h.Valid) (hlen : h.stack.length ≤ 50) (hmax : h.maxHistorySize = 50) :
    (JSEditor.saveToHistory h e now).Valid ∧
    (JSEditor.saveToHistory h e now).stack.length ≤ 50 ∧
    (JSEditor.saveToHistory h e now).maxHistorySize = 50 := by
  have hlo : -1 ≤ h.currentIndex := by
    rcases hv with ⟨-, hi⟩ | ⟨hlo, -⟩ <;> omega
  have hhi : h.currentIndex ≤ (h.stack.length : Int) - 1 := by
    rcases hv with ⟨hs, hi⟩ | ⟨-, hhi⟩
    · rw [hs, hi]; simp
    · exact hhi
  obtain ⟨-, h2, h3, h4⟩ := saveToHistory_take_append h e now hlo hhi hlen hmax
  refine ⟨Or.inr ⟨?_, ?_⟩, h2, ?_⟩
  · have hne : (JSEditor.saveToHistory h e now).stack ≠ [] := by
      intro hnil
      rw [hnil] at h4
      simp at h4
    have : 0 < (JSEditor.saveToHistory h e now).stack.length := List.length_pos.mpr hne
    omega
  · omega
  · unfold JSEditor.saveToHistory
    dsimp only
    split_ifs <;> exact hmax

theorem history_valid_undo (h : History) (e : Editors)
    (hv : h.Valid) :
    (JSEditor.undo h e).1.Valid ∧ (JSEditor.undo h e).1.stack = h.stack ∧
    (JSEditor.undo h e).1.maxHistorySize = h.maxHistorySize ∧
    (JSEditor.undo h e).2.2 ≠ UndoReport.raised := by
  by_cases h0 : h.currentIndex = 0 ∨ h.stack = []
  · rw [(undo_of_valid h e hv).1 h0]
    exact ⟨hv, rfl, rfl, fun hx => UndoReport.noConfusion hx⟩
  · obtain ⟨state, -, hi, hs, hm, -, hr⟩ := (undo_of_valid h e hv).2.1 h0
    refine ⟨Or.inr ⟨?_, ?_⟩, hs, hm, by rw [hr]; exact fun hx => UndoReport.noConfusion hx⟩
    · rw [hi]
      rcases hv with ⟨hs', -⟩ | ⟨hlo, -⟩
      · exact absurd (Or.inr hs') h0
      · have : h.currentIndex ≠ 0 := fun hz => h0 (Or.inl hz)
        omega
    · rw [hi, hs]
      rcases hv with ⟨hs', -⟩ | ⟨-, hhi⟩
      · exact absurd (Or.inr hs') h0
      · omega

/-- C18.  In every history reached from the initial one by `saveToHistory` and
`undo` in any order, the stack has at most 50 entries and `currentIndex` is
between `-1` and `stack.length - 1`, being `-1` only on an empty stack; so
the read `stack[currentIndex]` of a following `undo` finds an entry. -/
theorem history_reachable_in_range (h : History) (hr : HistoryReachable h) :
    h.stack.length ≤ 50 ∧ -1 ≤ h.currentIndex ∧
    h.currentIndex ≤ (h.stack.length : Int) - 1 ∧
    (h.currentIndex = -1 → h.stack = []) ∧
    ∀ e, (JSEditor.undo h e).2.2 ≠ UndoReport.raised := by
  have inv : h.Valid ∧ h.stack.length ≤ 50 ∧ h.maxHistorySize = 50 := by
    induction hr with
    | initial => exact ⟨Or.inl ⟨rfl, rfl⟩, by decide, rfl⟩
    | saveToHistory h e now _ ih => exact history_valid_saveToHistory h e now ih.1 ih.2.1 ih.2.2
    | undo h e _ ih =>
      obtain ⟨h1, h2, h3, -⟩ := history_valid_undo h e ih.1
      exact ⟨h1, by rw [h2]; exact ih.2.1, by rw [h3]; exact ih.2.2⟩
  obtain ⟨hv, hlen, -⟩ := inv
  refine ⟨hlen, ?_, ?_, ?_, fun e => (history_valid_undo h e hv).2.2.2⟩
  · rcases hv with ⟨-, hi⟩ | ⟨hlo, -⟩ <;> omega
  · rcases hv with ⟨hs, hi⟩ | ⟨-, hhi⟩
    · rw [hs, hi]; simp
    · exact hhi
  · intro hi
    rcases hv with ⟨hs, -⟩ | ⟨hlo, -⟩
    · exact hs
    · omega

/-- Witness for C18: the history after two pushes and an `undo`. -/
theorem history_reachable_in_range_witness :
    (JSEditor.undo (JSEditor.saveToHistory (JSEditor.saveToHistory History.initial demoEditors 1)
        typedEditors 2) typedEditors).1.currentIndex = 0 ∧
    (JSEditor.undo (JSEditor.saveToHistory (JSEditor.saveToHistory History.initial demoEditors 1)
        typedEditors 2) typedEditors).1.stack.length ≤ 50 :=
  ⟨by decide,
   (history_reachable_in_range _
      (HistoryReachable.undo _ typedEditors
        (HistoryReachable.saveToHistory _ typedEditors 2
          (HistoryReachable.saveToHistory _ demoEditors 1 HistoryReachable.initial)))).1⟩

/-! ## C27: clear and undo -/

/-- With the cursor on an entry, `clearAllCode` followed by `undo` loads the
entry the cursor was on before the clear, whatever the editors held. -/
theorem clearAllCode_then_undo_loads_old_cursor (h : History) (e : Editors) (now : Int)
    (hlo : 0 ≤ h.currentIndex) (hhi : h.currentIndex ≤ (h.stack.length : Int) - 1)
    (hlen : h.stack.length ≤ 50) (hmax : h.maxHistorySize = 50) :
    ∃ state, h.stack[h.currentIndex.toNat]? = some state ∧
      (JSEditor.undo (JSEditor.clearAllCode h e now).1 (JSEditor.clearAllCode h e now).2).2.1
        = { e with html := state.html, css := state.css, js := state.js } ∧
      (JSEditor.undo (JSEditor.clearAllCode h e now).1 (JSEditor.clearAllCode h e now).2).2.2
        = UndoReport.restored := by
  have hi : h.currentIndex.toNat < h.stack.length := by omega
  obtain ⟨state, hst⟩ : ∃ state, h.stack[h.currentIndex.toNat]? = some state :=
    ⟨_, List.getElem?_eq_getElem hi⟩
  refine ⟨state, hst, ?_⟩
  obtain ⟨hs, -, hidx, -⟩ := saveToHistory_take_append h e now (by omega) hhi hlen hmax
  have htake : (h.stack.take (h.currentIndex + 1).toNat).length = (h.currentIndex + 1).toNat := by
    rw [List.length_take]; omega
  have hentry : (JSEditor.saveToHistory h e now).stack[
      ((JSEditor.saveToHistory h e now).currentIndex - 1).toNat]?
      = h.stack[h.currentIndex.toNat]? := by
    rw [hidx, hs]
    split_ifs with hc
    · -- the oldest entry was dropped: the stack was full and the cursor at its end
      simp only [List.length_append, List.length_singleton, htake] at hc
      have h49 : h.currentIndex = 49 := by omega
      have hfull : h.stack.length = 50 := by omega
      have hall : h.stack.take (h.currentIndex + 1).toNat = h.stack := by
        rw [List.take_of_length_le]; omega
      rw [hall]
      simp only [List.length_tail, List.length_append, List.length_singleton, hfull]
      rw [h49]
      have h48 : (((50 + 1 - 1 : Nat) : Int) - 1 - 1).toNat = 48 := by omega
      have h49n : (49 : Int).toNat = 49 := by omega
      rw [h48, h49n, ← List.drop_one, List.getElem?_drop]
      rw [List.getElem?_append_left (by omega)]
    · simp only [List.length_append, List.length_singleton, htake]
      have hn : ((((h.currentIndex + 1).toNat + 1 : Nat) : Int) - 1 - 1).toNat
          = h.currentIndex.toNat := by omega
      rw [hn, List.getElem?_append_left (by rw [htake]; omega)]
      rw [List.getElem?_take_of_lt (by omega)]
  have hpos : (JSEditor.saveToHistory h e now).currentIndex > 0 := by
    rw [hidx, hs]
    split_ifs with hc
    · simp only [List.length_append, List.length_singleton, htake] at hc
      simp only [List.length_tail, List.length_append, List.length_singleton, htake]
      omega
    · simp only [List.length_append, List.length_singleton, htake]
      omega
  unfold JSEditor.clearAllCode JSEditor.undo
  rw [if_pos hpos]
  simp only [hentry, hst]
  exact ⟨trivial, trivial⟩

/-- C27 (code bug).  `clearAllCode` followed by `undo` does not bring the
cleared texts back.  On a page whose history is still the initial one, the
state saved by `clearAllCode` lands at index 0, `undo` reports that there is
nothing to undo, and the editors stay empty.  On a page whose history holds
the state saved one second after the start, `undo` steps below the state that
`clearAllCode` saved and loads the start state, not the texts that were
cleared. -/
theorem clearAllCode_then_undo_loses_buffers :
    codeBuffers typedEditors = ("mine", "p \x7b\x7d", "go()") ∧
    (JSEditor.undo (JSEditor.clearAllCode History.initial typedEditors 5).1
        (JSEditor.clearAllCode History.initial typedEditors 5).2).2.2
      = UndoReport.nothingToUndo ∧
    codeBuffers (JSEditor.undo (JSEditor.clearAllCode History.initial typedEditors 5).1
        (JSEditor.clearAllCode History.initial typedEditors 5).2).2.1 = ("", "", "") ∧
    (JSEditor.undo
        (JSEditor.clearAllCode
          (JSEditor.saveToHistory History.initial
            (JSEditor.loadDefaultCode demoTemplates demoEditors) 1) typedEditors 5).1
        (JSEditor.clearAllCode
          (JSEditor.saveToHistory History.initial
            (JSEditor.loadDefaultCode demoTemplates demoEditors) 1) typedEditors 5).2).2.2
      = UndoReport.restored ∧
    codeBuffers (JSEditor.undo
        (JSEditor.clearAllCode
          (JSEditor.saveToHistory History.initial
            (JSEditor.loadDefaultCode demoTemplates demoEditors) 1) typedEditors 5).1
        (JSEditor.clearAllCode
          (JSEditor.saveToHistory History.initial
            (JSEditor.loadDefaultCode demoTemplates demoEditors) 1) typedEditors 5).2).2.1
      = ("<h1>hi</h1>", "h1 \x7b\x7d", "log()") := by
  decide

/-! ## C25, C26 and C30: file kinds and the explicit save -/

theorem toLower_upper_facts : ∀ n : Fin 91, 65 ≤ n.val →
    (Char.ofNat n.val).toLower ≠ '.' ∧ Char.ofNat n.val ≠ '.' ∧
    (Char.ofNat n.val).toLower.toLower = (Char.ofNat n.val).toLower := by
  decide

theorem toLower_of_not_upper (c : Char) (h : ¬ (c.toNat ≥ 65 ∧ c.toNat ≤ 90)) :
    c.toLower = c := by
  unfold Char.toLower
  dsimp only
  rw [if_neg h]

theorem toLower_eq_dot (c : Char) : c.toLower = '.' ↔ c = '.' := by
  by_cases h : c.toNat ≥ 65 ∧ c.toNat ≤ 90
  · have := toLower_upper_facts ⟨c.toNat, by omega⟩ h.1
    simp only [Char.ofNat_toNat] at this
    constructor
    · intro h1; exact absurd h1 this.1
    · intro h1; exact absurd h1 this.2.1
  · rw [toLower_of_not_upper c h]

theorem toLower_toLower (c : Char) : c.toLower.toLower = c.toLower := by
  by_cases h : c.toNat ≥ 65 ∧ c.toNat ≤ 90
  · have := toLower_upper_facts ⟨c.toNat, by omega⟩ h.1
    simp only [Char.ofNat_toNat] at this
    exact this.2.2
  · rw [toLower_of_not_upper c h, toLower_of_not_upper c h]

theorem contains_dot_map_toLower (cs : List Char) :
    (cs.map Char.toLower).contains '.' = cs.contains '.' := by
  induction cs with
  | nil => rfl
  | cons c cs ih =>
    simp only [List.map_cons, List.contains_cons, ih]
    congr 1
    by_cases h : c = '.'
    · subst h; rfl
    · have h2 : ¬ c.toLower = '.' := fun hx => h ((toLower_eq_dot c).mp hx)
      have e1 : ('.' == c) = false := by
        rw [beq_eq_false_iff_ne]; exact fun hx => h hx.symm
      have e2 : ('.' == c.toLower) = false := by
        rw [beq_eq_false_iff_ne]; exact fun hx => h2 hx.symm
      rw [e1, e2]

theorem lastSegment_map_toLower (cs : List Char) :
    lastSegment (cs.map Char.toLower) = (lastSegment cs).map Char.toLower := by
  induction cs with
  | nil => rfl
  | cons c cs ih =>
    simp only [List.map_cons, lastSegment, contains_dot_map_toLower]
    by_cases h1 : cs.contains '.' = true
    · rw [if_pos h1, if_pos h1, ih]
    · rw [if_neg h1, if_neg h1]
      by_cases h2 : c = '.'
      · subst h2
        have hd : '.'.toLower = '.' := rfl
        rw [if_pos hd, if_pos rfl]
      · have h3 : ¬ c.toLower = '.' := fun hx => h2 ((toLower_eq_dot c).mp hx)
        rw [if_neg h2, if_neg h3]
        rfl

theorem extensionOf_toLowerCase (fileName : String) :
    extensionOf (toLowerCase fileName) = extensionOf fileName := by
  unfold extensionOf toLowerCase
  simp only [lastSegment_map_toLower, List.map_map]
  congr 1
  apply List.map_congr_left
  intro c _
  exact toLower_toLower c

theorem getFileType_cases (x : String) :
    x ∈ knownExtensions ∨ x = "constructor" ∨ x = "__proto__" ∨
    (x ∉ knownExtensions ∧ x ≠ "constructor" ∧ x ≠ "__proto__") := by
  by_cases h1 : x ∈ knownExtensions
  · exact Or.inl h1
  · by_cases h2 : x = "constructor"
    · exact Or.inr (Or.inl h2)
    · by_cases h3 : x = "__proto__"
      · exact Or.inr (Or.inr (Or.inl h3))
      · exact Or.inr (Or.inr (Or.inr ⟨h1, h2, h3⟩))

theorem getFileType_known (fileName : String) (h : extensionOf fileName ∈ knownExtensions) :
    FileManager.getFileType fileName ∈ codeKinds ∧
    JSEditor.getFileType fileName = FileManager.getFileType fileName := by
  unfold FileManager.getFileType JSEditor.getFileType knownExtensions codeKinds at *
  dsimp only
  generalize extensionOf fileName = x at h
  simp only [List.mem_cons, List.mem_singleton, List.not_mem_nil, or_false] at h
  rcases h with h | h | h | h | h | h | h | h | h | h | h | h | h | h | h <;> subst h <;> decide

theorem getFileType_unknown (fileName : String) (h : extensionOf fileName ∉ knownExtensions)
    (h2 : extensionOf fileName ≠ "constructor") (h3 : extensionOf fileName ≠ "__proto__") :
    FileManager.getFileType fileName = "text" ∧ JSEditor.getFileType fileName = "text" := by
  unfold FileManager.getFileType JSEditor.getFileType knownExtensions at *
  dsimp only
  generalize extensionOf fileName = x at h h2 h3
  simp only [List.mem_cons, List.mem_singleton, List.not_mem_nil, or_false, not_or] at h
  obtain ⟨a1, a2, a3, a4, a5, a6, a7, a8, a9, a10, a11, a12, a13, a14, a15⟩ := h
  constructor
  · rw [if_neg a1, if_neg a2, if_neg a3, if_neg a4, if_neg a5, if_neg a6, if_neg a7, if_neg a8,
      if_neg a9, if_neg a10, if_neg a11, if_neg a12, if_neg a13, if_neg a14, if_neg a15,
      if_neg h2, if_neg h3]
  · rw [if_neg a1, if_neg a2, if_neg a3, if_neg a4, if_neg a5, if_neg a6, if_neg a15, if_neg a7,
      if_neg a8, if_neg a9, if_neg a10, if_neg a11, if_neg a12, if_neg a13, if_neg a14,
      if_neg h2, if_neg h3]

theorem getFileType_inherited (fileName : String)
    (h : extensionOf fileName = "constructor" ∨ extensionOf fileName = "__proto__") :
    JSEditor.getFileType fileName = FileManager.getFileType fileName := by
  unfold FileManager.getFileType JSEditor.getFileType
  dsimp only
  generalize extensionOf fileName = x at h
  rcases h with h | h <;> subst h <;> decide

theorem getFileType_same (fileName : String) :
    JSEditor.getFileType fileName = FileManager.getFileType fileName := by
  rcases getFileType_cases (extensionOf fileName) with h | h | h | ⟨h1, h2, h3⟩
  · exact (getFileType_known fileName h).2
  · exact getFileType_inherited fileName (Or.inl h)
  · exact getFileType_inherited fileName (Or.inr h)
  · rw [(getFileType_unknown fileName h1 h2 h3).1, (getFileType_unknown fileName h1 h2 h3).2]

/-- C25 (counterexample).  The name `a.xml` gets the kind `xml` from both
classifiers, and `xml` is not one of `html`, `css`, `javascript`, `json`,
`csv`, `image`, `text`. -/
theorem getFileType_xml_outside_enum :
    FileManager.getFileType "a.xml" = "xml" ∧ JSEditor.getFileType "a.xml" = "xml" ∧
    "xml" ∉ specKinds := by
  decide

/-- C25 (amended).  For every file name whose extension (the text after the
last dot, in lower case) is neither `constructor` nor `__proto__`, both
classifiers give one of `html`, `css`, `javascript`, `json`, `csv`, `xml`,
`image`, `text`; an extension that is not a key of the table gives `text`;
and the result for a name is the result for the name in lower case. -/
theorem getFileType_in_code_kinds (fileName : String)
    (h2 : extensionOf fileName ≠ "constructor") (h3 : extensionOf fileName ≠ "__proto__") :
    FileManager.getFileType fileName ∈ codeKinds ∧
    JSEditor.getFileType fileName ∈ codeKinds ∧
    (extensionOf fileName ∉ knownExtensions →
      FileManager.getFileType fileName = "text" ∧ JSEditor.getFileType fileName = "text") ∧
    FileManager.getFileType (toLowerCase fileName) = FileManager.getFileType fileName ∧
    JSEditor.getFileType (toLowerCase fileName) = JSEditor.getFileType fileName := by
  have hlow : FileManager.getFileType (toLowerCase fileName) = FileManager.getFileType fileName := by
    unfold FileManager.getFileType
    rw [extensionOf_toLowerCase]
  refine ⟨?_, ?_, fun h => getFileType_unknown fileName h h2 h3, hlow, ?_⟩
  · by_cases h : extensionOf fileName ∈ knownExtensions
    · exact (getFileType_known fileName h).1
    · rw [(getFileType_unknown fileName h h2 h3).1]; decide
  · rw [getFileType_same]
    by_cases h : extensionOf fileName ∈ knownExtensions
    · exact (getFileType_known fileName h).1
    · rw [(getFileType_unknown fileName h h2 h3).1]; decide
  · rw [getFileType_same, getFileType_same, hlow]

/-- Witness for C25: `Photo.JPG` is an image for both classifiers, and
`notes.xyz` is a text. -/
theorem getFileType_in_code_kinds_witness :
    FileManager.getFileType "Photo.JPG" ∈ codeKinds ∧
    FileManager.getFileType "notes.xyz" = "text" ∧ JSEditor.getFileType "notes.xyz" = "text" :=
  ⟨(getFileType_in_code_kinds "Photo.JPG" (by decide) (by decide)).1,
   (getFileType_in_code_kinds "notes.xyz" (by decide) (by decide)).2.2.1 (by decide)⟩

/-- C26 (code bug).  In every state, with or without a selected file,
`saveCode` is left by an exception and the slot is as before: `getCurrentTab`
raises (the method is not defined), so `saveCurrentEditorContent` raises, so
`saveCurrentFile` raises on both of its branches, before the write. -/
theorem saveCode_raises_before_write (s : App) (now : String) :
    (∃ msg, JSEditor.getCurrentTab s = Except.error msg) ∧
    (JSEditor.saveCurrentEditorContent s).isRaised = true ∧
    (JSEditor.saveCurrentFile s).isRaised = true ∧
    (JSEditor.saveCode s now).isRaised = true ∧
    (JSEditor.saveCode s now).state.storage = s.storage := by
  refine ⟨⟨_, rfl⟩, rfl, ?_, ?_, ?_⟩
  · unfold JSEditor.saveCurrentFile JSEditor.saveCurrentEditorContent JSEditor.getCurrentTab
    cases s.selectedFile with
    | none => rfl
    | some sel =>
      dsimp only
      cases s.heap[sel]? <;> rfl
  · rw [saveCode_raised]; rfl
  · rw [saveCode_raised]; rfl

/-- C30.  The two classifiers are the same function: for every file name
`FileManager.getFileType` and `JSEditor.getFileType` give the same kind, and
for every kind `FileManager.getFileIcon` and `JSEditor.getFileIcon` give the
same icon. -/
theorem getFileType_and_icon_agree :
    (∀ fileName, FileManager.getFileType fileName = JSEditor.getFileType fileName) ∧
    (∀ fileType, FileManager.getFileIcon fileType = JSEditor.getFileIcon fileType) :=
  ⟨fun fileName => (getFileType_same fileName).symm, fun _ => rfl⟩

/-! ## C19 to C21, C28 and C29: CSV -/

theorem splitOn_ne_nil (sep : Char) (cs : List Char) : splitOn sep cs ≠ [] := by
  cases cs with
  | nil => simp [splitOn]
  | cons c cs =>
    unfold splitOn
    split_ifs
    · simp
    · split <;> simp

theorem splitOn_cons_ne (sep c : Char) (cs p : List Char) (ps : List (List Char)) (hc : c ≠ sep)
    (h : splitOn sep cs = p :: ps) : splitOn sep (c :: cs) = (c :: p) :: ps := by
  rw [splitOn, if_neg hc, h]

theorem splitOn_length (sep : Char) (cs : List Char) :
    (splitOn sep cs).length = cs.count sep + 1 := by
  induction cs with
  | nil => rfl
  | cons c cs ih =>
    by_cases hc : c = sep
    · subst hc
      rw [splitOn, if_pos rfl, List.length_cons, ih, List.count_cons_self]
    · obtain ⟨p, ps, h⟩ := List.exists_cons_of_ne_nil (splitOn_ne_nil sep cs)
      rw [splitOn_cons_ne sep c cs p ps hc h, List.count_cons_of_ne (fun hx => hc hx.symm), ← ih, h]
      rfl

theorem parseCsvLineLoop_quote_free (cs : List Char) (hq : '"' ∉ cs) :
    ∀ (result : List (List Char)) (current p : List Char) (ps : List (List Char)),
      splitOn ',' cs = p :: ps →
      parseCsvLineLoop cs result current false
        = result ++ jsTrim (current ++ p) :: ps.map jsTrim := by
  induction cs with
  | nil =>
    intro result current p ps h
    simp only [splitOn, List.cons.injEq] at h
    obtain ⟨hp, hps⟩ := h
    subst hp; subst hps
    simp [parseCsvLineLoop]
  | cons c cs ih =>
    intro result current p ps h
    have hc : c ≠ '"' := fun hx => hq (by rw [hx]; exact List.mem_cons_self _ _)
    have hq2 : '"' ∉ cs := fun hx => hq (List.mem_cons_of_mem _ hx)
    obtain ⟨p2, ps2, h2⟩ := List.exists_cons_of_ne_nil (splitOn_ne_nil ',' cs)
    rw [parseCsvLineLoop, if_neg hc]
    by_cases hcomma : c = ','
    · subst hcomma
      rw [if_pos ⟨rfl, rfl⟩]
      rw [splitOn, if_pos rfl, h2] at h
      simp only [List.cons.injEq] at h
      obtain ⟨hp, hps⟩ := h
      subst hp; subst hps
      rw [ih hq2 _ _ p2 ps2 h2]
      simp
    · rw [if_neg (fun hx => hcomma hx.1)]
      rw [splitOn_cons_ne ',' c cs p2 ps2 hcomma h2] at h
      simp only [List.cons.injEq] at h
      obtain ⟨hp, hps⟩ := h
      subst hp; subst hps
      rw [ih hq2 _ _ p2 ps2 h2]
      simp

/-- C29.  On a line without a double quote, `DataPreviewer.parseCsvLine` gives
the cells `line.split(",")` with each cell trimmed, which are the cells
`JSEditor.parseCsvData` works on; their number is the number of commas of the
line plus one. -/
theorem parseCsvLine_eq_split_on_quote_free (line : String) (hq : '"' ∉ line.data) :
    DataPreviewer.parseCsvLine line = JSEditor.splitCells line.data ∧
    DataPreviewer.parseCsvLine line
      = (splitOn ',' line.data).map (fun v => String.mk (jsTrim v)) ∧
    (DataPreviewer.parseCsvLine line).length = line.data.count ',' + 1 := by
  obtain ⟨p, ps, h⟩ := List.exists_cons_of_ne_nil (splitOn_ne_nil ',' line.data)
  have key : DataPreviewer.parseCsvLine line
      = (splitOn ',' line.data).map (fun v => String.mk (jsTrim v)) := by
    unfold DataPreviewer.parseCsvLine
    rw [parseCsvLineLoop_quote_free line.data hq [] [] p ps h, h]
    simp
  refine ⟨key, key, ?_⟩
  rw [key, List.length_map, splitOn_length]

/-- Witness for C29: the line ` a, b c ,,d ` has four cells. -/
theorem parseCsvLine_eq_split_on_quote_free_witness :
    DataPreviewer.parseCsvLine " a, b c ,,d " = ["a", "b c", "", "d"] ∧
    JSEditor.splitCells " a, b c ,,d ".data = ["a", "b c", "", "d"] ∧
    (DataPreviewer.parseCsvLine " a, b c ,,d ").length = " a, b c ,,d ".data.count ',' + 1 :=
  ⟨by decide, by decide,
   (parseCsvLine_eq_split_on_quote_free " a, b c ,,d " (by decide)).2.2⟩

theorem parseCsvRows_eq_filter_map (headers : List String) (lines : List (List Char)) :
    JSEditor.parseCsvRows headers lines
      = (lines.filter (fun l => decide ((JSEditor.splitCells l).length = headers.length))).map
          (fun l => JSEditor.buildRow headers (JSEditor.splitCells l) []) := by
  induction lines with
  | nil => rfl
  | cons line lines ih =>
    unfold JSEditor.parseCsvRows
    by_cases h : (JSEditor.splitCells line).length = headers.length
    · rw [if_pos h, List.filter_cons_of_pos (by simpa using h), List.map_cons, ih]
    · rw [if_neg h, List.filter_cons_of_neg (by simpa using h), ih]

theorem parseCsvData_of_lines (csvText : String) (first : List Char) (rest : List (List Char))
    (hlines : splitOn '\n' (jsTrim csvText.data) = first :: rest) (hrest : rest ≠ []) :
    JSEditor.parseCsvData csvText = JSEditor.parseCsvRows (JSEditor.splitCells first) rest := by
  unfold JSEditor.parseCsvData
  rw [hlines]
  cases rest with
  | nil => exact absurd rfl hrest
  | cons r rs => rfl

/-- C20.  For a CSV text of at least two lines (after `trim`), the array of
`parseCsvData` has one element for each line after the first whose number of
cells is the number of header cells, in the order of the lines: it is the
list of those lines, each turned into its row object.  A line with another
number of cells gives no element. -/
theorem parseCsvData_keeps_rows_of_header_width (csvText : String) (first : List Char)
    (rest : List (List Char))
    (hlines : splitOn '\n' (jsTrim csvText.data) = first :: rest) (hrest : rest ≠ []) :
    JSEditor.parseCsvData csvText
      = (rest.filter (fun l =>
            decide ((JSEditor.splitCells l).length = (JSEditor.splitCells first).length))).map
          (fun l => JSEditor.buildRow (JSEditor.splitCells first) (JSEditor.splitCells l) []) ∧
    (JSEditor.parseCsvData csvText).length
      = rest.countP (fun l =>
          decide ((JSEditor.splitCells l).length = (JSEditor.splitCells first).length)) := by
  rw [parseCsvData_of_lines csvText first rest hlines hrest, parseCsvRows_eq_filter_map]
  refine ⟨rfl, ?_⟩
  rw [List.length_map, List.countP_eq_length_filter]

/-- Witness for C20: of the three data lines `1,2`, `3` and `4,5`, the second
has one cell and is dropped. -/
theorem parseCsvData_keeps_rows_of_header_width_witness :
    JSEditor.parseCsvData "a,b\n1,2\n3\n4,5"
      = [[("a", CsvValue.num (JSNumber.finite false 1 0)),
          ("b", CsvValue.num (JSNumber.finite false 2 0))],
         [("a", CsvValue.num (JSNumber.finite false 4 0)),
          ("b", CsvValue.num (JSNumber.finite false 5 0))]] ∧
    (JSEditor.parseCsvData "a,b\n1,2\n3\n4,5").length
      = ["1,2".data, "3".data, "4,5".data].countP (fun l =>
          decide ((JSEditor.splitCells l).length = (JSEditor.splitCells "a,b".data).length)) :=
  ⟨by decide,
   (parseCsvData_keeps_rows_of_header_width "a,b\n1,2\n3\n4,5" "a,b".data
      ["1,2".data, "3".data, "4,5".data] (by decide) (by decide)).2⟩

theorem setRowKey_fresh (header : String) (v : CsvValue) (row : List (String × CsvValue))
    (hp : header ≠ "__proto__") (hfresh : header ∉ row.map Prod.fst) :
    JSEditor.setRowKey header v row = row ++ [(header, v)] := by
  induction row with
  | nil => simp [JSEditor.setRowKey, hp]
  | cons kw rest ih =>
    obtain ⟨k, w⟩ := kw
    simp only [List.map_cons, List.mem_cons, not_or] at hfresh
    unfold JSEditor.setRowKey
    rw [if_neg hp, if_neg (fun hx => hfresh.1 hx.symm), ih hfresh.2]
    rfl

theorem buildRow_zip (headers : List String) :
    ∀ (values : List String) (rowSoFar : List (String × CsvValue)),
      values.length = headers.length → headers.Nodup → "__proto__" ∉ headers →
      (∀ header ∈ headers, header ∉ rowSoFar.map Prod.fst) →
      JSEditor.buildRow headers values rowSoFar
        = rowSoFar ++ headers.zip (values.map JSEditor.coerceCell) := by
  induction headers with
  | nil =>
    intro values rowSoFar hlen _ _ _
    cases values with
    | nil => simp [JSEditor.buildRow]
    | cons v vs => simp at hlen
  | cons header headers ih =>
    intro values rowSoFar hlen hnd hp hfresh
    cases values with
    | nil => simp at hlen
    | cons v vs =>
      have hne : header ≠ "__proto__" := fun hx => hp (by rw [hx]; exact List.mem_cons_self _ _)
      rw [JSEditor.buildRow, setRowKey_fresh header _ rowSoFar hne
        (hfresh header (List.mem_cons_self _ _))]
      rw [ih vs _ (by simpa using hlen) (List.nodup_cons.mp hnd).2
        (fun hx => hp (List.mem_cons_of_mem _ hx))]
      · simp
      · intro h2 hh2
        simp only [List.map_append, List.map_cons, List.map_nil, List.mem_append,
          List.mem_singleton, not_or]
        refine ⟨hfresh h2 (List.mem_cons_of_mem _ hh2), ?_⟩
        intro hx
        exact (List.nodup_cons.mp hnd).1 (hx ▸ hh2)

/-- The rows of `parseCsvData` for distinct header names other than
`__proto__`: each kept line gives the row whose keys are the header names in
order and whose value under the `j`-th header is the value of the `j`-th
cell. -/
theorem parseCsvData_rows_zip_header (csvText : String) (first : List Char)
    (rest : List (List Char))
    (hlines : splitOn '\n' (jsTrim csvText.data) = first :: rest) (hrest : rest ≠ [])
    (hnd : (JSEditor.splitCells first).Nodup) (hp : "__proto__" ∉ JSEditor.splitCells first) :
    JSEditor.parseCsvData csvText
      = (rest.filter (fun l =>
            decide ((JSEditor.splitCells l).length = (JSEditor.splitCells first).length))).map
          (fun l => (JSEditor.splitCells first).zip
            ((JSEditor.splitCells l).map JSEditor.coerceCell)) := by
  rw [parseCsvData_of_lines csvText first rest hlines hrest, parseCsvRows_eq_filter_map]
  apply List.map_congr_left
  intro l hl
  have hlen := (List.mem_filter.mp hl).2
  simp only [decide_eq_true_eq] at hlen
  rw [buildRow_zip _ _ [] hlen hnd hp (by simp)]
  rfl

/-- C19 (code bug).  On the text of the scenario, `parseCsvData` gives the two
rows with the keys `name` and `value`.  On a text whose first header is
`__proto__`, the row has no key `__proto__`: the assignment `row[header] = 1`
does not create it, and the row has the key `b` only. -/
theorem parseCsvData_loses_proto_header :
    JSEditor.parseCsvData scenarioCsv
      = [[("name", CsvValue.str "X"), ("value", CsvValue.num (JSNumber.finite false 1 0))],
         [("name", CsvValue.str "Y"), ("value", CsvValue.num (JSNumber.finite false 2 0))]] ∧
    JSEditor.splitCells "__proto__,b".data = ["__proto__", "b"] ∧
    JSEditor.parseCsvData "__proto__,b\n1,2"
      = [[("b", CsvValue.num (JSNumber.finite false 2 0))]] := by
  decide

theorem takeWhile_isDigit_eq_nil (cs : List Char) :
    cs.takeWhile isDigit = [] ↔ headIsDigit cs = false := by
  cases cs with
  | nil => simp [headIsDigit]
  | cons d r =>
    by_cases hd : isDigit d = true
    · simp [List.takeWhile, hd, headIsDigit]
    · simp only [Bool.not_eq_true] at hd
      simp [List.takeWhile, hd, headIsDigit]

theorem readUnsignedDecimal_isSome (u : List Char) :
    (readUnsignedDecimal u).isSome = numericHead u := by
  cases u with
  | nil => rfl
  | cons c r =>
    unfold readUnsignedDecimal numericHead
    by_cases hd : isDigit c = true
    · have ht : (c :: r).takeWhile isDigit ≠ [] := by simp [List.takeWhile, hd]
      simp only [hd, Bool.true_or]
      split
      · rw [if_neg (fun hx => ht hx.1)]; rfl
      · rw [if_neg ht]; rfl
    · simp only [Bool.not_eq_true] at hd
      have ht : (c :: r).takeWhile isDigit = [] := by simp [List.takeWhile, hd]
      have hdrop : (c :: r).dropWhile isDigit = c :: r := by simp [List.dropWhile, hd]
      simp only [hd, Bool.false_or, hdrop, ht]
      by_cases hc : c = '.'
      · subst hc
        simp only [beq_self_eq_true, Bool.true_and, List.nil_append, true_and]
        by_cases hf : r.takeWhile isDigit = []
        · rw [if_pos hf, (takeWhile_isDigit_eq_nil r).mp hf]; rfl
        · rw [if_neg hf]
          have hh : headIsDigit r ≠ false := fun hx => hf ((takeWhile_isDigit_eq_nil r).mpr hx)
          simp only [ne_eq, Bool.not_eq_false] at hh
          rw [hh]; rfl
      · have hb : (c == '.') = false := by rw [beq_eq_false_iff_ne]; exact hc
        simp only [hb, Bool.false_and]
        split
        · rename_i heq
          simp only [List.cons.injEq] at heq
          exact absurd heq.1 hc
        · rfl

theorem readUnsigned_isSome (negative : Bool) (u : List Char) :
    (readUnsigned negative u).isSome = ("Infinity".data.isPrefixOf u || numericHead u) := by
  unfold readUnsigned
  by_cases hi : "Infinity".data.isPrefixOf u = true
  · rw [if_pos hi, hi]; rfl
  · rw [if_neg hi]
    simp only [Bool.not_eq_true] at hi
    rw [hi, Option.isSome_map', readUnsignedDecimal_isSome]
    rfl

theorem parseFloat_isSome (cs : List Char) : (parseFloat cs).isSome = startsNumeric cs := by
  unfold parseFloat startsNumeric
  split <;> exact readUnsigned_isSome _ _

theorem isDigit_facts (c : Char) (h : isDigit c = true) :
    isWhiteSpace c = false ∧ c ≠ '+' ∧ c ≠ '-' ∧ c ≠ 'I' ∧ c ≠ '.' := by
  unfold isDigit at h
  simp only [Bool.and_eq_true, decide_eq_true_eq] at h
  refine ⟨?_, ?_, ?_, ?_, ?_⟩
  · unfold isWhiteSpace
    simp only [Bool.or_eq_false_iff, Bool.and_eq_false_iff, decide_eq_false_iff_not]
    omega
  all_goals
    intro hx
    rw [hx] at h
    revert h
    decide

theorem binaryDigitsLoop_le (fuel : Nat) :
    ∀ (n j : Nat), n < 2 ^ j → binaryDigitsLoop fuel n ≤ j := by
  induction fuel with
  | zero => intro n j _; exact Nat.zero_le _
  | succ fuel ih =>
    intro n j h
    unfold binaryDigitsLoop
    by_cases hn : n = 0
    · rw [if_pos hn]; exact Nat.zero_le _
    · rw [if_neg hn]
      cases j with
      | zero => simp at h; exact absurd h hn
      | succ j =>
        have : n / 2 < 2 ^ j := by
          rw [Nat.div_lt_iff_lt_mul (by decide)]
          rw [Nat.pow_succ] at h
          exact h
        have := ih (n / 2) j this
        omega

theorem reduceDyadic_mul_pow (n : Nat) : ∀ j : Nat, reduceDyadic (n * 2 ^ j) j = (n, 0) := by
  intro j
  induction j with
  | zero => simp [reduceDyadic]
  | succ j ih =>
    unfold reduceDyadic
    have h1 : n * 2 ^ (j + 1) % 2 = 0 := by
      rw [Nat.pow_succ, ← Nat.mul_assoc]; exact Nat.mul_mod_left _ _
    have h2 : n * 2 ^ (j + 1) / 2 = n * 2 ^ j := by
      rw [Nat.pow_succ, ← Nat.mul_assoc]; exact Nat.mul_div_cancel _ (by decide)
    rw [if_pos h1, h2, ih]

theorem divRoundHalfEven_one (n : Nat) : divRoundHalfEven n 1 = n := by
  unfold divRoundHalfEven
  rw [Nat.mod_one, Nat.div_one, if_pos (by decide)]

/-- An integer below `2 ^ 53` is a double, and rounding leaves it as it is. -/
theorem roundToDouble_integer (negative : Bool) (n : Nat) (h : n < 2 ^ 53) :
    roundToDouble negative n 1 = JSNumber.finite negative n 0 := by
  unfold roundToDouble
  by_cases hn : n = 0
  · rw [if_pos hn, hn]
  · rw [if_neg hn]
    have hd : binaryDigits n ≤ 53 := binaryDigitsLoop_le n n 53 h
    have h1 : binaryDigits 1 = 1 := rfl
    have he : binaryExponent n 1 ≤ 52 := by
      unfold binaryExponent
      rw [h1]
      split
      · split <;> omega
      · split <;> omega
    generalize hk : max (binaryExponent n 1 - 52) (-1074) = k
    cases k with
    | ofNat k =>
      have hk0 : k = 0 := by
        have : (Int.ofNat k) = (k : Int) := rfl
        omega
      subst hk0
      simp only [pow_zero, mul_one, divRoundHalfEven_one]
      rw [if_neg]
      have : (2:Nat) ^ 53 ≤ 2 ^ 1024 := Nat.pow_le_pow_right (by decide) (by decide)
      omega
    | negSucc k =>
      simp only [divRoundHalfEven_one, reduceDyadic_mul_pow]

theorem parseFloat_numeral (ds : List Char) (hne : ds ≠ []) (hall : ∀ d ∈ ds, isDigit d = true)
    (hsmall : digitsToNat ds < 2 ^ 53) :
    parseFloat ds = some (JSNumber.finite false (digitsToNat ds) 0) := by
  cases ds with
  | nil => exact absurd rfl hne
  | cons c r =>
    obtain ⟨hw, hplus, hminus, hI, -⟩ := isDigit_facts c (hall c (List.mem_cons_self _ _))
    have htake : (c :: r).takeWhile isDigit = c :: r := by
      rw [List.takeWhile_eq_self_iff]
      exact hall
    have hdrop : (c :: r).dropWhile isDigit = [] := by
      rw [List.dropWhile_eq_nil_iff]
      exact hall
    have hws : (c :: r).dropWhile isWhiteSpace = c :: r := by
      simp [List.dropWhile, hw]
    unfold parseFloat
    rw [hws]
    split
    · rename_i heq
      simp only [List.cons.injEq] at heq
      exact absurd heq.1 hplus
    · rename_i heq
      simp only [List.cons.injEq] at heq
      exact absurd heq.1 hminus
    · unfold readUnsigned
      have hinf : "Infinity".data.isPrefixOf (c :: r) = false := by
        show List.isPrefixOf ('I' :: "nfinity".data) (c :: r) = false
        simp only [List.isPrefixOf, Bool.and_eq_false_imp, beq_iff_eq]
        intro hx
        exact absurd hx.symm hI
      rw [hinf]
      simp only [Bool.false_eq_true, if_false]
      unfold readUnsignedDecimal
      simp only [htake, hdrop]
      rw [if_neg (List.cons_ne_nil _ _)]
      show some (roundToDouble false (digitsToNat (c :: r) * 10 ^ 0) 1) = _
      rw [pow_zero, mul_one, roundToDouble_integer _ _ hsmall]

/-- C21 (counterexample).  The cells `12abc` and `2024-01-01` of a kept row are
stored as the numbers 12 and 2024. -/
theorem parseCsvData_coerces_numeric_prefix :
    JSEditor.parseCsvData "id,when\n12abc,2024-01-01"
      = [[("id", CsvValue.num (JSNumber.finite false 12 0)),
          ("when", CsvValue.num (JSNumber.finite false 2024 0))]] ∧
    JSEditor.coerceCell "12abc" ≠ CsvValue.str "12abc" ∧
    JSEditor.coerceCell "2024-01-01" ≠ CsvValue.str "2024-01-01" := by
  decide

/-- C21 (amended).  The value stored for a trimmed cell is a number exactly
when the cell begins, after an optional sign, with a decimal numeral (a digit,
or a point and a digit) or with `Infinity`; otherwise it is the cell itself as
a string.  A cell that is a run of digits denoting a number below `2 ^ 53` is
stored as that number. -/
theorem coerceCell_number_iff_starts_numeric (value : String) :
    (startsNumeric value.data = true → ∃ n, JSEditor.coerceCell value = CsvValue.num n) ∧
    (startsNumeric value.data = false → JSEditor.coerceCell value = CsvValue.str value) ∧
    (value.data ≠ [] → (∀ d ∈ value.data, isDigit d = true) →
      digitsToNat value.data < 2 ^ 53 →
      JSEditor.coerceCell value
        = CsvValue.num (JSNumber.finite false (digitsToNat value.data) 0)) := by
  refine ⟨?_, ?_, ?_⟩
  · intro h
    rw [← parseFloat_isSome] at h
    obtain ⟨n, hn⟩ := Option.isSome_iff_exists.mp h
    exact ⟨n, by unfold JSEditor.coerceCell; rw [hn]⟩
  · intro h
    rw [← parseFloat_isSome] at h
    have hn : parseFloat value.data = none := by
      cases hp : parseFloat value.data with
      | none => rfl
      | some n => rw [hp] at h; simp at h
    unfold JSEditor.coerceCell
    rw [hn]
  · intro hne hall hsmall
    unfold JSEditor.coerceCell
    rw [parseFloat_numeral value.data hne hall hsmall]

set_option maxRecDepth 8000 in
/-- Witness for C21: `abc12` stays a string, `-1.5e3x` is the number -1500,
and `042` is the number 42.  A run of digits beyond `2 ^ 53` is stored as the
double nearest to it, and the cells `1e400` and `Infinity` as an infinity. -/
theorem coerceCell_number_iff_starts_numeric_witness :
    JSEditor.coerceCell "abc12" = CsvValue.str "abc12" ∧
    (∃ n, JSEditor.coerceCell "-1.5e3x" = CsvValue.num n) ∧
    JSEditor.coerceCell "-1.5e3x" = CsvValue.num (JSNumber.finite true 1500 0) ∧
    JSEditor.coerceCell "042" = CsvValue.num (JSNumber.finite false 42 0) ∧
    JSEditor.coerceCell "0.1" = CsvValue.num (JSNumber.finite false 3602879701896397 55) ∧
    JSEditor.coerceCell "12345678901234567890"
      = CsvValue.num (JSNumber.finite false 12345678901234567168 0) ∧
    JSEditor.coerceCell "1e400" = CsvValue.num (JSNumber.infinity false) ∧
    JSEditor.coerceCell "-Infinity" = CsvValue.num (JSNumber.infinity true) ∧
    JSEditor.coerceCell "1e-400" = CsvValue.num (JSNumber.finite false 0 0) :=
  ⟨(coerceCell_number_iff_starts_numeric "abc12").2.1 (by decide),
   (coerceCell_number_iff_starts_numeric "-1.5e3x").1 (by decide),
   by decide,
   ((coerceCell_number_iff_starts_numeric "042").2.2 (by decide) (by decide) (by decide)).trans
     (by decide),
   by decide, by decide, by decide, by decide, by decide⟩

theorem parseCsvLineLoop_plain (cs : List Char) (hq : '"' ∉ cs) (hc : ',' ∉ cs) :
    ∀ (rest : List Char) (result : List (List Char)) (current : List Char) (inQuotes : Bool),
      parseCsvLineLoop (cs ++ rest) result current inQuotes
        = parseCsvLineLoop rest result (current ++ cs) inQuotes := by
  induction cs with
  | nil => intro rest result current inQuotes; simp
  | cons c cs ih =>
    intro rest result current inQuotes
    have h1 : c ≠ '"' := fun hx => hq (by rw [hx]; exact List.mem_cons_self _ _)
    have h2 : c ≠ ',' := fun hx => hc (by rw [hx]; exact List.mem_cons_self _ _)
    rw [List.cons_append, parseCsvLineLoop, if_neg h1, if_neg (fun hx => h2 hx.1),
      ih (fun hx => hq (List.mem_cons_of_mem _ hx)) (fun hx => hc (List.mem_cons_of_mem _ hx))]
    simp

theorem parseCsvLineLoop_quoted (cs : List Char) (hq : '"' ∉ cs) :
    ∀ (rest : List Char) (result : List (List Char)) (current : List Char),
      parseCsvLineLoop (cs ++ rest) result current true
        = parseCsvLineLoop rest result (current ++ cs) true := by
  induction cs with
  | nil => intro rest result current; simp
  | cons c cs ih =>
    intro rest result current
    have h1 : c ≠ '"' := fun hx => hq (by rw [hx]; exact List.mem_cons_self _ _)
    rw [List.cons_append, parseCsvLineLoop, if_neg h1, if_neg (fun hx => by simp at hx),
      ih (fun hx => hq (List.mem_cons_of_mem _ hx))]
    simp

theorem doubleQuotes_quote_free (cs : List Char) (hq : '"' ∉ cs) : doubleQuotes cs = cs := by
  induction cs with
  | nil => rfl
  | cons c cs ih =>
    have h1 : c ≠ '"' := fun hx => hq (by rw [hx]; exact List.mem_cons_self _ _)
    rw [doubleQuotes, if_neg h1, ih (fun hx => hq (List.mem_cons_of_mem _ hx))]

theorem parseCsvLineLoop_csvCell (cell : List Char) (hq : '"' ∉ cell) (rest : List Char)
    (result : List (List Char)) :
    parseCsvLineLoop (JSEditor.csvCell cell ++ rest) result [] false
      = parseCsvLineLoop rest result cell false := by
  unfold JSEditor.csvCell
  have hnq : cell.contains '"' = false := by
    simpa using hq
  by_cases hc : cell.contains ',' = true
  · rw [if_pos (Or.inl hc), doubleQuotes_quote_free cell hq]
    have step1 : ∀ tail : List Char, parseCsvLineLoop ('"' :: tail) result [] false
        = parseCsvLineLoop tail result [] true := by
      intro tail
      rw [parseCsvLineLoop, if_pos rfl]
      rfl
    have step2 : parseCsvLineLoop ('"' :: rest) result ([] ++ cell) true
        = parseCsvLineLoop rest result cell false := by
      rw [parseCsvLineLoop, if_pos rfl]
      simp
    simp only [List.cons_append, List.append_assoc, List.singleton_append]
    rw [step1, parseCsvLineLoop_quoted cell hq]
    simp only [List.nil_append] at step2 ⊢
    exact step2
  · have hc2 : ',' ∉ cell := by simpa using hc
    rw [if_neg (by simp [hc2, hq]), parseCsvLineLoop_plain cell hq hc2]
    simp

theorem parseCsvLineLoop_joined (row : List (List Char)) (hne : row ≠ [])
    (hq : ∀ cell ∈ row, '"' ∉ cell) (htrim : ∀ cell ∈ row, jsTrim cell = cell) :
    ∀ result : List (List Char),
      parseCsvLineLoop (joinWith ',' (row.map JSEditor.csvCell)) result [] false
        = result ++ row := by
  induction row with
  | nil => exact absurd rfl hne
  | cons x rest ih =>
    intro result
    cases rest with
    | nil =>
      have := parseCsvLineLoop_csvCell x (hq x (List.mem_cons_self _ _)) [] result
      simp only [List.append_nil] at this
      simp only [List.map_cons, List.map_nil, joinWith]
      rw [this, parseCsvLineLoop, htrim x (List.mem_cons_self _ _)]
    | cons y rest =>
      simp only [List.map_cons, joinWith]
      rw [parseCsvLineLoop_csvCell x (hq x (List.mem_cons_self _ _)), parseCsvLineLoop,
        if_neg (by decide), if_pos ⟨rfl, rfl⟩, htrim x (List.mem_cons_self _ _)]
      have := ih (by simp) (fun c hc => hq c (List.mem_cons_of_mem _ hc))
        (fun c hc => htrim c (List.mem_cons_of_mem _ hc)) (result ++ [x])
      simp only [List.map_cons] at this
      rw [this]
      simp

/-- The line written for a row of trimmed cells without double quotes is read
back as the row; the cells may have commas. -/
theorem parseCsvLine_csvRow_quote_free (row : List String) (hne : row ≠ [])
    (hq : ∀ cell ∈ row, '"' ∉ cell.data) (htrim : ∀ cell ∈ row, jsTrim cell.data = cell.data) :
    DataPreviewer.parseCsvLine (JSEditor.csvRow row) = row := by
  unfold DataPreviewer.parseCsvLine JSEditor.csvRow
  have h := parseCsvLineLoop_joined (row.map String.data) (by simpa using hne)
    (by simpa using hq) (by simpa using htrim) []
  simp only [List.map_map, List.nil_append] at h
  have hcomp : (JSEditor.csvCell ∘ String.data) = (fun cell : String => JSEditor.csvCell cell.data) :=
    rfl
  rw [hcomp] at h
  rw [h, List.map_map]
  conv_rhs => rw [← List.map_id row]
  apply List.map_congr_left
  intro cell _
  rfl

/-- C28 (code bug).  The row of the cells `a"b` and `c,d` is written as
`"a""b","c,d"`, and `parseCsvLine` reads that line as the cells `ab` and
`c,d`: each double quote only switches `inQuotes`, so the doubled quote of the
first cell is lost. -/
theorem parseCsvLine_csvRow_loses_quote :
    JSEditor.csvRow ["a\"b", "c,d"] = "\"a\"\"b\",\"c,d\"" ∧
    DataPreviewer.parseCsvLine (JSEditor.csvRow ["a\"b", "c,d"]) = ["ab", "c,d"] ∧
    DataPreviewer.parseCsvLine (JSEditor.csvRow ["a\"b", "c,d"]) ≠ ["a\"b", "c,d"] ∧
    jsTrim "a\"b".data = "a\"b".data := by
  decide

/-! ## C22: the data of the preview document -/

/-- C22 (counterexample).  With the text `not json \x7b` in the data editor the
document of `runCode` holds the assignment of the empty array to
`window.appData`.  When the browser runs the script, `window.appData` is the
empty array, not `null`, and no data-parse error line is written; when it
does not run the script, the block writes no line either. -/
theorem runCode_single_line_gives_empty_array :
    (JSEditor.runCode notJsonEditors).processedData = ProcessedData.csvJson [] ∧
    JSEditor.dataBlock (fun _ => true) (JSEditor.runCode notJsonEditors)
      = DataBlockOutcome.ran (some []) 0 ∧
    JSEditor.dataBlock (fun _ => false) (JSEditor.runCode notJsonEditors)
      = DataBlockOutcome.notRun ∧
    JSEditor.dataBlock (fun _ => true) (JSEditor.runCode notJsonEditors)
      ≠ DataBlockOutcome.ran none 1 ∧
    JSEditor.dataBlock (fun _ => false) (JSEditor.runCode notJsonEditors)
      ≠ DataBlockOutcome.ran none 1 := by
  decide

/-- C22 (amended).  A data text whose trimmed form is not empty and starts with
neither an opening brace nor an opening bracket is taken as CSV: the document
of `runCode` holds the assignment of the array of `parseCsvData`, as its JSON
text gives it, to `window.appData`; the array is empty when the trimmed text
has fewer than two lines.  When the browser runs the script the block leaves
that array in `window.appData` and writes no data-parse error line; when it
does not, nothing is assigned and no line is written. -/
theorem runCode_takes_other_text_as_csv (runsScript : PreviewDocument → Bool) (e : Editors)
    (hne : jsTrim e.data.data ≠ [])
    (hbrace : (jsTrim e.data.data).head? ≠ some '\x7b')
    (hbracket : (jsTrim e.data.data).head? ≠ some '[') :
    (JSEditor.runCode e).processedData
      = ProcessedData.csvJson (jsonRows (JSEditor.parseCsvData e.data)) ∧
    (runsScript (JSEditor.runCode e) = true →
      JSEditor.dataBlock runsScript (JSEditor.runCode e)
        = DataBlockOutcome.ran (some (jsonRows (JSEditor.parseCsvData e.data))) 0) ∧
    (runsScript (JSEditor.runCode e) = false →
      JSEditor.dataBlock runsScript (JSEditor.runCode e) = DataBlockOutcome.notRun) ∧
    ((splitOn '\n' (jsTrim e.data.data)).length < 2 → JSEditor.parseCsvData e.data = []) := by
  have hp : (JSEditor.runCode e).processedData
      = ProcessedData.csvJson (jsonRows (JSEditor.parseCsvData e.data)) := by
    show JSEditor.processData e.data = _
    unfold JSEditor.processData
    rw [if_neg hne, if_neg (fun hx => hx.elim hbrace hbracket)]
  refine ⟨hp, ?_, ?_, ?_⟩
  · intro hr
    unfold JSEditor.dataBlock
    rw [hp]
    dsimp only
    rw [if_pos hr]
  · intro hr
    unfold JSEditor.dataBlock
    rw [hp]
    dsimp only
    rw [if_neg (by rw [hr]; exact Bool.false_ne_true)]
  · intro hlen
    unfold JSEditor.parseCsvData
    split
    · rfl
    · rfl
    · rename_i first rest hnot heq
      rw [heq] at hlen
      cases rest with
      | nil => exact absurd rfl hnot
      | cons r rs =>
        simp only [List.length_cons] at hlen
        omega

set_option maxRecDepth 8000 in
/-- Witness for C22, with a browser that runs the script: the data text `x`
alone gives the empty array, the text of the scenario gives its two rows, and
a cell `1e400` is `null` in the array. -/
theorem runCode_takes_other_text_as_csv_witness :
    JSEditor.dataBlock (fun _ => true) (JSEditor.runCode { typedEditors with data := "x" })
      = DataBlockOutcome.ran (some []) 0 ∧
    JSEditor.dataBlock (fun _ => true) (JSEditor.runCode { typedEditors with data := scenarioCsv })
      = DataBlockOutcome.ran
          (some [[("name", JsonValue.str "X"), ("value", JsonValue.num (JSNumber.finite false 1 0))],
                 [("name", JsonValue.str "Y"), ("value", JsonValue.num (JSNumber.finite false 2 0))]])
          0 ∧
    JSEditor.dataBlock (fun _ => true)
        (JSEditor.runCode { typedEditors with data := "a,b\n1e400,-0" })
      = DataBlockOutcome.ran
          (some [[("a", JsonValue.null), ("b", JsonValue.num (JSNumber.finite false 0 0))]]) 0 :=
  ⟨((runCode_takes_other_text_as_csv (fun _ => true) { typedEditors with data := "x" }
      (by decide) (by decide) (by decide)).2.1 rfl).trans (by decide),
   ((runCode_takes_other_text_as_csv (fun _ => true) { typedEditors with data := scenarioCsv }
      (by decide) (by decide) (by decide)).2.1 rfl).trans (by decide),
   ((runCode_takes_other_text_as_csv (fun _ => true)
      { typedEditors with data := "a,b\n1e400,-0" }
      (by decide) (by decide) (by decide)).2.1 rfl).trans (by decide)⟩

/-! ## Lemmas on the timers -/

theorem classTracked_filter (pending : List Timer) (c : TimerCallback) (handle : Option Nat)
    (q : Timer → Bool) (h : ClassTracked pending c handle) :
    ClassTracked (pending.filter q) c handle := by
  refine ⟨fun t ht hc => h.1 t (List.mem_of_mem_filter ht) hc, ?_⟩
  have hsub : ((pending.filter q).filter (fun t => decide (t.callback = c))).length
      ≤ (pending.filter (fun t => decide (t.callback = c))).length :=
    ((List.filter_sublist pending).filter _).length_le
  exact le_trans hsub h.2

theorem classTracked_append_other (pending : List Timer) (c : TimerCallback)
    (handle : Option Nat) (t : Timer) (hne : t.callback ≠ c) (h : ClassTracked pending c handle) :
    ClassTracked (pending ++ [t]) c handle := by
  refine ⟨?_, ?_⟩
  · intro u hu hc
    rcases List.mem_append.mp hu with hu | hu
    · exact h.1 u hu hc
    · simp only [List.mem_singleton] at hu
      subst hu
      exact absurd hc hne
  · rw [List.filter_append]
    have : [t].filter (fun t => decide (t.callback = c)) = [] := by
      simp [hne]
    rw [this, List.append_nil]
    exact h.2

theorem classTracked_reset (pending : List Timer) (c : TimerCallback) (handle : Option Nat)
    (n due : Nat) (h : ClassTracked pending c handle) :
    ClassTracked (pending.filter (fun t => decide (some t.id ≠ handle))
      ++ [{ id := n, due := due, callback := c }]) c (some n) := by
  have hnone : (pending.filter (fun t => decide (some t.id ≠ handle))).filter
      (fun t => decide (t.callback = c)) = [] := by
    rw [List.filter_eq_nil_iff]
    intro t ht hc
    simp only [decide_eq_true_eq] at hc
    have hid := h.1 t (List.mem_of_mem_filter ht) hc
    have := (List.mem_filter.mp ht).2
    simp only [ne_eq, decide_eq_true_eq] at this
    exact this hid.symm
  refine ⟨?_, ?_⟩
  · intro u hu hc
    rcases List.mem_append.mp hu with hu | hu
    · have : u ∈ (pending.filter (fun t => decide (some t.id ≠ handle))).filter
          (fun t => decide (t.callback = c)) :=
        List.mem_filter.mpr ⟨hu, by simpa using hc⟩
      rw [hnone] at this
      exact absurd this (List.not_mem_nil _)
    · simp only [List.mem_singleton] at hu
      subst hu
      rfl
  · rw [List.filter_append, hnone]
    simp

theorem fireTimer_eq (ts : Timers) (t : Timer) :
    fireTimer ts t
      = { ts with pending := ts.pending.filter (fun u => decide (u.id ≠ t.id)) } := by
  unfold fireTimer
  cases t.callback <;> rfl

/-- The invariant of the reachable timer states. -/
theorem timersReachable_tracked (ts : Timers) (h : TimersReachable ts) :
    ClassTracked ts.pending TimerCallback.debouncedRun ts.runDebounceTimer ∧
    ClassTracked ts.pending TimerCallback.autoSave ts.autoSaveTimer := by
  have hsave : ∀ (ts : Timers) (now : Nat),
      ClassTracked ts.pending TimerCallback.debouncedRun ts.runDebounceTimer ∧
      ClassTracked ts.pending TimerCallback.autoSave ts.autoSaveTimer →
      ClassTracked (JSEditor.setAutoSave ts now).pending TimerCallback.debouncedRun
        (JSEditor.setAutoSave ts now).runDebounceTimer ∧
      ClassTracked (JSEditor.setAutoSave ts now).pending TimerCallback.autoSave
        (JSEditor.setAutoSave ts now).autoSaveTimer := by
    intro ts now ih
    exact ⟨classTracked_append_other _ _ _ _ (fun hx => TimerCallback.noConfusion hx) (classTracked_filter _ _ _ _ ih.1),
      classTracked_reset _ _ _ _ _ ih.2⟩
  induction h with
  | initial => exact ⟨⟨fun _ ht => absurd ht (List.not_mem_nil _), by decide⟩,
      ⟨fun _ ht => absurd ht (List.not_mem_nil _), by decide⟩⟩
  | change ts event _ ih =>
    exact hsave _ event.2
      ⟨classTracked_reset _ _ _ _ _ ih.1,
       classTracked_append_other _ _ _ _ (fun hx => TimerCallback.noConfusion hx) (classTracked_filter _ _ _ _ ih.2)⟩
  | setAutoSave ts now _ ih => exact hsave ts now ih
  | scheduleRun ts delay now _ ih =>
    exact ⟨classTracked_append_other _ _ _ _ (fun hx => TimerCallback.noConfusion hx) ih.1,
      classTracked_append_other _ _ _ _ (fun hx => TimerCallback.noConfusion hx) ih.2⟩
  | fire ts t _ _ ih =>
    rw [fireTimer_eq]
    exact ⟨classTracked_filter _ _ _ _ ih.1, classTracked_filter _ _ _ _ ih.2⟩

/-! ## C14: the persisted folder -/

theorem isTabId_of_mem (tab : String) (h : tab ∈ tabIds) : IsTabId (JVal.str tab) :=
  ⟨tab, h, rfl⟩

theorem switchTab_tab (s : App) (tab : String) (htab : tab ∈ tabIds)
    (h : IsTabId s.currentTab) :
    IsTabId (JSEditor.switchTab s tab).state.currentTab ∧
    (JSEditor.switchTab s tab).state.storage = s.storage := by
  rw [switchTab_eq]
  split_ifs
  · exact ⟨h, rfl⟩
  · exact ⟨isTabId_of_mem tab htab, rfl⟩

theorem setEditorValue_tab (s : App) (targetTab content : String) :
    (setEditorValue s targetTab content).currentTab = s.currentTab ∧
    (setEditorValue s targetTab content).storage = s.storage := by
  unfold setEditorValue
  split_ifs <;> exact ⟨rfl, rfl⟩

theorem openInEditor_tab (s : App) (file : Nat) (targetTab content : String)
    (htab : targetTab ∈ tabIds) (h : IsTabId s.currentTab) :
    IsTabId (FileExplorer.openInEditor s file targetTab content).state.currentTab := by
  unfold FileExplorer.openInEditor
  have h1 := switchTab_tab s targetTab htab h
  cases hsw : JSEditor.switchTab s targetTab with
  | raised s1 => rw [hsw] at h1; exact h1.1
  | returned s1 =>
    rw [hsw] at h1
    show IsTabId (setEditorValue s1 targetTab content).currentTab
    rw [(setEditorValue_tab s1 targetTab content).1]
    exact h1.1

theorem openFile_tab (s : App) (file : Nat) (h : IsTabId s.currentTab) :
    IsTabId (FileExplorer.openFile s file).state.currentTab := by
  have hflush : (if s.selectedFile.isSome = true ∧ s.selectedFile ≠ some file
        then FileExplorer.saveCurrentFileContent s else s).currentTab = s.currentTab := by
    split_ifs
    · have := (saveCurrentFileContent_frame s).1
      exact congrArg Editors.currentTab this
    · rfl
  unfold FileExplorer.openFile
  generalize (if s.selectedFile.isSome = true ∧ s.selectedFile ≠ some file
        then FileExplorer.saveCurrentFileContent s else s) = s1 at hflush ⊢
  have h1 : IsTabId s1.currentTab := by rw [hflush]; exact h
  dsimp only
  split
  · exact h1
  · split_ifs
    · exact openInEditor_tab s1 file "html" _ (by decide) h1
    · exact openInEditor_tab s1 file "css" _ (by decide) h1
    · exact openInEditor_tab s1 file "js" _ (by decide) h1
    · have h2 := switchTab_tab s1 "data" (by decide) h1
      unfold FileExplorer.loadDataToEditor
      cases hsw : JSEditor.switchTab s1 "data" with
      | raised s2 => rw [hsw] at h2; exact h2.1
      | returned s2 => rw [hsw] at h2; exact h2.1
    · exact openInEditor_tab s1 file "html" _ (by decide) h1
    · exact h1

theorem loadDefaultDataFiles_tab (s : App) :
    (JSEditor.loadDefaultDataFiles s).state.currentTab = s.currentTab ∧
    (JSEditor.loadDefaultDataFiles s).state.storage = s.storage := by
  unfold JSEditor.loadDefaultDataFiles FileExplorer.loadDataToEditor
  split
  · exact ⟨rfl, rfl⟩
  · split
    · exact ⟨rfl, rfl⟩
    · split <;> exact ⟨rfl, rfl⟩

theorem switchFolderEditor_tab (s : App) (folder : String) (h : IsTabId s.currentTab) :
    IsTabId (JSEditor.switchFolderEditor s folder).state.currentTab ∧
    (JSEditor.switchFolderEditor s folder).state.storage = s.storage := by
  unfold JSEditor.switchFolderEditor
  by_cases hb : folder ∈ s.folderBtns
  · rw [if_pos hb]
    dsimp only
    by_cases ha : folder = "assets"
    · rw [if_pos ha]
      obtain ⟨h1, h2⟩ := loadDefaultDataFiles_tab
        { s with activeFolder := some folder, currentTab := JVal.str "data" }
      rw [h1, h2]
      exact ⟨isTabId_of_mem "data" (by decide), rfl⟩
    · rw [if_neg ha]
      refine ⟨?_, rfl⟩
      show IsTabId (JVal.str _)
      split_ifs
      · exact isTabId_of_mem "css" (by decide)
      · exact isTabId_of_mem "js" (by decide)
      · exact isTabId_of_mem "html" (by decide)
  · rw [if_neg hb]
    exact ⟨h, rfl⟩

theorem openFileInEditor_tab (s : App) (fileType content : String) (h : IsTabId s.currentTab) :
    IsTabId (JSEditor.openFileInEditor s fileType content).state.currentTab ∧
    (JSEditor.openFileInEditor s fileType content).state.storage = s.storage := by
  unfold JSEditor.openFileInEditor
  by_cases hd : fileType = "json" ∨ fileType = "csv"
  · rw [if_pos hd]
    exact switchFolderEditor_tab s "assets" h
  · rw [if_neg hd]
    dsimp only
    generalize (if fileType = "css" then "css" else if fileType = "javascript" then "js"
      else "html") = targetTab
    have := switchFolderEditor_tab s (JSEditor.getCurrentFolder s) h
    cases hsw : JSEditor.switchFolderEditor s (JSEditor.getCurrentFolder s) with
    | raised s1 =>
      rw [hsw] at this
      exact this
    | returned s1 =>
      rw [hsw] at this
      have h2 := setEditorValue_tab s1 targetTab content
      exact ⟨by show IsTabId (setEditorValue s1 targetTab content).currentTab
                rw [h2.1]; exact this.1,
             h2.2.trans this.2⟩

theorem addFileToFileExplorer_tab (lower : String → String) (s : App) (file : UploadedFile)
    (content fileName folder : String) (shouldReplace shouldOpen : Bool)
    (h : IsTabId s.currentTab) :
    IsTabId (JSEditor.addFileToFileExplorer lower s file content fileName folder shouldReplace
      shouldOpen).state.currentTab ∧
    (JSEditor.addFileToFileExplorer lower s file content fileName folder shouldReplace
      shouldOpen).state.storage = s.storage := by
  unfold JSEditor.addFileToFileExplorer
  dsimp only
  split
  · exact ⟨h, rfl⟩
  · rename_i s1 hs1
    have hs1' : s1.currentTab = s.currentTab ∧ s1.storage = s.storage := by
      split at hs1
      · split at hs1
        · injection hs1 with hs1; subst hs1; exact ⟨rfl, rfl⟩
        · exact absurd hs1 (by simp)
      · injection hs1 with hs1; subst hs1; exact ⟨rfl, rfl⟩
    split_ifs
    · have := openFileInEditor_tab s1 (JSEditor.getFileType fileName) content
        (by rw [hs1'.1]; exact h)
      exact ⟨this.1, this.2.trans hs1'.2⟩
    · exact ⟨by show IsTabId s1.currentTab; rw [hs1'.1]; exact h, hs1'.2⟩

theorem lookupKey_setKey_ne (k k' : String) (v : JVal) (kvs : List (String × JVal))
    (hne : k ≠ k') : JVal.lookupKey k (JVal.setKey k' v kvs) = JVal.lookupKey k kvs := by
  induction kvs with
  | nil =>
    have : ¬ k' = k := fun hx => hne hx.symm
    simp [JVal.setKey, JVal.lookupKey, this]
  | cons kv rest ih =>
    obtain ⟨k2, v2⟩ := kv
    unfold JVal.setKey
    by_cases h1 : k2 = k'
    · rw [if_pos h1]
      have h3 : ¬ k' = k := fun hx => hne hx.symm
      have h4 : ¬ k2 = k := fun hx => hne (hx.symm.trans h1)
      simp [JVal.lookupKey, h3, h4]
    · rw [if_neg h1]
      unfold JVal.lookupKey
      by_cases h2 : k2 = k
      · simp [h2]
      · simp [h2, ih]

theorem saveFileSystemState_noTopFolder (s : App) (h : NoTopFolder s.storage) :
    NoTopFolder (FileManager.saveFileSystemState s).storage := by
  unfold FileManager.saveFileSystemState
  cases hst : s.storage with
  | parsed v =>
    rw [hst] at h
    obtain ⟨kvs, hv, hk⟩ := h
    subst hv
    exact ⟨_, rfl, by rw [lookupKey_setKey_ne _ _ _ _ (by decide)]; exact hk⟩
  | absent => exact ⟨_, rfl, rfl⟩
  | empty => exact ⟨_, rfl, rfl⟩
  | unparsable => exact ⟨_, rfl, rfl⟩

theorem confirmDeleteFile_tab (s : App) (fileName : String) (h : NoTopFolder s.storage) :
    (FileManager.confirmDeleteFile s fileName).currentTab = s.currentTab ∧
    NoTopFolder (FileManager.confirmDeleteFile s fileName).storage := by
  unfold FileManager.confirmDeleteFile
  dsimp only
  have h0 : NoTopFolder (FileManager.getCurrentFolder s).1.storage := by
    rw [getCurrentFolder_storage]; exact h
  have h1 : (FileManager.getCurrentFolder s).1.currentTab = s.currentTab :=
    congrArg Editors.currentTab (getCurrentFolder_toEditors s)
  generalize (FileManager.getCurrentFolder s).1 = s1 at h0 h1 ⊢
  split
  · exact ⟨h1, h0⟩
  · refine ⟨?_, ?_⟩
    · rw [← h1]
      have := saveFileSystemState_toEditors
      rw [congrArg Editors.currentTab (this _)]
      unfold FileExplorer.showFolder
      split <;> rfl
    · apply saveFileSystemState_noTopFolder
      unfold FileExplorer.showFolder
      split <;> exact h0

theorem createFile_tab (T : Templates) (s : App) (fileName : String)
    (h : IsTabId s.currentTab) (hs : NoTopFolder s.storage) :
    IsTabId (FileManager.createFile T s fileName).currentTab ∧
    NoTopFolder (FileManager.createFile T s fileName).storage := by
  unfold FileManager.createFile
  dsimp only
  have h0 : NoTopFolder (FileManager.getCurrentFolder s).1.storage := by
    rw [getCurrentFolder_storage]; exact hs
  have h1 : IsTabId (FileManager.getCurrentFolder s).1.currentTab := by
    rw [congrArg Editors.currentTab (getCurrentFolder_toEditors s)]; exact h
  generalize (FileManager.getCurrentFolder s).1 = s1 at h0 h1 ⊢
  generalize (FileManager.getCurrentFolder s).2 = currentFolder
  split_ifs with hexists hcode hjs hdata
  all_goals first
    | exact ⟨h1, h0⟩
    | skip
  · generalize hs3 : FileExplorer.showFolder _ currentFolder = s3
    have h3 : IsTabId s3.currentTab ∧ s3.storage = s1.storage := by
      subst hs3; exact ⟨h1, rfl⟩
    have htab : "js" ∈ tabIds := by decide
    have hsw := switchTab_tab s3 "js" htab h3.1
    have hst : NoTopFolder (JSEditor.switchTab s3 "js").state.storage := by
      rw [hsw.2, h3.2]; exact h0
    generalize JSEditor.switchTab s3 "js" = out at hsw hst ⊢
    cases out with
    | raised s4 => exact ⟨hsw.1, hst⟩
    | returned s4 =>
      exact ⟨by rw [congrArg Editors.currentTab (saveFileSystemState_toEditors s4)]; exact hsw.1,
        saveFileSystemState_noTopFolder s4 hst⟩
  · generalize hs3 : FileExplorer.showFolder _ currentFolder = s3
    have h3 : IsTabId s3.currentTab ∧ s3.storage = s1.storage := by
      subst hs3; exact ⟨h1, rfl⟩
    have htab : FileManager.getFileType fileName ∈ tabIds := by
      rcases hcode with hc | hc | hc
      · rw [hc]; decide
      · rw [hc]; decide
      · exact absurd hc hjs
    have hsw := switchTab_tab s3 (FileManager.getFileType fileName) htab h3.1
    have hst : NoTopFolder (JSEditor.switchTab s3 (FileManager.getFileType fileName)).state.storage := by
      rw [hsw.2, h3.2]; exact h0
    generalize JSEditor.switchTab s3 (FileManager.getFileType fileName) = out at hsw hst ⊢
    cases out with
    | raised s4 => exact ⟨hsw.1, hst⟩
    | returned s4 =>
      exact ⟨by rw [congrArg Editors.currentTab (saveFileSystemState_toEditors s4)]; exact hsw.1,
        saveFileSystemState_noTopFolder s4 hst⟩
  · generalize hs3 : FileExplorer.showFolder _ currentFolder = s3
    have h3 : IsTabId s3.currentTab ∧ s3.storage = s1.storage := by
      subst hs3; exact ⟨h1, rfl⟩
    have htab : "data" ∈ tabIds := by decide
    have hsw := switchTab_tab s3 "data" htab h3.1
    have hst : NoTopFolder (JSEditor.switchTab s3 "data").state.storage := by
      rw [hsw.2, h3.2]; exact h0
    generalize JSEditor.switchTab s3 "data" = out at hsw hst ⊢
    cases out with
    | raised s4 => exact ⟨hsw.1, hst⟩
    | returned s4 =>
      exact ⟨by rw [congrArg Editors.currentTab (saveFileSystemState_toEditors s4)]; exact hsw.1,
        saveFileSystemState_noTopFolder s4 hst⟩
  · generalize hs3 : FileExplorer.showFolder _ currentFolder = s3
    have h3 : IsTabId s3.currentTab ∧ s3.storage = s1.storage := by
      subst hs3; exact ⟨h1, rfl⟩
    exact ⟨by rw [congrArg Editors.currentTab (saveFileSystemState_toEditors s3)]; exact h3.1,
      saveFileSystemState_noTopFolder s3 (by rw [h3.2]; exact h0)⟩

theorem construct_some (T : Templates) (e : Editors) (slot : Slot) (btns : List String)
    (s' : App) (h : FileExplorer.construct T e slot btns = some s') :
    s'.toEditors = e ∧ s'.storage = slot := by
  unfold FileExplorer.construct at h
  split at h
  · exact absurd h (by simp)
  · dsimp only at h
    split at h
    · injection h with h
      subst h
      exact ⟨rfl, rfl⟩
    · exact absurd h (by simp)

theorem loadSavedCode_tab (T : Templates) (slot : Slot) (e : Editors) (h : NoTopFolder slot) :
    (JSEditor.loadSavedCode T slot e).currentTab = e.currentTab := by
  unfold JSEditor.loadSavedCode
  cases slot with
  | parsed v =>
    obtain ⟨kvs, hv, hk⟩ := h
    subst hv
    have hg : (JVal.obj kvs).getProp "currentFolder" = some JVal.undefined := by
      simp [JVal.getProp, hk]
    simp only [hg]
    have hu : JVal.undefined.truthy = false := rfl
    simp only [hu, Bool.false_eq_true, if_false]
    split <;> rfl
  | absent => rfl
  | empty => rfl
  | unparsable => rfl

theorem init_tab (T : Templates) (slot : Slot) (e : Editors) (btns : List String) (s' : App)
    (h : JSEditor.init T slot e btns = some s') (hs : NoTopFolder slot) :
    s'.currentTab = JVal.str "html" ∧ s'.storage = slot := by
  unfold JSEditor.init at h
  obtain ⟨h1, h2⟩ := construct_some T _ slot btns s' h
  refine ⟨?_, h2⟩
  rw [congrArg Editors.currentTab h1, loadSavedCode_tab T slot _ hs]

/-- The invariant of the reachable editor states: `currentTab` is the string
of a tab identifier, and the slot has no top-level `currentFolder`. -/
theorem editorReachable_tab (T : Templates) (s : App) (h : EditorReachable T s) :
    IsTabId s.currentTab ∧ NoTopFolder s.storage := by
  induction h with
  | init e btns s hs =>
    obtain ⟨h1, h2⟩ := init_tab T Slot.absent e btns s hs trivial
    exact ⟨by rw [h1]; exact isTabId_of_mem "html" (by decide), by rw [h2]; trivial⟩
  | reload s e btns s' _ hs' ih =>
    obtain ⟨h1, h2⟩ := init_tab T s.storage e btns s' hs' ih.2
    exact ⟨by rw [h1]; exact isTabId_of_mem "html" (by decide), by rw [h2]; exact ih.2⟩
  | switchFolderEditor s folder _ ih =>
    obtain ⟨h1, h2⟩ := switchFolderEditor_tab s folder ih.1
    exact ⟨h1, by rw [h2]; exact ih.2⟩
  | switchFolder s folder _ ih =>
    unfold FileExplorer.switchFolder
    split_ifs <;> exact ih
  | switchTab s tab _ htab ih =>
    obtain ⟨h1, h2⟩ := switchTab_tab s tab htab ih.1
    exact ⟨h1, by rw [h2]; exact ih.2⟩
  | openFile s file _ ih =>
    exact ⟨openFile_tab s file ih.1, by rw [(openFile_frame s file).2.2.2.2.2.2.1]; exact ih.2⟩
  | selectFile s file _ ih => exact ih
  | typing s html css js data _ ih => exact ih
  | createFile s fileName _ ih => exact createFile_tab T s fileName ih.1 ih.2
  | confirmDeleteFile s fileName _ ih =>
    obtain ⟨h1, h2⟩ := confirmDeleteFile_tab s fileName ih.2
    exact ⟨by rw [h1]; exact ih.1, h2⟩
  | addFileToFileExplorer lower s file content fileName folder shouldReplace shouldOpen _ ih =>
    obtain ⟨h1, h2⟩ := addFileToFileExplorer_tab lower s file content fileName folder shouldReplace
      shouldOpen ih.1
    exact ⟨h1, by rw [h2]; exact ih.2⟩

/-- C14 (code bug).  No snapshot with a folder identifier is written.  In every
reachable editor state `saveCode` is left by the exception of `getCurrentTab`
with the slot as it was, the slot has no top-level `currentFolder`, and the
value that the object literal of `saveCode` gives the field, `currentTab`, is
one of the tab identifiers `html`, `css`, `js`, `data`. -/
theorem saveCode_persists_no_folder_id (T : Templates) (s : App) (now : String)
    (h : EditorReachable T s) :
    JSEditor.saveCode s now = Outcome.raised s ∧
    NoTopFolder s.storage ∧
    ∃ tab ∈ tabIds, s.currentTab = JVal.str tab ∧ snapshotCurrentFolder s now = JVal.str tab := by
  obtain ⟨⟨tab, htab, hcur⟩, hslot⟩ := editorReachable_tab T s h
  refine ⟨saveCode_raised s now, hslot, tab, htab, hcur, ?_⟩
  unfold snapshotCurrentFolder codeDataToJVal
  rw [hcur]
  have ht : (JVal.str tab).truthy = true := by
    simp only [tabIds, List.mem_cons, List.mem_singleton, List.not_mem_nil, or_false] at htab
    rcases htab with h1 | h1 | h1 | h1 <;> subst h1 <;> rfl
  rw [ht]
  rfl

/-- Witness for C14, the failing input: on the page of a first visit, after a
click on the folder button `javascript`, `saveCode` is left by the exception,
the slot is still empty, and the value of the literal for `currentFolder` is
`js`, which is none of `html`, `css`, `javascript`, `assets`. -/
theorem saveCode_persists_no_folder_id_witness :
    EditorReachable demoTemplates (JSEditor.switchFolderEditor demoApp "javascript").state ∧
    JSEditor.saveCode (JSEditor.switchFolderEditor demoApp "javascript").state "t"
      = Outcome.raised (JSEditor.switchFolderEditor demoApp "javascript").state ∧
    (JSEditor.saveCode (JSEditor.switchFolderEditor demoApp "javascript").state "t").state.storage
      = Slot.absent ∧
    (JSEditor.switchFolderEditor demoApp "javascript").state.currentTab = JVal.str "js" ∧
    snapshotCurrentFolder (JSEditor.switchFolderEditor demoApp "javascript").state "t"
      = JVal.str "js" ∧
    "js" ∉ folderIds :=
  ⟨EditorReachable.switchFolderEditor _ "javascript"
      (EditorReachable.init demoEditors demoButtons demoApp rfl),
   (saveCode_persists_no_folder_id demoTemplates _ "t"
      (EditorReachable.switchFolderEditor _ "javascript"
        (EditorReachable.init demoEditors demoButtons demoApp rfl))).1,
   rfl, rfl, rfl, by decide⟩

/-! ## Lemmas on the change events -/

theorem setAutoSave_wellTracked (ts : Timers) (now : Nat) (h : ts.WellTracked) :
    (JSEditor.setAutoSave ts now).WellTracked := by
  obtain ⟨hid, hr, hs, hR, hS⟩ := h
  unfold JSEditor.setAutoSave setTimeout clearTimeout
  dsimp only
  refine ⟨?_, ?_, ?_, ?_, ?_⟩
  · intro t ht
    rcases List.mem_append.mp ht with ht | ht
    · have := hid t (List.mem_of_mem_filter ht)
      show t.id < ts.nextId + 1
      omega
    · simp only [List.mem_singleton] at ht
      subst ht
      show ts.nextId < ts.nextId + 1
      omega
  · intro i hi
    have := hr i hi
    show i < ts.nextId + 1
    omega
  · intro i hi
    injection hi with hi
    show i < ts.nextId + 1
    omega
  · intro t ht
    rcases List.mem_append.mp ht with ht | ht
    · exact hR t (List.mem_of_mem_filter ht)
    · simp only [List.mem_singleton] at ht
      subst ht
      constructor
      · intro hx; exact TimerCallback.noConfusion hx
      · intro hx
        have := hr _ hx
        simp at this
  · intro t ht
    rcases List.mem_append.mp ht with ht | ht
    · have hlt := hid t (List.mem_of_mem_filter ht)
      have hne := (List.mem_filter.mp ht).2
      simp only [ne_eq, decide_eq_true_eq] at hne
      constructor
      · intro hx
        exact absurd ((hS t (List.mem_of_mem_filter ht)).mp hx).symm hne
      · intro hx
        injection hx with hx
        omega
    · simp only [List.mem_singleton] at ht
      subst ht
      exact ⟨fun _ => rfl, fun _ => rfl⟩

theorem setAutoSave_pending (ts : Timers) (now : Nat) (h : ts.WellTracked) :
    (JSEditor.setAutoSave ts now).pending
      = ts.pending.filter (fun t => decide (t.callback ≠ TimerCallback.autoSave))
        ++ [{ id := ts.nextId, due := now + 2000, callback := TimerCallback.autoSave }] ∧
    (JSEditor.setAutoSave ts now).nextId = ts.nextId + 1 := by
  obtain ⟨-, -, -, -, hS⟩ := h
  unfold JSEditor.setAutoSave setTimeout clearTimeout
  dsimp only
  refine ⟨?_, rfl⟩
  congr 1
  apply List.filter_congr
  intro t ht
  have := hS t ht
  by_cases hc : t.callback = TimerCallback.autoSave
  · have h2 := this.mp hc
    simp [hc, h2]
  · have h2 : ¬ ts.autoSaveTimer = some t.id := fun hx => hc (this.mpr hx)
    have h3 : ¬ some t.id = ts.autoSaveTimer := fun hx => h2 hx.symm
    simp [hc, h3]

/-- The step of `onEditorChange` before `setAutoSave`. -/
theorem debounceRun_wellTracked (ts : Timers) (now : Nat) (h : ts.WellTracked) :
    Timers.WellTracked
      { ts with nextId := ts.nextId + 1,
                pending := ts.pending.filter (fun t => decide (some t.id ≠ ts.runDebounceTimer))
                  ++ [{ id := ts.nextId, due := now + 1000,
                        callback := TimerCallback.debouncedRun }],
                runDebounceTimer := some ts.nextId } ∧
    ts.pending.filter (fun t => decide (some t.id ≠ ts.runDebounceTimer))
      = ts.pending.filter (fun t => decide (t.callback ≠ TimerCallback.debouncedRun)) := by
  obtain ⟨hid, hr, hs, hR, hS⟩ := h
  refine ⟨⟨?_, ?_, ?_, ?_, ?_⟩, ?_⟩
  · intro t ht
    rcases List.mem_append.mp ht with ht | ht
    · have := hid t (List.mem_of_mem_filter ht)
      show t.id < ts.nextId + 1
      omega
    · simp only [List.mem_singleton] at ht
      subst ht
      show ts.nextId < ts.nextId + 1
      omega
  · intro i hi
    injection hi with hi
    show i < ts.nextId + 1
    omega
  · intro i hi
    have := hs i hi
    show i < ts.nextId + 1
    omega
  · intro t ht
    rcases List.mem_append.mp ht with ht | ht
    · have hlt := hid t (List.mem_of_mem_filter ht)
      have hne := (List.mem_filter.mp ht).2
      simp only [ne_eq, decide_eq_true_eq] at hne
      constructor
      · intro hx
        exact absurd ((hR t (List.mem_of_mem_filter ht)).mp hx).symm hne
      · intro hx
        injection hx with hx
        omega
    · simp only [List.mem_singleton] at ht
      subst ht
      exact ⟨fun _ => rfl, fun _ => rfl⟩
  · intro t ht
    rcases List.mem_append.mp ht with ht | ht
    · exact hS t (List.mem_of_mem_filter ht)
    · simp only [List.mem_singleton] at ht
      subst ht
      constructor
      · intro hx; exact TimerCallback.noConfusion hx
      · intro hx
        have := hs _ hx
        simp at this
  · apply List.filter_congr
    intro t ht
    have := hR t ht
    by_cases hc : t.callback = TimerCallback.debouncedRun
    · have h2 := this.mp hc
      simp [hc, h2]
    · have h2 : ¬ ts.runDebounceTimer = some t.id := fun hx => hc (this.mpr hx)
      have h3 : ¬ some t.id = ts.runDebounceTimer := fun hx => h2 hx.symm
      simp [hc, h3]

theorem onEditorChange_wellTracked (ts : Timers) (now : Nat) (h : ts.WellTracked) :
    (JSEditor.onEditorChange ts now).WellTracked ∧
    (JSEditor.onEditorChange ts now).pending
      = ts.pending.filter (fun t => decide (t.callback = TimerCallback.plainRun))
        ++ [{ id := ts.nextId, due := now + 1000, callback := TimerCallback.debouncedRun },
            { id := ts.nextId + 1, due := now + 2000, callback := TimerCallback.autoSave }] ∧
    (JSEditor.onEditorChange ts now).nextId = ts.nextId + 2 := by
  obtain ⟨h1, h2⟩ := debounceRun_wellTracked ts now h
  have hstep : JSEditor.onEditorChange ts now
      = JSEditor.setAutoSave
          { ts with nextId := ts.nextId + 1,
                    pending := ts.pending.filter (fun t => decide (some t.id ≠ ts.runDebounceTimer))
                      ++ [{ id := ts.nextId, due := now + 1000,
                            callback := TimerCallback.debouncedRun }],
                    runDebounceTimer := some ts.nextId } now := rfl
  rw [hstep]
  refine ⟨setAutoSave_wellTracked _ now h1, ?_, ?_⟩
  · rw [(setAutoSave_pending _ now h1).1]
    dsimp only
    rw [h2, List.filter_append, List.filter_filter]
    have hf : ts.pending.filter (fun t => decide (t.callback ≠ TimerCallback.autoSave) &&
        decide (t.callback ≠ TimerCallback.debouncedRun))
        = ts.pending.filter (fun t => decide (t.callback = TimerCallback.plainRun)) := by
      apply List.filter_congr
      intro t _
      cases t.callback <;> rfl
    rw [hf]
    simp
  · rw [(setAutoSave_pending _ now h1).2]

theorem changeEvents_wellTracked (events : List (EditorName × Nat)) :
    ∀ ts : Timers, ts.WellTracked →
      (events.foldl JSEditor.changeEvent ts).WellTracked ∧
      (events.foldl JSEditor.changeEvent ts).nextId = ts.nextId + 2 * events.length ∧
      (events.foldl JSEditor.changeEvent ts).pending.filter
          (fun t => decide (t.callback = TimerCallback.plainRun))
        = ts.pending.filter (fun t => decide (t.callback = TimerCallback.plainRun)) := by
  induction events with
  | nil => intro ts h; exact ⟨h, rfl, rfl⟩
  | cons ev events ih =>
    intro ts h
    obtain ⟨h1, h2, h3⟩ := onEditorChange_wellTracked ts ev.2 h
    obtain ⟨h4, h5, h6⟩ := ih (JSEditor.changeEvent ts ev) h1
    refine ⟨h4, ?_, ?_⟩
    · rw [List.foldl_cons, h5]
      show (JSEditor.onEditorChange ts ev.2).nextId + _ = _
      rw [h3, List.length_cons]
      omega
    · rw [List.foldl_cons, h6]
      show (JSEditor.onEditorChange ts ev.2).pending.filter _ = _
      rw [h2, List.filter_append, List.filter_filter]
      simp

theorem timersReachable_wellTracked (ts : Timers) (h : TimersReachable ts) : ts.WellTracked := by
  induction h with
  | initial =>
    exact ⟨fun _ ht => absurd ht (List.not_mem_nil _), fun _ hi => Option.noConfusion hi,
      fun _ hi => Option.noConfusion hi, fun _ ht => absurd ht (List.not_mem_nil _),
      fun _ ht => absurd ht (List.not_mem_nil _)⟩
  | change ts event _ ih => exact (onEditorChange_wellTracked ts event.2 ih).1
  | setAutoSave ts now _ ih => exact setAutoSave_wellTracked ts now ih
  | scheduleRun ts delay now _ ih =>
    obtain ⟨hid, hr, hs, hR, hS⟩ := ih
    unfold scheduleRun setTimeout
    dsimp only
    refine ⟨?_, ?_, ?_, ?_, ?_⟩
    · intro t ht
      rcases List.mem_append.mp ht with ht | ht
      · have := hid t ht
        show t.id < ts.nextId + 1
        omega
      · simp only [List.mem_singleton] at ht
        subst ht
        show ts.nextId < ts.nextId + 1
        omega
    · intro i hi
      have := hr i hi
      show i < ts.nextId + 1
      omega
    · intro i hi
      have := hs i hi
      show i < ts.nextId + 1
      omega
    · intro t ht
      rcases List.mem_append.mp ht with ht | ht
      · exact hR t ht
      · simp only [List.mem_singleton] at ht
        subst ht
        constructor
        · intro hx; exact TimerCallback.noConfusion hx
        · intro hx
          have := hr _ hx
          simp at this
    · intro t ht
      rcases List.mem_append.mp ht with ht | ht
      · exact hS t ht
      · simp only [List.mem_singleton] at ht
        subst ht
        constructor
        · intro hx; exact TimerCallback.noConfusion hx
        · intro hx
          have := hs _ hx
          simp at this
  | fire ts t _ _ ih =>
    obtain ⟨hid, hr, hs, hR, hS⟩ := ih
    rw [fireTimer_eq]
    exact ⟨fun u hu => hid u (List.mem_of_mem_filter hu), hr, hs,
      fun u hu => hR u (List.mem_of_mem_filter hu), fun u hu => hS u (List.mem_of_mem_filter hu)⟩

/-! ## Lemmas on the compound timer steps -/

/-- After any number of change events and a last one at the time `t`, one timer
of `onEditorChange` and one of `setAutoSave` are pending beside the timers
that were set without a handle. -/
theorem changeEvents_pending (ts : Timers) (h : ts.WellTracked)
    (events : List (EditorName × Nat)) (editor : EditorName) (t : Nat) :
    ((events ++ [(editor, t)]).foldl JSEditor.changeEvent ts).pending
      = ts.pendingOf TimerCallback.plainRun ++
        [{ id := ts.nextId + 2 * events.length, due := t + 1000,
           callback := TimerCallback.debouncedRun },
         { id := ts.nextId + 2 * events.length + 1, due := t + 2000,
           callback := TimerCallback.autoSave }] := by
  obtain ⟨h1, h2, h3⟩ := changeEvents_wellTracked events ts h
  obtain ⟨-, hp, -⟩ := onEditorChange_wellTracked (events.foldl JSEditor.changeEvent ts) t h1
  rw [h2, h3] at hp
  have hfold : (events ++ [(editor, t)]).foldl JSEditor.changeEvent ts
      = JSEditor.onEditorChange (events.foldl JSEditor.changeEvent ts) t := by
    rw [List.foldl_append]
    rfl
  rw [hfold]
  exact hp

theorem pendingOf_plainRun_filter (ts : Timers) (c : TimerCallback)
    (hc : c ≠ TimerCallback.plainRun) :
    (ts.pendingOf TimerCallback.plainRun).filter (fun u => decide (u.callback = c)) = [] := by
  unfold Timers.pendingOf
  rw [List.filter_filter, List.filter_eq_nil_iff]
  intro u _ hu
  simp only [Bool.and_eq_true, decide_eq_true_eq] at hu
  exact hc (hu.1.symm.trans hu.2)

/-- Firing two timers whose handles are new removes them and leaves the older
timers pending. -/
theorem fire_two_new (ts : Timers) (h : ts.WellTracked) (older : List Timer)
    (hsub : ∀ u ∈ older, u ∈ ts.pending) (a b : Timer) (ha : ts.nextId ≤ a.id)
    (hb : ts.nextId ≤ b.id) (hab : a.id ≠ b.id) (after : Timers)
    (hp : after.pending = older ++ [a, b]) :
    (fireTimer (fireTimer after a) b).pending = older := by
  rw [fireTimer_eq, fireTimer_eq]
  dsimp only
  rw [hp, List.filter_filter]
  rw [List.filter_append]
  have h1 : older.filter (fun u => decide (u.id ≠ b.id) && decide (u.id ≠ a.id)) = older := by
    rw [List.filter_eq_self]
    intro u hu
    have := h.1 u (hsub u hu)
    simp only [ne_eq, Bool.and_eq_true, decide_eq_true_eq]
    omega
  have h2 : [a, b].filter (fun u => decide (u.id ≠ b.id) && decide (u.id ≠ a.id)) = [] := by
    simp [hab]
  rw [h1, h2, List.append_nil]

theorem setValueTimers_reachable (raises : Bool) (editor : EditorName) (ts : Timers) (now : Nat)
    (h : TimersReachable ts) : TimersReachable (setValueTimers raises editor ts now) := by
  unfold setValueTimers
  cases raises
  · exact h
  · exact TimersReachable.change ts _ h

theorem loadDataToEditorTimers_reachable (raises : Bool) (ts : Timers) (now : Nat)
    (h : TimersReachable ts) : TimersReachable (FileExplorer.loadDataToEditorTimers raises ts now) :=
  TimersReachable.scheduleRun _ 100 now (setValueTimers_reachable raises _ ts now h)

theorem clearAllCodeTimers_reachable (raises : EditorName → Bool) (ts : Timers) (now : Nat)
    (h : TimersReachable ts) : TimersReachable (JSEditor.clearAllCodeTimers raises ts now) :=
  setValueTimers_reachable _ _ _ now
    (setValueTimers_reachable _ _ _ now (setValueTimers_reachable _ _ ts now h))

/-- The timer calls of `openFile` are none, one `setValue`, or those of
`loadDataToEditor`. -/
theorem openFileTimers_cases (raises : Bool) (s : App) (file : Nat) (ts : Timers) (now : Nat) :
    FileExplorer.openFileTimers raises s file ts now = ts ∨
    (∃ editor, FileExplorer.openFileTimers raises s file ts now
      = setValueTimers raises editor ts now) ∨
    FileExplorer.openFileTimers raises s file ts now
      = FileExplorer.loadDataToEditorTimers raises ts now := by
  have hin : ∀ (s1 : App) (tab : String),
      FileExplorer.openInEditorTimers raises s1 tab ts now = ts ∨
      (∃ editor, FileExplorer.openInEditorTimers raises s1 tab ts now
        = setValueTimers raises editor ts now) := by
    intro s1 tab
    unfold FileExplorer.openInEditorTimers
    cases JSEditor.switchTab s1 tab with
    | raised _ => exact Or.inl rfl
    | returned _ => exact Or.inr ⟨_, rfl⟩
  have hin2 : ∀ (s1 : App) (tab : String),
      FileExplorer.openInEditorTimers raises s1 tab ts now = ts ∨
      (∃ editor, FileExplorer.openInEditorTimers raises s1 tab ts now
        = setValueTimers raises editor ts now) ∨
      FileExplorer.openInEditorTimers raises s1 tab ts now
        = FileExplorer.loadDataToEditorTimers raises ts now := by
    intro s1 tab
    rcases hin s1 tab with h | h
    · exact Or.inl h
    · exact Or.inr (Or.inl h)
  unfold FileExplorer.openFileTimers
  dsimp only
  split
  · exact Or.inl rfl
  · split
    · exact hin2 _ _
    · split
      · exact hin2 _ _
      · split
        · exact hin2 _ _
        · split
          · split
            · exact Or.inl rfl
            · exact Or.inr (Or.inr rfl)
          · split
            · exact hin2 _ _
            · exact Or.inl rfl

theorem switchFolderEditorTimers_cases (raises : Bool) (s : App) (folder : String)
    (ts : Timers) (now : Nat) :
    JSEditor.switchFolderEditorTimers raises s folder ts now = ts ∨
    JSEditor.switchFolderEditorTimers raises s folder ts now
      = FileExplorer.loadDataToEditorTimers raises ts now := by
  unfold JSEditor.switchFolderEditorTimers JSEditor.loadDefaultDataFilesTimers
  dsimp only
  split
  · split
    · split
      · exact Or.inl rfl
      · split
        · exact Or.inr rfl
        · split
          · exact Or.inr rfl
          · exact Or.inl rfl
    · exact Or.inl rfl
  · exact Or.inl rfl

/-- The change events that the `setValue` calls of `clearAllCode` raise. -/
theorem clearAllCodeTimers_eq_foldl (raises : EditorName → Bool) (ts : Timers) (now : Nat) :
    JSEditor.clearAllCodeTimers raises ts now
      = (([EditorName.html, EditorName.css, EditorName.js].filter raises).map
          (fun editor => (editor, now))).foldl JSEditor.changeEvent ts := by
  unfold JSEditor.clearAllCodeTimers JSEditor.runCodeTimers setValueTimers
  cases h1 : raises EditorName.html <;> cases h2 : raises EditorName.css <;>
    cases h3 : raises EditorName.js <;> simp [List.filter, h1, h2, h3]

theorem clearAllCodeTimers_pending (raises : EditorName → Bool) (ts : Timers) (now : Nat)
    (h : ts.WellTracked)
    (hr : raises EditorName.html = true ∨ raises EditorName.css = true
      ∨ raises EditorName.js = true) :
    ∃ i j, (JSEditor.clearAllCodeTimers raises ts now).pending
      = ts.pendingOf TimerCallback.plainRun ++
        [{ id := i, due := now + 1000, callback := TimerCallback.debouncedRun },
         { id := j, due := now + 2000, callback := TimerCallback.autoSave }] := by
  rw [clearAllCodeTimers_eq_foldl]
  have hne : [EditorName.html, EditorName.css, EditorName.js].filter raises ≠ [] := by
    intro hx
    rw [List.filter_eq_nil_iff] at hx
    rcases hr with hr | hr | hr
    · exact hx EditorName.html (by simp) hr
    · exact hx EditorName.css (by simp) hr
    · exact hx EditorName.js (by simp) hr
  obtain ⟨init, last, hl⟩ : ∃ init last,
      [EditorName.html, EditorName.css, EditorName.js].filter raises = init ++ [last] :=
    ⟨_, _, (List.dropLast_append_getLast hne).symm⟩
  rw [hl, List.map_append, List.map_singleton]
  exact ⟨_, _, changeEvents_pending ts h (init.map (fun editor => (editor, now))) last now⟩

/-! ## C23: debounce collapsing -/

/-- C23 (counterexample).  A data file is loaded at the time 0: the `setValue`
of the load raises a change event, and the load sets a run after 100 ms whose
handle is not kept.  After one change event of the data editor at the time
10, with no timer fired, two timers that run the code are pending, the one of
the load and the one of the change event. -/
theorem dataLoad_then_change_leaves_two_renders :
    TimersReachable (FileExplorer.loadDataToEditorTimers true Timers.initial 0) ∧
    (JSEditor.changeEvent (FileExplorer.loadDataToEditorTimers true Timers.initial 0)
        (EditorName.data, 10)).pendingRenders
      = [{ id := 3, due := 100, callback := TimerCallback.plainRun },
         { id := 4, due := 1010, callback := TimerCallback.debouncedRun }] ∧
    (JSEditor.changeEvent (FileExplorer.loadDataToEditorTimers true Timers.initial 0)
        (EditorName.data, 10)).pendingRenders.length ≠ 1 :=
  ⟨loadDataToEditorTimers_reachable true _ 0 TimersReachable.initial, by decide, by decide⟩

/-- C23 (amended).  In every reachable timer state, any number of change events
of any of the four editors followed by a last one at the time `t`, with no
timer firing in between, leave exactly one pending timer set by
`onEditorChange`, which calls `runCode()` at `t + 1000`, and exactly one set
by `setAutoSave`, which calls `saveCode()` at `t + 2000`; the timers that
were set without a handle (after a data file was loaded) are pending as
before, and when there was none the two timers are all that is pending.
When the two timers have fired, only the timers without a handle are
pending.  The callback of the first writes the document that `runCode` builds
from the editors as they are when it fires, and the callback of the second
calls `saveCode` on the page as it is then. -/
theorem changeEvents_leave_one_run_and_one_save (ts : Timers) (h : TimersReachable ts)
    (events : List (EditorName × Nat)) (editor : EditorName) (t : Nat) :
    ((events ++ [(editor, t)]).foldl JSEditor.changeEvent ts).pending
      = ts.pendingOf TimerCallback.plainRun ++
        [{ id := ts.nextId + 2 * events.length, due := t + 1000,
           callback := TimerCallback.debouncedRun },
         { id := ts.nextId + 2 * events.length + 1, due := t + 2000,
           callback := TimerCallback.autoSave }] ∧
    ((events ++ [(editor, t)]).foldl JSEditor.changeEvent ts).pendingOf TimerCallback.debouncedRun
      = [{ id := ts.nextId + 2 * events.length, due := t + 1000,
           callback := TimerCallback.debouncedRun }] ∧
    ((events ++ [(editor, t)]).foldl JSEditor.changeEvent ts).pendingOf TimerCallback.autoSave
      = [{ id := ts.nextId + 2 * events.length + 1, due := t + 2000,
           callback := TimerCallback.autoSave }] ∧
    (ts.pendingOf TimerCallback.plainRun = [] →
      (((events ++ [(editor, t)]).foldl JSEditor.changeEvent ts).pendingRenders).length = 1) ∧
    (fireTimer
        (fireTimer ((events ++ [(editor, t)]).foldl JSEditor.changeEvent ts)
          { id := ts.nextId + 2 * events.length, due := t + 1000,
            callback := TimerCallback.debouncedRun })
        { id := ts.nextId + 2 * events.length + 1, due := t + 2000,
          callback := TimerCallback.autoSave }).pending
      = ts.pendingOf TimerCallback.plainRun ∧
    (∀ (s : App) (now : String),
      TimerCallback.debouncedRun.effect s now
        = CallbackEffect.rendered (JSEditor.runCode s.toEditors) ∧
      TimerCallback.autoSave.effect s now
        = CallbackEffect.saveCalled (JSEditor.saveCode s now)) := by
  have hw := timersReachable_wellTracked ts h
  have hp := changeEvents_pending ts hw events editor t
  refine ⟨hp, ?_, ?_, ?_, ?_, fun _ _ => ⟨rfl, rfl⟩⟩
  · show List.filter _ _ = _
    rw [hp, List.filter_append, pendingOf_plainRun_filter ts TimerCallback.debouncedRun
      (fun hx => TimerCallback.noConfusion hx)]
    rfl
  · show List.filter _ _ = _
    rw [hp, List.filter_append, pendingOf_plainRun_filter ts TimerCallback.autoSave
      (fun hx => TimerCallback.noConfusion hx)]
    rfl
  · intro hnone
    unfold Timers.pendingRenders
    unfold Timers.pendingOf at hnone
    rw [hp]
    unfold Timers.pendingOf
    rw [hnone]
    rfl
  · exact fire_two_new ts hw _ (fun u hu => List.mem_of_mem_filter hu) _ _
      (by show ts.nextId ≤ ts.nextId + 2 * events.length; omega)
      (by show ts.nextId ≤ ts.nextId + 2 * events.length + 1; omega)
      (by show ts.nextId + 2 * events.length ≠ ts.nextId + 2 * events.length + 1; omega)
      _ hp

/-- Witness for C23: three change events (html at 0, css at 300, data at 700)
on a page without timers leave a run due at 1700 and a save due at 2700. -/
theorem changeEvents_leave_one_run_and_one_save_witness :
    ([(EditorName.html, 0), (EditorName.css, 300), (EditorName.data, 700)].foldl
        JSEditor.changeEvent Timers.initial).pending
      = [{ id := 5, due := 1700, callback := TimerCallback.debouncedRun },
         { id := 6, due := 2700, callback := TimerCallback.autoSave }] :=
  (changeEvents_leave_one_run_and_one_save Timers.initial TimersReachable.initial
      [(EditorName.html, 0), (EditorName.css, 300)] EditorName.data 700).1

/-! ## C24: cancellation of timers -/

/-- C24 (counterexample).  After one change event at the time 0 a run and a save
are pending.  An explicit run and an explicit save at the time 10 leave both
pending: they cancel no timer.  After an explicit clear at the time 10 whose
`setValue` calls raise change events, a run and a save are pending again, set
by those events.  After a data file is loaded at the time 10, two timers that
run the code are pending in a reachable state. -/
theorem explicit_run_leaves_timer_pending :
    changedOnceTimers.pending
      = [{ id := 1, due := 1000, callback := TimerCallback.debouncedRun },
         { id := 2, due := 2000, callback := TimerCallback.autoSave }] ∧
    (JSEditor.runCodeTimers changedOnceTimers).pendingRenders
      = [{ id := 1, due := 1000, callback := TimerCallback.debouncedRun }] ∧
    (JSEditor.saveCodeTimers changedOnceTimers).pendingOf TimerCallback.autoSave
      = [{ id := 2, due := 2000, callback := TimerCallback.autoSave }] ∧
    (JSEditor.clearAllCodeTimers (fun _ => true) changedOnceTimers 10).pending
      = [{ id := 7, due := 1010, callback := TimerCallback.debouncedRun },
         { id := 8, due := 2010, callback := TimerCallback.autoSave }] ∧
    (FileExplorer.loadDataToEditorTimers true changedOnceTimers 10).pendingRenders
      = [{ id := 3, due := 1010, callback := TimerCallback.debouncedRun },
         { id := 5, due := 110, callback := TimerCallback.plainRun }] ∧
    TimersReachable (FileExplorer.loadDataToEditorTimers true changedOnceTimers 10) :=
  ⟨by decide, by decide, by decide, by decide, by decide,
   loadDataToEditorTimers_reachable true _ 10
     (TimersReachable.change _ _ TimersReachable.initial)⟩

/-- C24 (amended).  In every reachable timer state at most one timer set by
`onEditorChange` and at most one timer set by `setAutoSave` are pending, and a
pending one is the timer whose handle the editor holds: each of the two
functions cancels that timer before it sets a new one.  An explicit run, an
explicit save and the folder switch of the file explorer leave the timers as
they are.  An explicit clear leaves them as they are when none of its
`setValue` calls raises a change event; otherwise the change events cancel
the two timers and set new ones, so that a run and a save are pending after
the clear.  Loading a data file sets a further run without a handle.  Opening
a file has no timer call, or those of one `setValue`, or those of the load of
a data file; the folder switch of the editor has none, or those of the load
of a data file.  All of them lead to reachable timer states. -/
theorem reachable_one_timer_per_handle (ts : Timers) (h : TimersReachable ts) (now : Nat)
    (raises : EditorName → Bool) (raisesOne : Bool) (s : App) (file : Nat) (folder : String) :
    (ts.pendingOf TimerCallback.debouncedRun).length ≤ 1 ∧
    (ts.pendingOf TimerCallback.autoSave).length ≤ 1 ∧
    (∀ t ∈ ts.pendingOf TimerCallback.debouncedRun, ts.runDebounceTimer = some t.id) ∧
    (∀ t ∈ ts.pendingOf TimerCallback.autoSave, ts.autoSaveTimer = some t.id) ∧
    JSEditor.runCodeTimers ts = ts ∧
    JSEditor.saveCodeTimers ts = ts ∧
    FileExplorer.switchFolderTimers ts = ts ∧
    ((raises EditorName.html = false ∧ raises EditorName.css = false
        ∧ raises EditorName.js = false) →
      JSEditor.clearAllCodeTimers raises ts now = ts) ∧
    ((raises EditorName.html = true ∨ raises EditorName.css = true
        ∨ raises EditorName.js = true) →
      ∃ i j, (JSEditor.clearAllCodeTimers raises ts now).pending
        = ts.pendingOf TimerCallback.plainRun ++
          [{ id := i, due := now + 1000, callback := TimerCallback.debouncedRun },
           { id := j, due := now + 2000, callback := TimerCallback.autoSave }]) ∧
    (FileExplorer.loadDataToEditorTimers raisesOne ts now).pending
      = (setValueTimers raisesOne EditorName.data ts now).pending ++
        [{ id := (setValueTimers raisesOne EditorName.data ts now).nextId, due := now + 100,
           callback := TimerCallback.plainRun }] ∧
    (FileExplorer.openFileTimers raisesOne s file ts now = ts ∨
      (∃ editor, FileExplorer.openFileTimers raisesOne s file ts now
        = setValueTimers raisesOne editor ts now) ∨
      FileExplorer.openFileTimers raisesOne s file ts now
        = FileExplorer.loadDataToEditorTimers raisesOne ts now) ∧
    (JSEditor.switchFolderEditorTimers raisesOne s folder ts now = ts ∨
      JSEditor.switchFolderEditorTimers raisesOne s folder ts now
        = FileExplorer.loadDataToEditorTimers raisesOne ts now) ∧
    TimersReachable (JSEditor.clearAllCodeTimers raises ts now) ∧
    TimersReachable (FileExplorer.loadDataToEditorTimers raisesOne ts now) ∧
    TimersReachable (FileExplorer.openFileTimers raisesOne s file ts now) ∧
    TimersReachable (JSEditor.switchFolderEditorTimers raisesOne s folder ts now) := by
  obtain ⟨hr, hs⟩ := timersReachable_tracked ts h
  have hload := loadDataToEditorTimers_reachable raisesOne ts now h
  refine ⟨hr.2, hs.2, ?_, ?_, rfl, rfl, rfl, ?_, ?_, rfl, openFileTimers_cases _ _ _ _ _,
    switchFolderEditorTimers_cases _ _ _ _ _, clearAllCodeTimers_reachable _ _ _ h, hload, ?_, ?_⟩
  · intro t ht
    have := List.mem_filter.mp ht
    exact hr.1 t this.1 (by simpa using this.2)
  · intro t ht
    have := List.mem_filter.mp ht
    exact hs.1 t this.1 (by simpa using this.2)
  · intro hn
    unfold JSEditor.clearAllCodeTimers JSEditor.runCodeTimers setValueTimers
    rw [hn.1, hn.2.1, hn.2.2]
    rfl
  · exact clearAllCodeTimers_pending raises ts now (timersReachable_wellTracked ts h)
  · rcases openFileTimers_cases raisesOne s file ts now with hx | ⟨e, hx⟩ | hx
    · rw [hx]; exact h
    · rw [hx]; exact setValueTimers_reachable _ _ _ _ h
    · rw [hx]; exact hload
  · rcases switchFolderEditorTimers_cases raisesOne s folder ts now with hx | hx
    · rw [hx]; exact h
    · rw [hx]; exact hload

/-- Witness for C24: in the state after a change event at the time 0 and the
load of a data file at the time 10, one timer of `onEditorChange` and one of
`setAutoSave` are pending.  On the page of the first visit, after a change
event at the time 0, opening `index.html` at the time 20 sets the two timers
anew through the change event of its `setValue`, and a click on the folder
`assets` at the time 20 does so too and sets a third timer, a run at 120. -/
theorem reachable_one_timer_per_handle_witness :
    TimersReachable (FileExplorer.loadDataToEditorTimers true changedOnceTimers 10) ∧
    ((FileExplorer.loadDataToEditorTimers true changedOnceTimers 10).pendingOf
        TimerCallback.debouncedRun).length ≤ 1 ∧
    ((FileExplorer.loadDataToEditorTimers true changedOnceTimers 10).pendingOf
        TimerCallback.autoSave).length ≤ 1 ∧
    (FileExplorer.openFileTimers true demoApp 1 changedOnceTimers 20).pending
      = [{ id := 3, due := 1020, callback := TimerCallback.debouncedRun },
         { id := 4, due := 2020, callback := TimerCallback.autoSave }] ∧
    (JSEditor.switchFolderEditorTimers true demoApp "assets" changedOnceTimers 20).pending
      = [{ id := 3, due := 1020, callback := TimerCallback.debouncedRun },
         { id := 4, due := 2020, callback := TimerCallback.autoSave },
         { id := 5, due := 120, callback := TimerCallback.plainRun }] :=
  ⟨loadDataToEditorTimers_reachable true _ 10 (TimersReachable.change _ _ TimersReachable.initial),
   (reachable_one_timer_per_handle _
      (loadDataToEditorTimers_reachable true _ 10
        (TimersReachable.change _ _ TimersReachable.initial))
      20 (fun _ => true) true demoApp 1 "assets").1,
   (reachable_one_timer_per_handle _
      (loadDataToEditorTimers_reachable true _ 10
        (TimersReachable.change _ _ TimersReachable.initial))
      20 (fun _ => true) true demoApp 1 "assets").2.1,
   by decide, by decide⟩
